import Mathlib

/-!
# Verification of the `revise` `.set`-file parser

A shallow embedding of the two hand-written recursive-descent parsers of the
`revise` flashcard tool (`parser/src/set.rs` and `parser/src/guess.rs`),
together with proofs of the specified properties.

Conventions of the embedding:

* Rust `&str` values are modelled as `List Char` (Unicode scalar values, which
  is exactly what Rust `char` is).  Byte offsets are recovered through
  `Char.utf8Size`, matching Rust's `len_utf8`/pointer arithmetic, because the
  `remaining` slice is always a suffix of `source`.
* Every Rust loop is modelled with an explicit fuel parameter; the outermost
  entry points supply `input.length + 2` fuel, and sufficiency of that fuel is
  proved (each loop iteration either consumes at least one character or stops).
  `none` at the outer `Option` layer of a fueled function means fuel ran out;
  it is proved unreachable for the supplied fuel.
* `NoMatch` failures are an inner `Option` layer, mirroring
  `Result<_, NoMatch>`.
* Rust `BTreeSet`/`BTreeMap`/`HashMap` values are modelled as
  insertion-ordered lists (association lists for the maps); equality of the
  Rust sets is set equality, modelled by the decidable `optionsEqb`,
  `cardEqb` and `setEqb` predicates.
-/

namespace Revise

/-- Model of Rust string slices: a list of Unicode scalar values. -/
abbrev Str := List Char

/-- A half-open byte range `start..stop`, as in Rust `Range<usize>`. -/
abbrev Span := Nat × Nat

/-- The UTF-8 byte length of a string, as in Rust `str::len`. -/
def utf8Len (s : Str) : Nat := (s.map Char.utf8Size).sum

/-- Rust `char::is_whitespace`: the Unicode `White_Space` property. -/
def rustIsWhitespace (c : Char) : Bool :=
  c.val == 0x09 || c.val == 0x0A || c.val == 0x0B || c.val == 0x0C ||
  c.val == 0x0D || c.val == 0x20 || c.val == 0x85 || c.val == 0xA0 ||
  c.val == 0x1680 || (0x2000 ≤ c.val && c.val ≤ 0x200A) ||
  c.val == 0x2028 || c.val == 0x2029 || c.val == 0x202F ||
  c.val == 0x205F || c.val == 0x3000

/-- Rust `char::is_control`: the Unicode `Cc` category. -/
def rustIsControl (c : Char) : Bool :=
  c.val < 0x20 || (0x7F ≤ c.val && c.val ≤ 0x9F)

/-- Rust `str::trim`: strip leading and trailing `White_Space` characters. -/
def strTrim (s : Str) : Str :=
  ((s.dropWhile rustIsWhitespace).reverse.dropWhile rustIsWhitespace).reverse

/-- The `ParseError` enum of `parser/src/set.rs`. -/
inductive ParseError where
  | NoTitle (line : Span)
  | EmptySet
  | DuplicateCard (original duplicate : Span)
  | ThirdPart (before span : Span)
  | MissingWhitespaceAroundDash (dash : Span)
  | NoTerms (card : Span)
  | NoDefinitions (card : Span)
  | DuplicateOption (original duplicate : Span)
  | EmptyOption (span : Span)
  | TrailingOptionChars (span : Span)
  | UnknownEscape (escape : Char) (span : Span)
  | UnclosedQuote (span : Span)
  | UnexpectedControlChar (character : Char) (span : Span)
  | ExpectedSpace (character : Char) (span : Span)
  | MissingLineFeed (crSpan : Span)
deriving DecidableEq

/-- The `ParseContext` of `parser/src/set.rs`: the full source, the remaining
suffix, and the accumulated diagnostics. -/
structure Ctx where
  source : Str
  remaining : Str
  errors : List ParseError
deriving DecidableEq

/-- `ParseContext::offset`: the byte offset of `remaining` within `source`
(the Rust pointer subtraction, valid because `remaining` is a suffix). -/
def Ctx.offset (cx : Ctx) : Nat := utf8Len cx.source - utf8Len cx.remaining

/-- Append one diagnostic (`self.errors.push(e)`). -/
def pushErr (cx : Ctx) (e : ParseError) : Ctx :=
  { cx with errors := cx.errors ++ [e] }

/-- The state restoration performed by `ParseContext::try_parse` when the
sub-parse fails: the cursor is reset and the diagnostic list is truncated to
its length at the snapshot `cx`. -/
def tryRollback (cx cxAfter : Ctx) : Ctx :=
  { cxAfter with
    remaining := cx.remaining
    errors := cxAfter.errors.take cx.errors.length }

/-- `ParseContext::try_parse`: `cx` is the snapshot taken before running the
sub-parse, `r` is the sub-parse's outcome; on failure the state is rolled
back to the snapshot, on success it is kept. -/
def tryParse {α : Type} (cx : Ctx) (r : Option α × Ctx) : Option α × Ctx :=
  match r with
  | (some v, cxAfter) => (some v, cxAfter)
  | (none, cxAfter) => (none, tryRollback cx cxAfter)

/-- `try_parse` around a fueled sub-parse (outer `none` = out of fuel). -/
def tryParseF {α : Type} (cx : Ctx) (r : Option (Option α × Ctx)) :
    Option (Option α × Ctx) :=
  r.map (tryParse cx)

/-- `parse_any`: consume and return the next character. -/
def parse_any (cx : Ctx) : Option Char × Ctx :=
  match cx.remaining with
  | [] => (none, cx)
  | c :: rest => (some c, { cx with remaining := rest })

/-- `parse_exact_char`. -/
def parse_exact_char (cx : Ctx) (expected : Char) : Option Unit × Ctx :=
  tryParse cx
    (match parse_any cx with
     | (some c, cx') => (if c = expected then some () else none, cx')
     | (none, cx') => (none, cx'))

/-- `parse_character`: any character other than CR/LF; control characters are
consumed but flagged. -/
def parse_character (cx : Ctx) : Option Char × Ctx :=
  match tryParse cx
      (match parse_any cx with
       | (some c, cx') =>
           (if c ≠ '\r' ∧ c ≠ '\n' then some c else none, cx')
       | (none, cx') => (none, cx')) with
  | (some c, cx') =>
      if rustIsControl c then
        (some c, pushErr cx'
          (.UnexpectedControlChar c (cx'.offset - c.utf8Size, cx'.offset)))
      else (some c, cx')
  | (none, cx') => (none, cx')

/-- `parse_ws`: one non-CR/LF whitespace character; non-space whitespace is
flagged with `ExpectedSpace`. -/
def parse_ws (cx : Ctx) : Option Unit × Ctx :=
  match tryParse cx
      (match parse_any cx with
       | (some c, cx') =>
           (if c ≠ '\r' ∧ c ≠ '\n' ∧ rustIsWhitespace c then some c else none,
             cx')
       | (none, cx') => (none, cx')) with
  | (some c, cx') =>
      if c ≠ ' ' then
        (some (), pushErr cx'
          (.ExpectedSpace c (cx'.offset - c.utf8Size, cx'.offset)))
      else (some (), cx')
  | (none, cx') => (none, cx')

/-- `parse_option_ws`: one non-CR/LF whitespace character, returned so it can
be pushed into an option; control whitespace is flagged. -/
def parse_option_ws (cx : Ctx) : Option Char × Ctx :=
  match tryParse cx
      (match parse_any cx with
       | (some c, cx') =>
           (if rustIsWhitespace c ∧ c ≠ '\r' ∧ c ≠ '\n' then some c else none,
             cx')
       | (none, cx') => (none, cx')) with
  | (some c, cx') =>
      if rustIsControl c then
        (some c, pushErr cx'
          (.UnexpectedControlChar c (cx'.offset - c.utf8Size, cx'.offset)))
      else (some c, cx')
  | (none, cx') => (none, cx')

/-- `parse_option_atom`: one character excluding `,`, `-`, `#` and
whitespace (rolled back, including any control-char diagnostic, if the
filter rejects it). -/
def parse_option_atom (cx : Ctx) : Option Char × Ctx :=
  tryParse cx
    (match parse_character cx with
     | (some c, cx') =>
         (if c ≠ ',' ∧ c ≠ '-' ∧ c ≠ '#' ∧ ¬rustIsWhitespace c then some c
          else none, cx')
     | (none, cx') => (none, cx'))

/-- `parse_newline`: LF, or CR optionally followed by LF (a missing LF is
flagged but the line break is still honored). -/
def parse_newline (cx : Ctx) : Option Unit × Ctx :=
  match tryParse cx
      (match parse_any cx with
       | (some c, cx') =>
           (if c = '\r' ∨ c = '\n' then some c else none, cx')
       | (none, cx') => (none, cx')) with
  | (some c, cx') =>
      if c = '\r' then
        match parse_exact_char cx' '\n' with
        | (some _, cx'') => (some (), cx'')
        | (none, cx'') =>
            (some (), pushErr cx''
              (.MissingLineFeed (cx''.offset - 1, cx''.offset)))
      else (some (), cx')
  | (none, cx') => (none, cx')

/-- `while parse_ws(cx).is_ok() {}` (fueled; outer `none` = out of fuel). -/
def skipWs : Nat → Ctx → Option Ctx
  | 0, _ => none
  | fuel + 1, cx =>
    match parse_ws cx with
    | (some _, cx') => skipWs fuel cx'
    | (none, cx') => some cx'

/-- `while parse_character(cx).is_ok() {}` — the comment body loop. -/
def charSkip : Nat → Ctx → Option Ctx
  | 0, _ => none
  | fuel + 1, cx =>
    match parse_character cx with
    | (some _, cx') => charSkip fuel cx'
    | (none, cx') => some cx'

/-- `parse_comment`: a `#` followed by the rest of the line. -/
def parse_comment (fuel : Nat) (cx : Ctx) : Option Ctx :=
  match parse_exact_char cx '#' with
  | (some _, cx') => charSkip fuel cx'
  | (none, cx') => some cx'

/-- `parse_blank_line`: skip whitespace, then an optional comment. -/
def parse_blank_line (fuel : Nat) (cx : Ctx) : Option Ctx :=
  (skipWs fuel cx).bind (parse_comment fuel)

/-- The loop of `parse_title` (also reused by the third-part recovery in
`parse_card`): accumulate characters that are not `#` (and not CR/LF). -/
def titleChars : Nat → Ctx → Str → Option (Str × Ctx)
  | 0, _, _ => none
  | fuel + 1, cx, acc =>
    match tryParse cx
        (match parse_character cx with
         | (some c, cx') => (if c ≠ '#' then some c else none, cx')
         | (none, cx') => (none, cx')) with
    | (some c, cx') => titleChars fuel cx' (acc ++ [c])
    | (none, cx') => some (acc, cx')

/-- `parse_title`: the title line, trimmed; an empty title is diagnosed. -/
def parse_title (fuel : Nat) (cx : Ctx) : Option (Str × Ctx) :=
  let titleLineStart := cx.offset
  (titleChars fuel cx []).bind fun r =>
    let title := strTrim r.1
    let cx₂ :=
      if title = [] then pushErr r.2 (.NoTitle (titleLineStart, r.2.offset))
      else r.2
    (parse_comment fuel cx₂).map fun cx₃ => (title, cx₃)

/-- The character loop of `parse_quoted` (document grammar): `ss` is the
byte offset of the opening quote. -/
def quotedLoop : Nat → Ctx → Str → Nat → Option (Str × Ctx)
  | 0, _, _, _ => none
  | fuel + 1, cx, acc, ss =>
    match parse_character cx with
    | (some c, cx₁) =>
      if c = '\\' then
        let escapeOffset := cx₁.offset
        match parse_any cx₁ with
        | (some c₂, cx₂) =>
            if c₂ = '"' ∨ c₂ = '\\' then quotedLoop fuel cx₂ (acc ++ [c₂]) ss
            else
              quotedLoop fuel
                (pushErr cx₂ (.UnknownEscape c₂ (escapeOffset, cx₂.offset)))
                acc ss
        | (none, cx₂) => quotedLoop fuel cx₂ acc ss
      else if c = '"' then some (acc, cx₁)
      else quotedLoop fuel cx₁ (acc ++ [c]) ss
    | (none, cx₁) =>
        some (acc, pushErr cx₁ (.UnclosedQuote (ss, cx₁.offset)))

/-- `parse_quoted` (document grammar): fails only when there is no opening
quote; an unterminated quote is diagnosed but still yields the collected
characters. -/
def parse_quoted (fuel : Nat) (cx : Ctx) : Option (Option Str × Ctx) :=
  let stringStart := cx.offset
  match parse_exact_char cx '"' with
  | (some _, cx') =>
      (quotedLoop fuel cx' [] stringStart).map fun r => (some r.1, r.2)
  | (none, cx') => some (none, cx')

/-- `while parse_exact_char(cx, '-').is_ok() { value.push('-') }`. -/
def dashRun : Nat → Ctx → Str → Option (Str × Ctx)
  | 0, _, _ => none
  | fuel + 1, cx, v =>
    match parse_exact_char cx '-' with
    | (some _, cx') => dashRun fuel cx' (v ++ ['-'])
    | (none, cx') => some (v, cx')

/-- `while let Ok(c) = parse_option_ws(cx) { value.push(c) }`. -/
def wsRun : Nat → Ctx → Str → Option (Str × Ctx)
  | 0, _, _ => none
  | fuel + 1, cx, v =>
    match parse_option_ws cx with
    | (some c, cx') => wsRun fuel cx' (v ++ [c])
    | (none, cx') => some (v, cx')

/-- The body of the continuation loop of `parse_option` (document grammar):
a dash run (when the next character is a dash) or a whitespace run, followed
by one mandatory atom.  Inner `none` = the atom failed (`NoMatch`). -/
def optStep (fuel : Nat) (cx : Ctx) (v : Str) : Option (Option Str × Ctx) :=
  (if cx.remaining.head? = some '-' then dashRun fuel cx v
   else wsRun fuel cx v).map fun r =>
    match parse_option_atom r.2 with
    | (some c, cx₂) => (some (r.1 ++ [c]), cx₂)
    | (none, cx₂) => (none, cx₂)

/-- The continuation loop of `parse_option` (document grammar).  The boolean
tracks `trailing_atoms`; on a failed step the value is truncated back and the
state rolled back, exactly as in the source. -/
def optLoop : Nat → Ctx → Str → Bool → Option (Str × Ctx × Bool)
  | 0, _, _, _ => none
  | fuel + 1, cx, v, trailing =>
    match tryParseF cx (optStep (fuel + 1) cx v) with
    | none => none
    | some (some v', cx') => optLoop fuel cx' v' true
    | some (none, cx') => some (v, cx', trailing)

/-- `parse_option` (document grammar): a quoted string or an atom, extended
by dash runs and whitespace-separated atoms; characters following a closing
quote are appended but flagged with `TrailingOptionChars`. -/
def parse_option (fuel : Nat) (cx : Ctx) : Option (Option Str × Ctx) :=
  match parse_quoted fuel cx with
  | none => none
  | some (some q, cx₁) =>
      (optLoop fuel cx₁ q false).map fun r =>
        let cx₂ :=
          if r.2.2 then
            pushErr r.2.1 (.TrailingOptionChars (cx₁.offset, r.2.1.offset))
          else r.2.1
        (some r.1, cx₂)
  | some (none, cx₁) =>
      match parse_option_atom cx₁ with
      | (some c, cx₂) =>
          (optLoop fuel cx₂ [c] false).map fun r => (some r.1, r.2.1)
      | (none, cx₂) => some (none, cx₂)

/-- A card: terms and definitions.  The Rust `BTreeSet<String>` fields are
modelled as insertion-ordered duplicate-free lists; card equality is the set
equality `cardEqb` below. -/
structure Card where
  terms : List Str
  definitions : List Str
deriving DecidableEq

/-- A parsed `.set` file.  The Rust `HashSet<Card>` is modelled as an
insertion-ordered duplicate-free list; set equality is `setEqb` below. -/
structure Set where
  title : Str
  cards : List Card
deriving DecidableEq

/-- Set equality of two option lists (Rust `BTreeSet<String>` equality). -/
def optionsEqb (a b : List Str) : Bool :=
  a.all (fun x => b.contains x) && b.all (fun x => a.contains x)

/-- Rust `Card` equality: terms and definitions agree as sets. -/
def cardEqb (a b : Card) : Bool :=
  optionsEqb a.terms b.terms && optionsEqb a.definitions b.definitions

/-- Rust `Set` equality: same title and the same set of cards. -/
def setEqb (a b : Set) : Bool :=
  a.title == b.title &&
  a.cards.all (fun c => b.cards.any (cardEqb c)) &&
  b.cards.all (fun c => a.cards.any (cardEqb c))

/-- Lookup in the `BTreeMap<String, Range<usize>>` of `parse_options`. -/
def lookupStr : List (Str × Span) → Str → Option Span
  | [], _ => none
  | (k, v) :: rest, key => if k = key then some v else lookupStr rest key

/-- The `add_option` closure of `parse_options`: empty options and
duplicates are diagnosed and not inserted. -/
def addOption (opts : List (Str × Span)) (cx : Ctx) (opt : Str)
    (span : Span) : List (Str × Span) × Ctx :=
  if opt = [] then (opts, pushErr cx (.EmptyOption span))
  else
    match lookupStr opts opt with
    | some orig => (opts, pushErr cx (.DuplicateOption orig span))
    | none => (opts ++ [(opt, span)], cx)

/-- One iteration of the `parse_options` loop after the comma handling:
the attempted `(whitespace, option, add_option)` block, with the
`EmptyOption` recovery on failure.  `os` is the Rust `option_start`; the
Rust `real_option_start` is always assigned (after the whitespace skip)
before the attempted option can fail, so it is threaded directly here. -/
def optionsIterStep (fuel : Nat) (cxI : Ctx) (opts : List (Str × Span))
    (os : Nat) : Option (List (Str × Span) × Ctx) :=
  match skipWs fuel cxI with
  | none => none
  | some cxC =>
    let real := cxC.offset
    match parse_option fuel cxC with
    | none => none
    | some (some opt, cxD) => some (addOption opts cxD opt (real, cxD.offset))
    | some (none, cxD) =>
        let cxR := tryRollback cxI cxD
        let stop := if cxC.remaining.head? = some ',' then real + 1 else real
        some (opts, pushErr cxR (.EmptyOption (os, stop)))

/-- The main loop of `parse_options`.  `optionStart` is the Rust
`option_start` variable, `already` is `already_parsed_comma`. -/
def optionsLoop :
    Nat → Ctx → List (Str × Span) → Nat → Bool →
    Option (List (Str × Span) × Ctx)
  | 0, _, _, _, _ => none
  | fuel + 1, cx, opts, optionStart, already =>
    let comma : Option ((Nat × Ctx) ⊕ Ctx) :=
      if already then some (.inl (optionStart, cx))
      else
        match skipWs (fuel + 1) cx with
        | none => none
        | some cxA =>
          match parse_exact_char cxA ',' with
          | (some _, cxB) => some (.inl (cxA.offset, cxB))
          | (none, cxB) => some (.inr (tryRollback cx cxB))
    match comma with
    | none => none
    | some (.inr cxE) => some (opts, cxE)
    | some (.inl (os, cxI)) =>
      match optionsIterStep (fuel + 1) cxI opts os with
      | none => none
      | some (opts', cx') => optionsLoop fuel cx' opts' os false

/-- `parse_options` (document grammar): a comma-separated option list;
fails (`NoMatch`) only when the first option fails and there is no leading
comma. -/
def parse_options (fuel : Nat) (cx : Ctx) :
    Option (Option (List (Str × Span)) × Ctx) :=
  let optionStart := cx.offset
  match parse_exact_char cx ',' with
  | (some _, cx₁) =>
      (optionsLoop fuel
          (pushErr cx₁ (.EmptyOption (optionStart, cx₁.offset))) []
          optionStart true).map fun r => (some r.1, r.2)
  | (none, cx₁) =>
    match parse_option fuel cx₁ with
    | none => none
    | some (none, cx₂) => some (none, cx₂)
    | some (some opt, cx₂) =>
        let r := addOption [] cx₂ opt (optionStart, cx₂.offset)
        (optionsLoop fuel r.2 r.1 optionStart false).map fun r₂ =>
          (some r₂.1, r₂.2)

/-- The first `try_parse` block of `parse_card`: terms, pre-dash whitespace
and the dash.  Returns the parsed options (empty when absent), whether a dash
was found, and whether whitespace preceded the dash.  `space_before_dash` is
set exactly when the whitespace loop consumed something; each `parse_ws`
success consumes exactly one character, so it is modelled by a length
comparison. -/
def termsBody (fuel : Nat) (cx₀ : Ctx) :
    Option (Option (List (Str × Span) × Bool × Bool) × Ctx) :=
  match tryParseF cx₀
      ((skipWs fuel cx₀).bind fun cxA => parse_options fuel cxA) with
  | none => none
  | some (optRes, cx₁) =>
    match skipWs fuel cx₁ with
    | none => none
    | some cx₂ =>
      let spaceBefore : Bool := cx₂.remaining.length < cx₁.remaining.length
      match parse_exact_char cx₂ '-' with
      | (some _, cx₃) =>
          some (some (optRes.getD [], true, spaceBefore), cx₃)
      | (none, cx₃) =>
          if optRes.isSome then
            some (some (optRes.getD [], false, spaceBefore), cx₃)
          else some (none, cx₃)

/-- The third-part recovery at the end of a card: if another dash follows,
consume the rest of the line and flag it as `ThirdPart`. -/
def thirdPartTail (fuel : Nat) (cardStart : Nat) (defs : List (Str × Span))
    (cx₅ : Ctx) : Option (List (Str × Span) × Ctx) :=
  let thirdStart := cx₅.offset
  match parse_exact_char cx₅ '-' with
  | (some _, cx₆) =>
      (titleChars fuel cx₆ []).map fun r =>
        (defs,
         pushErr r.2
           (.ThirdPart (cardStart, thirdStart) (thirdStart, r.2.offset)))
  | (none, cx₆) => some (defs, cx₆)

/-- The definitions half of `parse_card` (after a separator dash was
found): post-dash whitespace, the `MissingWhitespaceAroundDash` check, the
definition options, and the third-part recovery. -/
def cardDefs (fuel : Nat) (cardStart : Nat) (cx₁ : Ctx)
    (spaceBefore : Bool) : Option (List (Str × Span) × Ctx) :=
  let dashSpan : Span := (cx₁.offset - 1, cx₁.offset)
  match skipWs fuel cx₁ with
  | none => none
  | some cx₂ =>
    let spaceAfter : Bool := cx₂.remaining.length < cx₁.remaining.length
    let cx₃ :=
      if !spaceBefore || !spaceAfter then
        pushErr cx₂ (.MissingWhitespaceAroundDash dashSpan)
      else cx₂
    match parse_options fuel cx₃ with
    | none => none
    | some (defsRes, cx₄) =>
      (if defsRes.isSome then skipWs fuel cx₄ else some cx₄).bind
        (thirdPartTail fuel cardStart (defsRes.getD []))

/-- The tail of `parse_card`: the `NoTerms`/`NoDefinitions` checks and the
trailing comment. -/
def cardFinish (fuel : Nat) (cardStart : Nat) (terms defs : List (Str × Span))
    (cxD : Ctx) : Option (Option Card × Ctx) :=
  let cxE :=
    if terms = [] then pushErr cxD (.NoTerms (cardStart, cxD.offset))
    else cxD
  let cxF :=
    if defs = [] then pushErr cxE (.NoDefinitions (cardStart, cxE.offset))
    else cxE
  (parse_comment fuel cxF).map fun cxG =>
    (some ⟨terms.map Prod.fst, defs.map Prod.fst⟩, cxG)

/-- `parse_card`: one card line `terms - definitions`, with the soft
diagnostics of the source (`MissingWhitespaceAroundDash`, `ThirdPart`,
`NoTerms`, `NoDefinitions`) and a trailing comment. -/
def parse_card (fuel : Nat) (cx : Ctx) : Option (Option Card × Ctx) :=
  let cardStart := cx.offset
  match tryParseF cx (termsBody fuel cx) with
  | none => none
  | some (none, cx₁) => some (none, cx₁)
  | some (some (terms, hasDash, spaceBefore), cx₁) =>
    (if hasDash then cardDefs fuel cardStart cx₁ spaceBefore
     else some (([] : List (Str × Span)), cx₁)).bind fun r =>
      cardFinish fuel cardStart terms r.1 r.2

/-- The leading blank-line loop of `parse_set_inner`. -/
def skipBlankLines : Nat → Ctx → Option Ctx
  | 0, _ => none
  | fuel + 1, cx =>
    match tryParseF cx
        ((parse_blank_line (fuel + 1) cx).map fun cxB =>
          parse_newline cxB) with
    | none => none
    | some (some _, cx') => skipBlankLines fuel cx'
    | some (none, cx') => some cx'

/-- Lookup in the `HashMap<Card, Range<usize>>` of `parse_set_inner`;
Rust `Card` equality is set equality of terms and of definitions. -/
def lookupCard : List (Card × Span) → Card → Option Span
  | [], _ => none
  | (k, v) :: rest, key => if cardEqb k key then some v else lookupCard rest key

/-- The card loop of `parse_set_inner`: while a newline follows, parse a
card (deduplicating) or skip a blank line. -/
def cardsLoop : Nat → Ctx → List (Card × Span) → Option (List (Card × Span) × Ctx)
  | 0, _, _ => none
  | fuel + 1, cx, cards =>
    match parse_newline cx with
    | (none, cx') => some (cards, cx')
    | (some _, cx₁) =>
      let cardStart := cx₁.offset
      match parse_card (fuel + 1) cx₁ with
      | none => none
      | some (some card, cx₂) =>
        match lookupCard cards card with
        | some orig =>
            cardsLoop fuel
              (pushErr cx₂ (.DuplicateCard orig (cardStart, cx₂.offset)))
              cards
        | none => cardsLoop fuel cx₂ (cards ++ [(card, (cardStart, cx₂.offset))])
      | some (none, cx₂) =>
        match parse_blank_line (fuel + 1) cx₂ with
        | none => none
        | some cx₃ => cardsLoop fuel cx₃ cards

/-- `parse_set_inner`: blank lines, the title, the card loop, and the
`EmptySet` check. -/
def parse_set_inner (fuel : Nat) (cx : Ctx) : Option (Set × Ctx) :=
  (skipBlankLines fuel cx).bind fun cx₁ =>
  (parse_title fuel cx₁).bind fun tr =>
  (cardsLoop fuel tr.2 []).bind fun cr =>
  let cx₄ := if cr.1 = [] then pushErr cr.2 .EmptySet else cr.2
  some (⟨tr.1, cr.1.map Prod.fst⟩, cx₄)

/-- The observable outcome of `parse_set`: success, a diagnostic list, or
the `panic!("Trailing characters")` (with the offending remainder). -/
inductive PResult where
  | ok (set : Set)
  | err (errors : List ParseError)
  | panicked (remaining : Str)
deriving DecidableEq

/-- The initial parse context for an input document. -/
def initCtx (input : Str) : Ctx := ⟨input, input, []⟩

/-- `parse_set`, the public document entry point.  The fuel
`input.length + 2` is proved sufficient (`none` is unreachable). -/
def parse_set (input : Str) : Option PResult :=
  (parse_set_inner (input.length + 2) (initCtx input)).map fun r =>
    if r.2.remaining ≠ [] then .panicked r.2.remaining
    else if r.2.errors = [] then .ok r.1
    else .err r.2.errors

namespace Guess

/-- The `ParseContext` of `parser/src/guess.rs`: just a remaining suffix. -/
structure GCtx where
  remaining : Str
deriving DecidableEq

/-- `try_parse` of the guess parser: on failure only the cursor is
restored (there is no diagnostic list). -/
def gTry {α : Type} (cx : GCtx) (r : Option α × GCtx) : Option α × GCtx :=
  match r with
  | (some v, cxAfter) => (some v, cxAfter)
  | (none, _) => (none, cx)

/-- `parse_any` (guess grammar). -/
def parse_any (cx : GCtx) : Option Char × GCtx :=
  match cx.remaining with
  | [] => (none, cx)
  | c :: rest => (some c, ⟨rest⟩)

/-- `parse_exact_char` (guess grammar). -/
def parse_exact_char (cx : GCtx) (expected : Char) : Option Unit × GCtx :=
  gTry cx
    (match parse_any cx with
     | (some c, cx') => (if c = expected then some () else none, cx')
     | (none, cx') => (none, cx'))

/-- `parse_whitespace` (guess grammar): any Unicode whitespace, CR/LF
included. -/
def parse_whitespace (cx : GCtx) : Option Char × GCtx :=
  gTry cx
    (match parse_any cx with
     | (some c, cx') => (if rustIsWhitespace c then some c else none, cx')
     | (none, cx') => (none, cx'))

/-- `parse_option_atom` (guess grammar): any character except `,` and
whitespace. -/
def parse_option_atom (cx : GCtx) : Option Char × GCtx :=
  gTry cx
    (match parse_any cx with
     | (some c, cx') =>
         (if c ≠ ',' ∧ ¬rustIsWhitespace c then some c else none, cx')
     | (none, cx') => (none, cx'))

/-- The character loop of `parse_quoted` (guess grammar): every escaped
character is copied verbatim; end of input and a closing quote both stop. -/
def quotedLoop : Nat → GCtx → Str → Option (Str × GCtx)
  | 0, _, _ => none
  | fuel + 1, cx, acc =>
    match parse_any cx with
    | (some c, cx₁) =>
      if c = '\\' then
        match parse_any cx₁ with
        | (some c₂, cx₂) => quotedLoop fuel cx₂ (acc ++ [c₂])
        | (none, cx₂) => quotedLoop fuel cx₂ acc
      else if c = '"' then some (acc, cx₁)
      else quotedLoop fuel cx₁ (acc ++ [c])
    | (none, cx₁) => some (acc, cx₁)

/-- `parse_quoted` (guess grammar): fails only without an opening quote. -/
def parse_quoted (fuel : Nat) (cx : GCtx) : Option (Option Str × GCtx) :=
  match parse_exact_char cx '"' with
  | (some _, cx') => (quotedLoop fuel cx' []).map fun r => (some r.1, r.2)
  | (none, cx') => some (none, cx')

/-- `while let Ok(c) = parse_whitespace(cx) { value.push(c) }`. -/
def wsRun : Nat → GCtx → Str → Option (Str × GCtx)
  | 0, _, _ => none
  | fuel + 1, cx, v =>
    match parse_whitespace cx with
    | (some c, cx') => wsRun fuel cx' (v ++ [c])
    | (none, cx') => some (v, cx')

/-- The continuation loop of the unquoted branch of `parse_option` (guess
grammar): whitespace runs joined to further atoms, truncated and rolled back
on failure. -/
def optLoop : Nat → GCtx → Str → Option (Str × GCtx)
  | 0, _, _ => none
  | fuel + 1, cx, v =>
    match (wsRun (fuel + 1) cx v).map fun r =>
        (match parse_option_atom r.2 with
         | (some c, cx₂) => (some (r.1 ++ [c]), cx₂)
         | (none, cx₂) => ((none : Option Str), cx₂)) with
    | none => none
    | some (some v', cx') => optLoop fuel cx' v'
    | some (none, _) => some (v, cx)

/-- `parse_option` (guess grammar): a quoted string (returned as-is, with no
trailing-atom handling), or an atom run joined by internal whitespace. -/
def parse_option (fuel : Nat) (cx : GCtx) : Option (Option Str × GCtx) :=
  match parse_quoted fuel cx with
  | none => none
  | some (some q, cx₁) => some (some q, cx₁)
  | some (none, cx₁) =>
    match parse_option_atom cx₁ with
    | (some c, cx₂) => (optLoop fuel cx₂ [c]).map fun r => (some r.1, r.2)
    | (none, cx₂) => some (none, cx₂)

/-- `BTreeSet::insert`: append if not already present. -/
def insertStr (opts : List Str) (opt : Str) : List Str :=
  if opts.contains opt then opts else opts ++ [opt]

/-- The loop of `parse_guess_inner`: skip whitespace, optionally parse an
option (dropping empty ones), then continue only past a comma. -/
def innerLoop : Nat → GCtx → List Str → Option (List Str × GCtx)
  | 0, _, _ => none
  | fuel + 1, cx, opts =>
    match wsRun (fuel + 1) cx [] with
    | none => none
    | some (_, cx₁) =>
      match parse_option (fuel + 1) cx₁ with
      | none => none
      | some (some opt, cx₂) =>
        let opts' := if opt = [] then opts else insertStr opts opt
        match wsRun (fuel + 1) cx₂ [] with
        | none => none
        | some (_, cx₃) =>
          match parse_exact_char cx₃ ',' with
          | (some _, cx₄) => innerLoop fuel cx₄ opts'
          | (none, cx₄) => some (opts', cx₄)
      | some (none, cx₂) =>
        match parse_exact_char cx₂ ',' with
        | (some _, cx₃) => innerLoop fuel cx₃ opts
        | (none, cx₃) => some (opts, cx₃)

end Guess

/-- The observable outcome of `parse_guess`: the option set, or the
`panic!("Trailing characters")` (with the offending remainder). -/
inductive GuessResult where
  | finished (options : List Str)
  | panicked (remaining : Str)
deriving DecidableEq

/-- `parse_guess`, the public answer-checking entry point.  The fuel
`input.length + 2` is proved sufficient (`none` is unreachable). -/
def parse_guess (input : Str) : Option GuessResult :=
  (Guess.innerLoop (input.length + 2) ⟨input⟩ []).map fun r =>
    if r.2.remaining ≠ [] then .panicked r.2.remaining
    else .finished r.1

/-- The apostrophe character (U+0027). -/
def aposChar : Char := Char.ofNat 39

/-- Re-render a card as a `term,term - def,def` line. -/
def renderCard (c : Card) : Str :=
  List.intercalate [','] c.terms ++ [' ', '-', ' '] ++
    List.intercalate [','] c.definitions

/-- Re-render a parsed set as a document: the title line, then one line per
card. -/
def renderSet (s : Set) : Str :=
  s.title ++ (s.cards.map (fun c => '\n' :: renderCard c)).flatten

end Revise

namespace Revise

/-- The extension relation on diagnostic lists: a parser only ever appends
diagnostics (except for the rollback of `try_parse`, which truncates back to
a previously seen list). -/
def errsExtend (e₁ e₂ : List ParseError) : Prop := ∃ t, e₂ = e₁ ++ t

/-- The characters consumed by `parse_ws`/`parse_option_ws`: non-CR/LF
whitespace. -/
def isFieldWs (c : Char) : Bool := rustIsWhitespace c && c != '\r' && c != '\n'

/-- Drop the leading field-separator whitespace (what a `while parse_ws`
loop consumes). -/
def dropWsP (s : Str) : Str := s.dropWhile isFieldWs

/-- A cursor standing at the very end of a line: nothing left, or a CR or
LF next. -/
def atLineEnd (s : Str) : Prop :=
  s = [] ∨ (∃ rest, s = '\r' :: rest) ∨ (∃ rest, s = '\n' :: rest)

/-- The boundary reached after a successful `parse_option`: after the
field whitespace, only a comma, dash, hash, line break or the end of input
can follow. -/
def optBoundary (s : Str) : Prop :=
  match dropWsP s with
  | [] => True
  | c :: _ => c = ',' ∨ c = '-' ∨ c = '#' ∨ c = '\r' ∨ c = '\n'

/-- The boundary reached after a successful `parse_options`: as
`optBoundary` but with the comma consumed by the loop. -/
def optionsBoundary (s : Str) : Prop :=
  match dropWsP s with
  | [] => True
  | c :: _ => c = '-' ∨ c = '#' ∨ c = '\r' ∨ c = '\n'

/-- Replace every LF line ending (an LF not part of a CRLF pair) by CRLF;
CRLF pairs and lone CRs are left unchanged. -/
def crlfOf : Str → Str
  | [] => []
  | '\r' :: '\n' :: rest => '\r' :: '\n' :: crlfOf rest
  | '\n' :: rest => '\r' :: '\n' :: crlfOf rest
  | c :: rest => c :: crlfOf rest

/-- The simulation relation between a parse of a document and the parse of
its CRLF version: the remaining input of the second run is the CRLF version
of that of the first, and the diagnostic lists have equal length. -/
def CtxRel (cx₁ cx₂ : Ctx) : Prop :=
  cx₂.remaining = crlfOf cx₁.remaining ∧
  cx₂.errors.length = cx₁.errors.length

/-- The CRLF simulation property of a single-step parser: on related
contexts the two runs return the same value and leave related contexts. -/
def SimStep {α : Type} (p : Ctx → Option α × Ctx) : Prop :=
  ∀ cx₁ cx₂ : Ctx, cx₂.remaining = crlfOf cx₁.remaining →
    cx₂.errors.length = cx₁.errors.length →
    (p cx₂).1 = (p cx₁).1 ∧
    (p cx₂).2.remaining = crlfOf (p cx₁).2.remaining ∧
    (p cx₂).2.errors.length = (p cx₁).2.errors.length

/-- The set parsed from the counterexample document of C8 (one card whose
single term contains a comma, obtained through a quoted option). -/
def c8SetQuoted : Set :=
  { title := ['t'],
    cards := [{ terms := [['a', ',', 'b']], definitions := [['c']] }] }

/-- The set parsed from the re-rendering of `c8SetQuoted`. -/
def c8SetPlain : Set :=
  { title := ['t'],
    cards := [{ terms := [['a'], ['b']], definitions := [['c']] }] }

/-- The character classes rejected by `parse_option_atom`. -/
def atomRejects (c : Char) : Prop :=
  c = '\r' ∨ c = '\n' ∨ c = ',' ∨ c = '-' ∨ c = '#' ∨ rustIsWhitespace c

instance (c : Char) : Decidable (atomRejects c) := by
  unfold atomRejects; infer_instance

/-- The characters consumed by `parse_character`: anything but CR/LF. -/
def isLineChar (c : Char) : Bool := c != '\r' && c != '\n'

/-- The characters consumed by the title loop: anything but CR/LF/`#`. -/
def isTitleChar (c : Char) : Bool := c != '\r' && c != '\n' && c != '#'

/-- The remaining input after `parse_comment`. -/
def commentRest (s : Str) : Str :=
  match s with
  | c :: rest => if c = '#' then rest.dropWhile isLineChar else c :: rest
  | [] => []

/-- The dash characters consumed by the dash-run loop. -/
def isDash (c : Char) : Bool := c == '-'

/-- A position at which `parse_option` can match: a quote or an atom
character. -/
def optionStarts (s : Str) : Prop :=
  ∃ c rest, s = c :: rest ∧ (c = '"' ∨ ¬atomRejects c)

/-- A blank-or-comment line position: after field whitespace, only a
comment, a line break or the end of input follows. -/
def blankish (s : Str) : Prop :=
  atLineEnd (dropWsP s) ∨ (dropWsP s).head? = some '#'

/-- The position after a card's definitions: only a third-part dash, a
comment, a line break or the end of input follows. -/
def dashish (s : Str) : Prop :=
  s = [] ∨ ∃ c r, s = c :: r ∧ (c = '-' ∨ c = '#' ∨ c = '\r' ∨ c = '\n')

/-! ## Supporting lemmas -/

theorem errsExtend_refl (e : List ParseError) : errsExtend e e := ⟨[], by simp⟩

theorem errsExtend_trans {a b c : List ParseError}
    (h₁ : errsExtend a b) (h₂ : errsExtend b c) : errsExtend a c := by
  obtain ⟨t₁, rfl⟩ := h₁
  obtain ⟨t₂, rfl⟩ := h₂
  exact ⟨t₁ ++ t₂, by simp⟩

theorem errsExtend_push (e : List ParseError) (x : ParseError) :
    errsExtend e (e ++ [x]) := ⟨[x], rfl⟩

theorem errsExtend_eq {a b : List ParseError} (h : b = a) : errsExtend a b :=
  ⟨[], by simp [h]⟩

theorem errsExtend_take {a b : List ParseError} (h : errsExtend a b) :
    b.take a.length = a := by
  obtain ⟨t, rfl⟩ := h
  simp [List.take_left]

/-! ### Characterizations of the primitive parsers -/

theorem parse_any_nil (src : Str) (errs : List ParseError) :
    parse_any ⟨src, [], errs⟩ = (none, ⟨src, [], errs⟩) := rfl

theorem parse_any_cons (src : Str) (c : Char) (rest : Str)
    (errs : List ParseError) :
    parse_any ⟨src, c :: rest, errs⟩ = (some c, ⟨src, rest, errs⟩) := rfl

theorem parse_exact_char_nil (src : Str) (errs : List ParseError) (e : Char) :
    parse_exact_char ⟨src, [], errs⟩ e = (none, ⟨src, [], errs⟩) := by
  simp [parse_exact_char, parse_any, tryParse, tryRollback]

theorem parse_exact_char_cons (src : Str) (c : Char) (rest : Str)
    (errs : List ParseError) (e : Char) :
    parse_exact_char ⟨src, c :: rest, errs⟩ e =
      if c = e then (some (), ⟨src, rest, errs⟩)
      else (none, ⟨src, c :: rest, errs⟩) := by
  by_cases h : c = e <;>
    simp [parse_exact_char, parse_any, tryParse, tryRollback, h]

theorem parse_character_nil (src : Str) (errs : List ParseError) :
    parse_character ⟨src, [], errs⟩ = (none, ⟨src, [], errs⟩) := by
  simp [parse_character, parse_any, tryParse, tryRollback]

theorem parse_character_crlf (src : Str) (c : Char) (rest : Str)
    (errs : List ParseError) (h : c = '\r' ∨ c = '\n') :
    parse_character ⟨src, c :: rest, errs⟩ = (none, ⟨src, c :: rest, errs⟩) := by
  rcases h with h | h <;>
    simp [parse_character, parse_any, tryParse, tryRollback, h]

theorem parse_character_cons (src : Str) (c : Char) (rest : Str)
    (errs : List ParseError) (h₁ : c ≠ '\r') (h₂ : c ≠ '\n') :
    parse_character ⟨src, c :: rest, errs⟩ =
      (some c,
        if rustIsControl c then
          pushErr ⟨src, rest, errs⟩
            (.UnexpectedControlChar c
              (Ctx.offset ⟨src, rest, errs⟩ - c.utf8Size,
               Ctx.offset ⟨src, rest, errs⟩))
        else ⟨src, rest, errs⟩) := by
  by_cases hc : rustIsControl c <;>
    simp [parse_character, parse_any, tryParse, tryRollback, h₁, h₂, hc]

theorem parse_ws_nil (src : Str) (errs : List ParseError) :
    parse_ws ⟨src, [], errs⟩ = (none, ⟨src, [], errs⟩) := by
  simp [parse_ws, parse_any, tryParse, tryRollback]

theorem isFieldWs_iff (c : Char) :
    isFieldWs c = true ↔ rustIsWhitespace c ∧ c ≠ '\r' ∧ c ≠ '\n' := by
  simp [isFieldWs, and_assoc]

theorem isFieldWs_not {c : Char} (h : isFieldWs c = false) :
    ¬(rustIsWhitespace c ∧ c ≠ '\r' ∧ c ≠ '\n') := by
  intro hh
  rw [← isFieldWs_iff] at hh
  simp [h] at hh

theorem parse_ws_no (src : Str) (c : Char) (rest : Str)
    (errs : List ParseError) (h : isFieldWs c = false) :
    parse_ws ⟨src, c :: rest, errs⟩ = (none, ⟨src, c :: rest, errs⟩) := by
  have h' : ¬(c ≠ '\r' ∧ c ≠ '\n' ∧ rustIsWhitespace c) := by
    intro ⟨a, b, d⟩
    exact isFieldWs_not h ⟨d, a, b⟩
  simp [parse_ws, parse_any, tryParse, tryRollback, h']

theorem parse_ws_yes (src : Str) (c : Char) (rest : Str)
    (errs : List ParseError) (h : isFieldWs c = true) :
    parse_ws ⟨src, c :: rest, errs⟩ =
      (some (),
        if c ≠ ' ' then
          pushErr ⟨src, rest, errs⟩
            (.ExpectedSpace c
              (Ctx.offset ⟨src, rest, errs⟩ - c.utf8Size,
               Ctx.offset ⟨src, rest, errs⟩))
        else ⟨src, rest, errs⟩) := by
  obtain ⟨hw, hr, hn⟩ := (isFieldWs_iff c).mp h
  by_cases hsp : c = ' '
  · subst hsp
    simp [parse_ws, parse_any, tryParse, tryRollback, hw, hr, hn]
  · simp [parse_ws, parse_any, tryParse, tryRollback, hw, hr, hn, hsp]

theorem parse_option_ws_nil (src : Str) (errs : List ParseError) :
    parse_option_ws ⟨src, [], errs⟩ = (none, ⟨src, [], errs⟩) := by
  simp [parse_option_ws, parse_any, tryParse, tryRollback]

theorem parse_option_ws_no (src : Str) (c : Char) (rest : Str)
    (errs : List ParseError) (h : isFieldWs c = false) :
    parse_option_ws ⟨src, c :: rest, errs⟩ = (none, ⟨src, c :: rest, errs⟩) := by
  simp [parse_option_ws, parse_any, tryParse, tryRollback, isFieldWs_not h]

theorem parse_option_ws_yes (src : Str) (c : Char) (rest : Str)
    (errs : List ParseError) (h : isFieldWs c = true) :
    parse_option_ws ⟨src, c :: rest, errs⟩ =
      (some c,
        if rustIsControl c then
          pushErr ⟨src, rest, errs⟩
            (.UnexpectedControlChar c
              (Ctx.offset ⟨src, rest, errs⟩ - c.utf8Size,
               Ctx.offset ⟨src, rest, errs⟩))
        else ⟨src, rest, errs⟩) := by
  obtain ⟨hw, hr, hn⟩ := (isFieldWs_iff c).mp h
  by_cases hc : rustIsControl c <;>
    simp [parse_option_ws, parse_any, tryParse, tryRollback, hr, hn, hw, hc]

theorem parse_option_atom_nil (src : Str) (errs : List ParseError) :
    parse_option_atom ⟨src, [], errs⟩ = (none, ⟨src, [], errs⟩) := by
  simp [parse_option_atom, parse_character, parse_any, tryParse, tryRollback]

theorem parse_option_atom_no (src : Str) (c : Char) (rest : Str)
    (errs : List ParseError) (h : atomRejects c) :
    parse_option_atom ⟨src, c :: rest, errs⟩ =
      (none, ⟨src, c :: rest, errs⟩) := by
  by_cases h₁ : c = '\r'
  · rw [parse_option_atom, parse_character_crlf src c rest errs (Or.inl h₁)]
    simp [tryParse, tryRollback]
  by_cases h₂ : c = '\n'
  · rw [parse_option_atom, parse_character_crlf src c rest errs (Or.inr h₂)]
    simp [tryParse, tryRollback]
  have hfil : ¬(c ≠ ',' ∧ c ≠ '-' ∧ c ≠ '#' ∧ ¬rustIsWhitespace c) := by
    rcases h with h | h | h | h | h | h
    · exact absurd h h₁
    · exact absurd h h₂
    · exact fun hb => hb.1 h
    · exact fun hb => hb.2.1 h
    · exact fun hb => hb.2.2.1 h
    · exact fun hb => hb.2.2.2 h
  simp only [Bool.not_eq_true] at hfil
  rw [parse_option_atom, parse_character_cons src c rest errs h₁ h₂]
  by_cases hc : rustIsControl c <;>
    simp [tryParse, tryRollback, hfil, hc, pushErr, List.take_left]

theorem parse_option_atom_yes (src : Str) (c : Char) (rest : Str)
    (errs : List ParseError) (h : ¬atomRejects c) :
    parse_option_atom ⟨src, c :: rest, errs⟩ =
      (some c,
        if rustIsControl c then
          pushErr ⟨src, rest, errs⟩
            (.UnexpectedControlChar c
              (Ctx.offset ⟨src, rest, errs⟩ - c.utf8Size,
               Ctx.offset ⟨src, rest, errs⟩))
        else ⟨src, rest, errs⟩) := by
  unfold atomRejects at h
  push_neg at h
  obtain ⟨h₁, h₂, h₃, h₄, h₅, h₆⟩ := h
  simp only [Bool.not_eq_true] at h₆
  rw [parse_option_atom, parse_character_cons src c rest errs h₁ h₂]
  by_cases hc : rustIsControl c <;>
    simp [tryParse, tryRollback, h₃, h₄, h₅, h₆, hc]

theorem parse_newline_nil (src : Str) (errs : List ParseError) :
    parse_newline ⟨src, [], errs⟩ = (none, ⟨src, [], errs⟩) := by
  simp [parse_newline, parse_any, tryParse, tryRollback]

theorem parse_newline_no (src : Str) (c : Char) (rest : Str)
    (errs : List ParseError) (h₁ : c ≠ '\r') (h₂ : c ≠ '\n') :
    parse_newline ⟨src, c :: rest, errs⟩ = (none, ⟨src, c :: rest, errs⟩) := by
  simp [parse_newline, parse_any, tryParse, tryRollback, h₁, h₂]

theorem parse_newline_lf (src : Str) (rest : Str) (errs : List ParseError) :
    parse_newline ⟨src, '\n' :: rest, errs⟩ = (some (), ⟨src, rest, errs⟩) := by
  simp [parse_newline, parse_any, tryParse, tryRollback]

theorem parse_newline_crlf (src : Str) (rest : Str) (errs : List ParseError) :
    parse_newline ⟨src, '\r' :: '\n' :: rest, errs⟩ =
      (some (), ⟨src, rest, errs⟩) := by
  simp [parse_newline, parse_any, tryParse, tryRollback,
    parse_exact_char_cons]

theorem parse_newline_cr_nil (src : Str) (errs : List ParseError) :
    parse_newline ⟨src, ['\r'], errs⟩ =
      (some (),
        pushErr ⟨src, [], errs⟩
          (.MissingLineFeed
            (Ctx.offset ⟨src, ([] : Str), errs⟩ - 1,
             Ctx.offset ⟨src, ([] : Str), errs⟩))) := by
  simp [parse_newline, parse_any, tryParse, tryRollback, parse_exact_char_nil]

theorem parse_newline_cr (src : Str) (c : Char) (rest : Str)
    (errs : List ParseError) (h : c ≠ '\n') :
    parse_newline ⟨src, '\r' :: c :: rest, errs⟩ =
      (some (),
        pushErr ⟨src, c :: rest, errs⟩
          (.MissingLineFeed
            (Ctx.offset ⟨src, c :: rest, errs⟩ - 1,
             Ctx.offset ⟨src, c :: rest, errs⟩))) := by
  simp [parse_newline, parse_any, tryParse, tryRollback,
    parse_exact_char_cons, h]

/-! ### Loop characterizations -/

theorem dropWhile_length_le (p : Char → Bool) (s : Str) :
    (s.dropWhile p).length ≤ s.length := by
  induction s with
  | nil => simp
  | cons c rest ih =>
    by_cases h : p c
    · simp only [List.dropWhile_cons, h, if_true]
      exact le_trans ih (by simp)
    · simp [List.dropWhile_cons, h]

theorem dropWsP_length_le (s : Str) : (dropWsP s).length ≤ s.length :=
  dropWhile_length_le _ s

theorem isLineChar_false {c : Char} (h : isLineChar c = false) :
    c = '\r' ∨ c = '\n' := by
  rcases Bool.and_eq_false_iff.mp h with h' | h' <;>
    [left; right] <;> simpa using h'

theorem atLineEnd_dropLine (s : Str) : atLineEnd (s.dropWhile isLineChar) := by
  induction s with
  | nil => exact Or.inl rfl
  | cons c rest ih =>
    by_cases h : isLineChar c
    · simpa [List.dropWhile_cons, h] using ih
    · simp only [Bool.not_eq_true] at h
      rcases isLineChar_false h with rfl | rfl
      · exact Or.inr (Or.inl ⟨rest, by simp [List.dropWhile_cons, isLineChar]⟩)
      · exact Or.inr (Or.inr ⟨rest, by simp [List.dropWhile_cons, isLineChar]⟩)

theorem skipWs_spec (fuel : Nat) :
    ∀ cx : Ctx, cx.remaining.length < fuel →
      ∃ cx', skipWs fuel cx = some cx' ∧
        cx'.source = cx.source ∧
        cx'.remaining = dropWsP cx.remaining ∧
        errsExtend cx.errors cx'.errors := by
  induction fuel with
  | zero => intro cx h; omega
  | succ n ih =>
    intro cx h
    obtain ⟨src, rem, errs⟩ := cx
    match rem, h with
    | [], _ =>
        exact ⟨⟨src, [], errs⟩, by simp [skipWs, parse_ws_nil, dropWsP],
          rfl, rfl, errsExtend_refl errs⟩
    | c :: rest, h =>
      by_cases hw : isFieldWs c
      · have heq := parse_ws_yes src c rest errs hw
        have hlen : rest.length < n := by
          simp at h; omega
        by_cases hsp : c = ' '
        · subst hsp
          simp only [if_neg (by simp : ¬(' ' ≠ ' '))] at heq
          obtain ⟨cx', h1, h2, h3, h4⟩ := ih ⟨src, rest, errs⟩ hlen
          exact ⟨cx', by simp [skipWs, heq, h1], h2,
            by simp [h3, dropWsP, List.dropWhile_cons, hw], h4⟩
        · simp only [if_pos hsp] at heq
          obtain ⟨cx', h1, h2, h3, h4⟩ :=
            ih (pushErr ⟨src, rest, errs⟩
              (.ExpectedSpace c
                (Ctx.offset ⟨src, rest, errs⟩ - c.utf8Size,
                 Ctx.offset ⟨src, rest, errs⟩))) (by simpa [pushErr] using hlen)
          refine ⟨cx', by simp [skipWs, heq, h1], by simpa [pushErr] using h2,
            by simpa [pushErr, dropWsP, List.dropWhile_cons, hw] using h3, ?_⟩
          exact errsExtend_trans (errsExtend_push errs _)
            (by simpa [pushErr] using h4)
      · have heq := parse_ws_no src c rest errs (by simpa using hw)
        exact ⟨⟨src, c :: rest, errs⟩, by simp [skipWs, heq],
          rfl, by simp [dropWsP, List.dropWhile_cons, hw],
          errsExtend_refl errs⟩

theorem charSkip_spec (fuel : Nat) :
    ∀ cx : Ctx, cx.remaining.length < fuel →
      ∃ cx', charSkip fuel cx = some cx' ∧
        cx'.source = cx.source ∧
        cx'.remaining = cx.remaining.dropWhile isLineChar ∧
        errsExtend cx.errors cx'.errors := by
  induction fuel with
  | zero => intro cx h; omega
  | succ n ih =>
    intro cx h
    obtain ⟨src, rem, errs⟩ := cx
    match rem, h with
    | [], _ =>
        exact ⟨⟨src, [], errs⟩, by simp [charSkip, parse_character_nil],
          rfl, rfl, errsExtend_refl errs⟩
    | c :: rest, h =>
      by_cases hcr : c = '\r'
      · have heq := parse_character_crlf src c rest errs (Or.inl hcr)
        exact ⟨⟨src, c :: rest, errs⟩, by simp [charSkip, heq], rfl,
          by simp [List.dropWhile_cons, isLineChar, hcr], errsExtend_refl errs⟩
      by_cases hlf : c = '\n'
      · have heq := parse_character_crlf src c rest errs (Or.inr hlf)
        exact ⟨⟨src, c :: rest, errs⟩, by simp [charSkip, heq], rfl,
          by simp [List.dropWhile_cons, isLineChar, hlf], errsExtend_refl errs⟩
      have heq := parse_character_cons src c rest errs hcr hlf
      have hlen : rest.length < n := by simp at h; omega
      by_cases hc : rustIsControl c
      · simp only [if_pos hc] at heq
        obtain ⟨cx', h1, h2, h3, h4⟩ :=
          ih (pushErr ⟨src, rest, errs⟩
            (.UnexpectedControlChar c
              (Ctx.offset ⟨src, rest, errs⟩ - c.utf8Size,
               Ctx.offset ⟨src, rest, errs⟩))) (by simpa [pushErr] using hlen)
        refine ⟨cx', by simp [charSkip, heq, h1], by simpa [pushErr] using h2,
          ?_, errsExtend_trans (errsExtend_push errs _)
            (by simpa [pushErr] using h4)⟩
        rw [h3]
        simp [pushErr, List.dropWhile_cons, isLineChar, hcr, hlf]
      · simp only [if_neg hc] at heq
        obtain ⟨cx', h1, h2, h3, h4⟩ := ih ⟨src, rest, errs⟩ hlen
        exact ⟨cx', by simp [charSkip, heq, h1], h2,
          by simp [h3, List.dropWhile_cons, isLineChar, hcr, hlf], h4⟩

theorem titleChars_spec (fuel : Nat) :
    ∀ (cx : Ctx) (acc : Str), cx.remaining.length < fuel →
      ∃ cx', titleChars fuel cx acc =
          some (acc ++ cx.remaining.takeWhile isTitleChar, cx') ∧
        cx'.source = cx.source ∧
        cx'.remaining = cx.remaining.dropWhile isTitleChar ∧
        errsExtend cx.errors cx'.errors := by
  induction fuel with
  | zero => intro cx acc h; omega
  | succ n ih =>
    intro cx acc h
    obtain ⟨src, rem, errs⟩ := cx
    match rem, h with
    | [], _ =>
        refine ⟨⟨src, [], errs⟩, ?_, rfl, rfl, errsExtend_refl errs⟩
        simp [titleChars, parse_character_nil, tryParse, tryRollback]
    | c :: rest, h =>
      have hlen : rest.length < n := by simp at h; omega
      by_cases hcr : c = '\r'
      · subst hcr
        have heq := parse_character_crlf src _ rest errs (Or.inl rfl)
        refine ⟨⟨src, '\r' :: rest, errs⟩, ?_, rfl,
          by simp [List.dropWhile_cons, isTitleChar], errsExtend_refl errs⟩
        simp [titleChars, heq, tryParse, tryRollback,
          List.takeWhile_cons, isTitleChar]
      by_cases hlf : c = '\n'
      · subst hlf
        have heq := parse_character_crlf src _ rest errs (Or.inr rfl)
        refine ⟨⟨src, '\n' :: rest, errs⟩, ?_, rfl,
          by simp [List.dropWhile_cons, isTitleChar], errsExtend_refl errs⟩
        simp [titleChars, heq, tryParse, tryRollback,
          List.takeWhile_cons, isTitleChar]
      by_cases hhash : c = '#'
      · subst hhash
        have heq := parse_character_cons src _ rest errs hcr hlf
        have hcf : rustIsControl '#' = false := by decide
        rw [hcf] at heq
        simp only [Bool.false_eq_true, if_false] at heq
        refine ⟨⟨src, '#' :: rest, errs⟩, ?_, rfl,
          by simp [List.dropWhile_cons, isTitleChar],
          errsExtend_refl errs⟩
        simp [titleChars, heq, tryParse, tryRollback,
          List.takeWhile_cons, isTitleChar]
      have htc : isTitleChar c = true := by simp [isTitleChar, hcr, hlf, hhash]
      have heq := parse_character_cons src c rest errs hcr hlf
      by_cases hc : rustIsControl c
      · simp only [hc, if_true] at heq
        obtain ⟨cx', h1, h2, h3, h4⟩ :=
          ih (pushErr ⟨src, rest, errs⟩
            (.UnexpectedControlChar c
              (Ctx.offset ⟨src, rest, errs⟩ - c.utf8Size,
               Ctx.offset ⟨src, rest, errs⟩))) (acc ++ [c])
            (by simpa [pushErr] using hlen)
        refine ⟨cx', ?_, by simpa [pushErr] using h2,
          ?_, errsExtend_trans (errsExtend_push errs _)
            (by simpa [pushErr] using h4)⟩
        · rw [titleChars]
          simp only [heq, tryParse, if_pos hhash]
          rw [h1]
          simp [List.takeWhile_cons, htc, pushErr]
        · rw [h3]
          simp [pushErr, List.dropWhile_cons, htc]
      · simp only [Bool.not_eq_true] at hc
        rw [hc] at heq
        simp only [Bool.false_eq_true, if_false] at heq
        obtain ⟨cx', h1, h2, h3, h4⟩ := ih ⟨src, rest, errs⟩ (acc ++ [c]) hlen
        refine ⟨cx', ?_, h2, ?_, h4⟩
        · rw [titleChars]
          simp only [heq, tryParse, if_pos hhash]
          rw [h1]
          simp [List.takeWhile_cons, htc]
        · rw [h3]
          simp [List.dropWhile_cons, htc]

theorem commentRest_atLineEnd (s : Str) (h : atLineEnd s ∨ s.head? = some '#') :
    atLineEnd (commentRest s) := by
  match s, h with
  | [], _ => exact Or.inl rfl
  | c :: rest, h =>
    by_cases hh : c = '#'
    · subst hh
      simpa [commentRest] using atLineEnd_dropLine rest
    · have hs : atLineEnd (c :: rest) := by
        rcases h with h | h
        · exact h
        · simp at h; exact absurd h hh
      rcases hs with h | ⟨r, hr⟩ | ⟨r, hr⟩
      · simp at h
      · cases hr
        exact Or.inr (Or.inl ⟨rest, by simp [commentRest, hh]⟩)
      · cases hr
        exact Or.inr (Or.inr ⟨rest, by simp [commentRest, hh]⟩)

theorem commentRest_length_le (s : Str) : (commentRest s).length ≤ s.length := by
  match s with
  | [] => exact le_refl _
  | c :: rest =>
    by_cases hh : c = '#'
    · subst hh
      simp only [commentRest, if_pos]
      exact le_trans (dropWhile_length_le isLineChar rest) (by simp)
    · simp [commentRest, hh]

theorem parse_comment_spec (fuel : Nat) (cx : Ctx)
    (h : cx.remaining.length < fuel) :
    ∃ cx', parse_comment fuel cx = some cx' ∧
      cx'.source = cx.source ∧
      cx'.remaining = commentRest cx.remaining ∧
      errsExtend cx.errors cx'.errors := by
  obtain ⟨src, rem, errs⟩ := cx
  match rem, h with
  | [], _ =>
      exact ⟨⟨src, [], errs⟩,
        by simp [parse_comment, parse_exact_char_nil], rfl, rfl,
        errsExtend_refl errs⟩
  | c :: rest, h =>
    by_cases hh : c = '#'
    · subst hh
      have heq := parse_exact_char_cons src '#' rest errs '#'
      simp only [if_pos rfl] at heq
      obtain ⟨cx', h1, h2, h3, h4⟩ :=
        charSkip_spec fuel ⟨src, rest, errs⟩ (by simp at h ⊢; omega)
      exact ⟨cx', by simp [parse_comment, heq, h1], h2,
        by simpa [commentRest] using h3, h4⟩
    · have heq := parse_exact_char_cons src c rest errs '#'
      simp only [if_neg hh] at heq
      refine ⟨⟨src, c :: rest, errs⟩, by simp [parse_comment, heq], rfl, ?_,
        errsExtend_refl errs⟩
      simp [commentRest, hh]

theorem parse_blank_line_spec (fuel : Nat) (cx : Ctx)
    (h : cx.remaining.length < fuel) :
    ∃ cx', parse_blank_line fuel cx = some cx' ∧
      cx'.source = cx.source ∧
      cx'.remaining = commentRest (dropWsP cx.remaining) ∧
      errsExtend cx.errors cx'.errors := by
  obtain ⟨cxW, h1, h2, h3, h4⟩ := skipWs_spec fuel cx h
  obtain ⟨cx', g1, g2, g3, g4⟩ := parse_comment_spec fuel cxW
    (by rw [h3]; exact lt_of_le_of_lt (dropWsP_length_le _) h)
  exact ⟨cx', by simp [parse_blank_line, h1, g1], by rw [g2, h2],
    by rw [g3, h3], errsExtend_trans h4 g4⟩

theorem isTitleChar_false {c : Char} (h : isTitleChar c = false) :
    c = '\r' ∨ c = '\n' ∨ c = '#' := by
  rcases Bool.and_eq_false_iff.mp h with h' | h'
  · rcases Bool.and_eq_false_iff.mp h' with h'' | h''
    · exact Or.inl (by simpa using h'')
    · exact Or.inr (Or.inl (by simpa using h''))
  · exact Or.inr (Or.inr (by simpa using h'))

theorem dropTitle_head (s : Str) :
    atLineEnd (s.dropWhile isTitleChar) ∨
      (s.dropWhile isTitleChar).head? = some '#' := by
  induction s with
  | nil => exact Or.inl (Or.inl rfl)
  | cons c rest ih =>
    by_cases h : isTitleChar c
    · simpa [List.dropWhile_cons, h] using ih
    · simp only [Bool.not_eq_true] at h
      rcases isTitleChar_false h with rfl | rfl | rfl
      · exact Or.inl (Or.inr (Or.inl ⟨rest,
          by simp [List.dropWhile_cons, isTitleChar]⟩))
      · exact Or.inl (Or.inr (Or.inr ⟨rest,
          by simp [List.dropWhile_cons, isTitleChar]⟩))
      · exact Or.inr (by simp [List.dropWhile_cons, isTitleChar])

theorem parse_title_spec (fuel : Nat) (cx : Ctx)
    (h : cx.remaining.length < fuel) :
    ∃ cx', parse_title fuel cx =
        some (strTrim (cx.remaining.takeWhile isTitleChar), cx') ∧
      cx'.source = cx.source ∧
      atLineEnd cx'.remaining ∧
      cx'.remaining.length ≤ cx.remaining.length ∧
      errsExtend cx.errors cx'.errors := by
  obtain ⟨cxT, h1, h2, h3, h4⟩ := titleChars_spec fuel cx [] h
  have hTlen : cxT.remaining.length < fuel := by
    rw [h3]; exact lt_of_le_of_lt (dropWhile_length_le _ _) h
  set t := strTrim (cx.remaining.takeWhile isTitleChar) with ht
  by_cases hte : t = []
  · obtain ⟨cx', g1, g2, g3, g4⟩ :=
      parse_comment_spec fuel
        (pushErr cxT (.NoTitle (cx.offset, cxT.offset)))
        (by simpa [pushErr] using hTlen)
    refine ⟨cx', ?_, by simpa [pushErr] using g2.trans h2, ?_, ?_, ?_⟩
    · simp [parse_title, h1, ← ht, hte, g1]
    · rw [g3]
      simp only [pushErr]
      rw [h3]
      exact commentRest_atLineEnd _ (dropTitle_head cx.remaining)
    · rw [g3]
      simp only [pushErr]
      rw [h3]
      exact le_trans (commentRest_length_le _) (dropWhile_length_le _ _)
    · exact errsExtend_trans h4 (errsExtend_trans (errsExtend_push _ _)
        (by simpa [pushErr] using g4))
  · obtain ⟨cx', g1, g2, g3, g4⟩ := parse_comment_spec fuel cxT hTlen
    refine ⟨cx', ?_, g2.trans h2, ?_, ?_, errsExtend_trans h4 g4⟩
    · simp [parse_title, h1, ← ht, hte, g1]
    · rw [g3, h3]
      exact commentRest_atLineEnd _ (dropTitle_head cx.remaining)
    · rw [g3, h3]
      exact le_trans (commentRest_length_le _) (dropWhile_length_le _ _)

theorem dropWsP_head (s : Str) :
    dropWsP s = [] ∨
      ∃ c rest, dropWsP s = c :: rest ∧ isFieldWs c = false := by
  induction s with
  | nil => exact Or.inl rfl
  | cons c rest ih =>
    by_cases h : isFieldWs c
    · simpa [dropWsP, List.dropWhile_cons, h] using ih
    · exact Or.inr ⟨c, rest, by simp_all [dropWsP, List.dropWhile_cons], by simpa using h⟩

theorem quotedLoop_spec (fuel : Nat) :
    ∀ (cx : Ctx) (acc : Str) (ss : Nat), cx.remaining.length < fuel →
      ∃ v cx', quotedLoop fuel cx acc ss = some (v, cx') ∧
        cx'.source = cx.source ∧
        cx'.remaining.length ≤ cx.remaining.length ∧
        errsExtend cx.errors cx'.errors := by
  induction fuel with
  | zero => intro cx acc ss h; omega
  | succ n ih =>
    intro cx acc ss h
    obtain ⟨src, rem, errs⟩ := cx
    match rem, h with
    | [], _ =>
        refine ⟨acc, pushErr ⟨src, [], errs⟩
            (.UnclosedQuote (ss, Ctx.offset ⟨src, ([] : Str), errs⟩)),
          by simp [quotedLoop, parse_character_nil], by simp [pushErr],
          by simp [pushErr], by simpa [pushErr] using errsExtend_push errs _⟩
    | c :: rest, h =>
      have hlen : rest.length < n := by simp at h; omega
      by_cases hcr : c = '\r'
      · subst hcr
        have heq := parse_character_crlf src _ rest errs (Or.inl rfl)
        refine ⟨acc, pushErr ⟨src, '\r' :: rest, errs⟩
            (.UnclosedQuote (ss, Ctx.offset ⟨src, '\r' :: rest, errs⟩)),
          by simp [quotedLoop, heq], by simp [pushErr],
          by simp [pushErr], by simpa [pushErr] using errsExtend_push errs _⟩
      by_cases hlf : c = '\n'
      · subst hlf
        have heq := parse_character_crlf src _ rest errs (Or.inr rfl)
        refine ⟨acc, pushErr ⟨src, '\n' :: rest, errs⟩
            (.UnclosedQuote (ss, Ctx.offset ⟨src, '\n' :: rest, errs⟩)),
          by simp [quotedLoop, heq], by simp [pushErr],
          by simp [pushErr], by simpa [pushErr] using errsExtend_push errs _⟩
      have heq := parse_character_cons src c rest errs hcr hlf
      by_cases hbs : c = '\\'
      · subst hbs
        have hcf : rustIsControl '\\' = false := by decide
        rw [hcf] at heq
        simp only [Bool.false_eq_true, if_false] at heq
        match rest, hlen with
        | [], _ =>
            obtain ⟨v, cx', g1, g2, g3, g4⟩ :=
              ih ⟨src, [], errs⟩ acc ss (by simp; omega)
            refine ⟨v, cx', ?_, g2, le_trans g3 (by simp), g4⟩
            simp only [quotedLoop, heq]
            simpa [parse_any] using g1
        | c₂ :: rest₂, hlen =>
          have hlen₂ : rest₂.length < n := by simp at hlen; omega
          by_cases hk : c₂ = '"' ∨ c₂ = '\\'
          · obtain ⟨v, cx', g1, g2, g3, g4⟩ :=
              ih ⟨src, rest₂, errs⟩ (acc ++ [c₂]) ss hlen₂
            refine ⟨v, cx', ?_, g2, by simp at g3 ⊢; omega, g4⟩
            simp only [quotedLoop, heq]
            simpa [parse_any, hk] using g1
          · obtain ⟨v, cx', g1, g2, g3, g4⟩ :=
              ih (pushErr ⟨src, rest₂, errs⟩
                (.UnknownEscape c₂
                  (Ctx.offset ⟨src, c₂ :: rest₂, errs⟩,
                   Ctx.offset ⟨src, rest₂, errs⟩))) acc ss
                (by simpa [pushErr] using hlen₂)
            refine ⟨v, cx', ?_, by simpa [pushErr] using g2,
              by simp [pushErr] at g3 ⊢; omega,
              errsExtend_trans (errsExtend_push errs _)
                (by simpa [pushErr] using g4)⟩
            simp only [quotedLoop, heq]
            simpa [parse_any, hk, pushErr] using g1
      by_cases hq : c = '"'
      · subst hq
        have hcf : rustIsControl '"' = false := by decide
        rw [hcf] at heq
        simp only [Bool.false_eq_true, if_false] at heq
        refine ⟨acc, ⟨src, rest, errs⟩, ?_, rfl, by simp, errsExtend_refl errs⟩
        simp [quotedLoop, heq]
      by_cases hc : rustIsControl c
      · simp only [hc, if_true] at heq
        obtain ⟨v, cx', g1, g2, g3, g4⟩ :=
          ih (pushErr ⟨src, rest, errs⟩
            (.UnexpectedControlChar c
              (Ctx.offset ⟨src, rest, errs⟩ - c.utf8Size,
               Ctx.offset ⟨src, rest, errs⟩))) (acc ++ [c]) ss
            (by simpa [pushErr] using hlen)
        refine ⟨v, cx', ?_, by simpa [pushErr] using g2,
          by simp [pushErr] at g3 ⊢; omega,
          errsExtend_trans (errsExtend_push errs _)
            (by simpa [pushErr] using g4)⟩
        simp only [quotedLoop, heq]
        simpa [hbs, hq, pushErr] using g1
      · simp only [Bool.not_eq_true] at hc
        rw [hc] at heq
        simp only [Bool.false_eq_true, if_false] at heq
        obtain ⟨v, cx', g1, g2, g3, g4⟩ :=
          ih ⟨src, rest, errs⟩ (acc ++ [c]) ss hlen
        refine ⟨v, cx', ?_, g2, by simp at g3 ⊢; omega, g4⟩
        simp only [quotedLoop, heq]
        simpa [hbs, hq] using g1

/-- `parse_quoted` with no opening quote: unchanged failure (independent of
fuel). -/
theorem parse_quoted_no (fuel : Nat) (cx : Ctx)
    (h : ∀ rest, cx.remaining ≠ '"' :: rest) :
    parse_quoted fuel cx = some (none, cx) := by
  obtain ⟨src, rem, errs⟩ := cx
  match rem with
  | [] => simp [parse_quoted, parse_exact_char_nil]
  | c :: rest =>
    have hc : c ≠ '"' := by
      intro hh; exact h rest (by simp [hh])
    have heq := parse_exact_char_cons src c rest errs '"'
    rw [if_neg hc] at heq
    simp [parse_quoted, heq]

theorem parse_quoted_yes (fuel : Nat) (src : Str) (rest : Str)
    (errs : List ParseError) (h : rest.length + 1 < fuel) :
    ∃ v cx', parse_quoted fuel ⟨src, '"' :: rest, errs⟩ = some (some v, cx') ∧
      cx'.source = src ∧
      cx'.remaining.length ≤ rest.length ∧
      errsExtend errs cx'.errors := by
  have heq := parse_exact_char_cons src '"' rest errs '"'
  rw [if_pos rfl] at heq
  obtain ⟨v, cx', g1, g2, g3, g4⟩ :=
    quotedLoop_spec fuel ⟨src, rest, errs⟩ []
      (Ctx.offset ⟨src, '"' :: rest, errs⟩) (by simp; omega)
  exact ⟨v, cx', by simp [parse_quoted, heq, g1], g2, g3, g4⟩

theorem dashRun_spec (fuel : Nat) :
    ∀ (cx : Ctx) (v : Str), cx.remaining.length < fuel →
      ∃ cx', dashRun fuel cx v =
          some (v ++ cx.remaining.takeWhile isDash, cx') ∧
        cx'.source = cx.source ∧
        cx'.remaining = cx.remaining.dropWhile isDash ∧
        cx'.errors = cx.errors := by
  induction fuel with
  | zero => intro cx v h; omega
  | succ n ih =>
    intro cx v h
    obtain ⟨src, rem, errs⟩ := cx
    match rem, h with
    | [], _ =>
        exact ⟨⟨src, [], errs⟩, by simp [dashRun, parse_exact_char_nil],
          rfl, rfl, rfl⟩
    | c :: rest, h =>
      have heq := parse_exact_char_cons src c rest errs '-'
      by_cases hd : c = '-'
      · subst hd
        rw [if_pos rfl] at heq
        obtain ⟨cx', g1, g2, g3, g4⟩ :=
          ih ⟨src, rest, errs⟩ (v ++ ['-']) (by simp at h ⊢; omega)
        refine ⟨cx', ?_, g2, by simpa [List.dropWhile_cons, isDash] using g3, g4⟩
        simp only [dashRun, heq]
        rw [g1]
        simp [List.takeWhile_cons, isDash]
      · rw [if_neg hd] at heq
        refine ⟨⟨src, c :: rest, errs⟩, ?_, rfl,
          by simp [List.dropWhile_cons, isDash, hd],
          rfl⟩
        simp only [dashRun, heq]
        simp [List.takeWhile_cons, isDash, hd]

theorem wsRun_spec (fuel : Nat) :
    ∀ (cx : Ctx) (v : Str), cx.remaining.length < fuel →
      ∃ cx', wsRun fuel cx v =
          some (v ++ cx.remaining.takeWhile isFieldWs, cx') ∧
        cx'.source = cx.source ∧
        cx'.remaining = dropWsP cx.remaining ∧
        errsExtend cx.errors cx'.errors := by
  induction fuel with
  | zero => intro cx v h; omega
  | succ n ih =>
    intro cx v h
    obtain ⟨src, rem, errs⟩ := cx
    match rem, h with
    | [], _ =>
        exact ⟨⟨src, [], errs⟩, by simp [wsRun, parse_option_ws_nil],
          rfl, rfl, errsExtend_refl errs⟩
    | c :: rest, h =>
      have hlen : rest.length < n := by simp at h; omega
      by_cases hw : isFieldWs c
      · have heq := parse_option_ws_yes src c rest errs hw
        by_cases hc : rustIsControl c
        · rw [if_pos hc] at heq
          obtain ⟨cx', g1, g2, g3, g4⟩ :=
            ih (pushErr ⟨src, rest, errs⟩
              (.UnexpectedControlChar c
                (Ctx.offset ⟨src, rest, errs⟩ - c.utf8Size,
                 Ctx.offset ⟨src, rest, errs⟩))) (v ++ [c])
              (by simpa [pushErr] using hlen)
          refine ⟨cx', ?_, by simpa [pushErr] using g2,
            by simpa [pushErr, dropWsP, List.dropWhile_cons, hw] using g3,
            errsExtend_trans (errsExtend_push errs _)
              (by simpa [pushErr] using g4)⟩
          simp only [wsRun, heq]
          rw [g1]
          simp [List.takeWhile_cons, hw, pushErr]
        · rw [if_neg hc] at heq
          obtain ⟨cx', g1, g2, g3, g4⟩ := ih ⟨src, rest, errs⟩ (v ++ [c]) hlen
          refine ⟨cx', ?_, g2,
            by simpa [dropWsP, List.dropWhile_cons, hw] using g3, g4⟩
          simp only [wsRun, heq]
          rw [g1]
          simp [List.takeWhile_cons, hw]
      · have heq := parse_option_ws_no src c rest errs (by simpa using hw)
        refine ⟨⟨src, c :: rest, errs⟩, ?_, rfl,
          by simp [dropWsP, List.dropWhile_cons, hw], errsExtend_refl errs⟩
        simp only [wsRun, heq]
        simp [List.takeWhile_cons, hw]

theorem optBoundary_of_reject {s : Str} {c : Char} {rest : Str}
    (hd : dropWsP s = c :: rest) (hr : atomRejects c) : optBoundary s := by
  have hf : isFieldWs c = false := by
    rcases dropWsP_head s with h | ⟨c', rest', h1, h2⟩
    · simp [hd] at h
    · rw [hd] at h1
      cases h1
      exact h2
  unfold optBoundary
  rw [hd]
  rcases hr with h | h | h | h | h | h
  · exact Or.inr (Or.inr (Or.inr (Or.inl h)))
  · exact Or.inr (Or.inr (Or.inr (Or.inr h)))
  · exact Or.inl h
  · exact Or.inr (Or.inl h)
  · exact Or.inr (Or.inr (Or.inl h))
  · by_cases hcr : c = '\r'
    · exact Or.inr (Or.inr (Or.inr (Or.inl hcr)))
    · by_cases hlf : c = '\n'
      · exact Or.inr (Or.inr (Or.inr (Or.inr hlf)))
      · exact absurd ⟨h, hcr, hlf⟩ (isFieldWs_not hf)

theorem isFieldWs_dash : isFieldWs '-' = false := by decide

theorem optStep_spec (fuel : Nat) (cx : Ctx) (v : Str)
    (h : cx.remaining.length < fuel) :
    ∃ r, optStep fuel cx v = some r ∧
      r.2.source = cx.source ∧
      errsExtend cx.errors r.2.errors ∧
      ((∃ v', r.1 = some v' ∧
          r.2.remaining.length < cx.remaining.length) ∨
        (r.1 = none ∧ optBoundary cx.remaining)) := by
  by_cases hd : cx.remaining.head? = some '-'
  · obtain ⟨c, rest, hrem⟩ : ∃ c rest, cx.remaining = c :: rest := by
      match cx, hd with
      | ⟨s, c :: rest, e⟩, _ => exact ⟨c, rest, rfl⟩
    have hc : c = '-' := by rw [hrem] at hd; simpa using hd
    obtain ⟨cxD, g1, g2, g3, g4⟩ := dashRun_spec fuel cx v h
    have hDlt : cxD.remaining.length < cx.remaining.length := by
      rw [g3, hrem]
      subst hc
      simp [List.dropWhile_cons, isDash]
      exact lt_of_le_of_lt (dropWhile_length_le _ _) (by simp)
    obtain ⟨srcD, remD, errsD⟩ := cxD
    match remD, hDlt with
    | [], _ =>
        refine ⟨(none, ⟨srcD, [], errsD⟩), ?_, by simpa using g2,
          errsExtend_eq g4, Or.inr ⟨rfl, ?_⟩⟩
        · simp [optStep, hd, g1, parse_option_atom_nil]
        · rw [hrem, hc]
          unfold optBoundary
          rw [show dropWsP ('-' :: rest) = '-' :: rest from by
            simp [dropWsP, List.dropWhile_cons, isFieldWs_dash]]
          exact Or.inr (Or.inl rfl)
    | a :: restA, hDlt =>
      by_cases ha : atomRejects a
      · refine ⟨(none, ⟨srcD, a :: restA, errsD⟩), ?_, by simpa using g2,
          errsExtend_eq g4, Or.inr ⟨rfl, ?_⟩⟩
        · simp [optStep, hd, g1, parse_option_atom_no srcD a restA errsD ha]
        · rw [hrem, hc]
          unfold optBoundary
          rw [show dropWsP ('-' :: rest) = '-' :: rest from by
            simp [dropWsP, List.dropWhile_cons, isFieldWs_dash]]
          exact Or.inr (Or.inl rfl)
      · have heq := parse_option_atom_yes srcD a restA errsD ha
        by_cases hctl : rustIsControl a
        · rw [if_pos hctl] at heq
          refine ⟨(some (v ++ cx.remaining.takeWhile isDash ++ [a]),
            pushErr ⟨srcD, restA, errsD⟩
              (.UnexpectedControlChar a
                (Ctx.offset ⟨srcD, restA, errsD⟩ - a.utf8Size,
                 Ctx.offset ⟨srcD, restA, errsD⟩))), ?_, ?_, ?_, ?_⟩
          · simp [optStep, hd, g1, heq]
          · simpa [pushErr] using g2
          · exact errsExtend_trans (errsExtend_eq g4)
              (by simpa [pushErr] using errsExtend_push errsD _)
          · exact Or.inl ⟨_, rfl, by simp [pushErr] at hDlt ⊢; omega⟩
        · rw [if_neg hctl] at heq
          refine ⟨(some (v ++ cx.remaining.takeWhile isDash ++ [a]),
            ⟨srcD, restA, errsD⟩), ?_, by simpa using g2,
            errsExtend_eq g4, Or.inl ⟨_, rfl, by simp at hDlt ⊢; omega⟩⟩
          simp [optStep, hd, g1, heq]
  · obtain ⟨cxW, g1, g2, g3, g4⟩ := wsRun_spec fuel cx v h
    have hWle : cxW.remaining.length ≤ cx.remaining.length := by
      rw [g3]; exact dropWsP_length_le _
    obtain ⟨srcW, remW, errsW⟩ := cxW
    match remW, hWle with
    | [], _ =>
        refine ⟨(none, ⟨srcW, [], errsW⟩), ?_, by simpa using g2, g4,
          Or.inr ⟨rfl, ?_⟩⟩
        · simp [optStep, hd, g1, parse_option_atom_nil]
        · unfold optBoundary
          rw [← g3]
          simp
    | a :: restA, hWle =>
      by_cases ha : atomRejects a
      · refine ⟨(none, ⟨srcW, a :: restA, errsW⟩), ?_, by simpa using g2, g4,
          Or.inr ⟨rfl, optBoundary_of_reject (by rw [← g3]) ha⟩⟩
        simp [optStep, hd, g1, parse_option_atom_no srcW a restA errsW ha]
      · have heq := parse_option_atom_yes srcW a restA errsW ha
        have hlt : restA.length < cx.remaining.length := by
          simp at hWle; omega
        by_cases hctl : rustIsControl a
        · rw [if_pos hctl] at heq
          refine ⟨(some (v ++ cx.remaining.takeWhile isFieldWs ++ [a]),
            pushErr ⟨srcW, restA, errsW⟩
              (.UnexpectedControlChar a
                (Ctx.offset ⟨srcW, restA, errsW⟩ - a.utf8Size,
                 Ctx.offset ⟨srcW, restA, errsW⟩))), ?_, ?_, ?_, ?_⟩
          · simp [optStep, hd, g1, heq]
          · simpa [pushErr] using g2
          · exact errsExtend_trans g4
              (by simpa [pushErr] using errsExtend_push errsW _)
          · exact Or.inl ⟨_, rfl, by simpa [pushErr] using hlt⟩
        · rw [if_neg hctl] at heq
          refine ⟨(some (v ++ cx.remaining.takeWhile isFieldWs ++ [a]),
            ⟨srcW, restA, errsW⟩), ?_, by simpa using g2, g4,
            Or.inl ⟨_, rfl, by simpa using hlt⟩⟩
          simp [optStep, hd, g1, heq]

theorem optLoop_spec (fuel : Nat) :
    ∀ (cx : Ctx) (v : Str) (tr : Bool), cx.remaining.length < fuel →
      ∃ v' cx' tr', optLoop fuel cx v tr = some (v', cx', tr') ∧
        cx'.source = cx.source ∧
        cx'.remaining.length ≤ cx.remaining.length ∧
        errsExtend cx.errors cx'.errors ∧
        optBoundary cx'.remaining := by
  induction fuel with
  | zero => intro cx v tr h; omega
  | succ n ih =>
    intro cx v tr h
    obtain ⟨r, s1, s2, s3, s4⟩ := optStep_spec (n + 1) cx v h
    rcases s4 with ⟨v', hv', hlt⟩ | ⟨hn, hb⟩
    · obtain ⟨r1, r2⟩ := r
      cases hv'
      obtain ⟨v'', cx'', tr'', g1, g2, g3, g4, g5⟩ :=
        ih r2 v' true (lt_of_lt_of_le hlt (Nat.lt_succ_iff.mp h))
      refine ⟨v'', cx'', tr'', ?_, g2.trans s2,
        le_trans g3 (le_of_lt hlt), errsExtend_trans s3 g4, g5⟩
      simp [optLoop, tryParseF, s1, tryParse, g1]
    · obtain ⟨r1, r2⟩ := r
      cases hn
      have hs2 : r2.source = cx.source := s2
      have hs3 : errsExtend cx.errors r2.errors := s3
      refine ⟨v, tryRollback cx r2, tr, ?_, ?_, ?_,
        ⟨[], by simp [tryRollback, errsExtend_take hs3]⟩, ?_⟩
      · simp [optLoop, tryParseF, s1, tryParse]
      · simpa [tryRollback] using hs2
      · simp [tryRollback]
      · simpa [tryRollback] using hb

/-- `parse_option` at a non-matching position fails with the state fully
unchanged (independent of fuel). -/
theorem parse_option_no (fuel : Nat) (cx : Ctx)
    (h : ¬optionStarts cx.remaining) :
    parse_option fuel cx = some (none, cx) := by
  obtain ⟨src, rem, errs⟩ := cx
  match rem with
  | [] =>
      rw [parse_option, parse_quoted_no fuel _ (by simp)]
      simp [parse_option_atom_nil]
  | c :: rest =>
    have hc : ¬(c = '"' ∨ ¬atomRejects c) := fun hh => h ⟨c, rest, rfl, hh⟩
    push_neg at hc
    obtain ⟨hq, ha⟩ := hc
    rw [parse_option, parse_quoted_no fuel _ (by
      intro r hr
      injection hr with h1 _
      exact hq h1)]
    simp [parse_option_atom_no src c rest errs ha]

theorem parse_option_yes (fuel : Nat) (cx : Ctx)
    (h : optionStarts cx.remaining) (hlen : cx.remaining.length < fuel) :
    ∃ v cx', parse_option fuel cx = some (some v, cx') ∧
      cx'.source = cx.source ∧
      cx'.remaining.length < cx.remaining.length ∧
      errsExtend cx.errors cx'.errors ∧
      optBoundary cx'.remaining := by
  obtain ⟨src, rem, errs⟩ := cx
  obtain ⟨c, rest, hrem, hc⟩ := h
  simp only at hrem
  subst hrem
  by_cases hq : c = '"'
  · subst hq
    obtain ⟨v, cxq, g1, g2, g3, g4⟩ :=
      parse_quoted_yes fuel src rest errs (by simpa using hlen)
    obtain ⟨v', cx', tr', l1, l2, l3, l4, l5⟩ :=
      optLoop_spec fuel cxq v false
        (lt_of_le_of_lt g3 (by simp at hlen; omega))
    by_cases htr : tr' = true
    · subst htr
      refine ⟨v', pushErr cx' (.TrailingOptionChars (cxq.offset, cx'.offset)),
        ?_, by simpa [pushErr] using l2.trans g2, ?_, ?_, ?_⟩
      · simp [parse_option, g1, l1]
      · simp only [pushErr]
        simp at hlen ⊢
        have := le_trans l3 g3
        omega
      · exact errsExtend_trans g4 (errsExtend_trans l4
          (by simpa [pushErr] using errsExtend_push cx'.errors _))
      · simpa [pushErr, optBoundary] using l5
    · have htr' : tr' = false := by simpa using htr
      subst htr'
      refine ⟨v', cx', ?_, l2.trans g2, ?_, errsExtend_trans g4 l4, l5⟩
      · simp [parse_option, g1, l1]
      · simp at hlen ⊢
        have := le_trans l3 g3
        omega
  · have ha : ¬atomRejects c := by
      rcases hc with hc | hc
      · exact absurd hc hq
      · exact hc
    have heqq : parse_quoted fuel ⟨src, c :: rest, errs⟩ =
        some (none, ⟨src, c :: rest, errs⟩) := by
      refine parse_quoted_no fuel _ ?_
      intro r hr
      injection hr with h1 _
      exact hq h1
    have heqa := parse_option_atom_yes src c rest errs ha
    by_cases hctl : rustIsControl c
    · rw [if_pos hctl] at heqa
      obtain ⟨v', cx', tr', l1, l2, l3, l4, l5⟩ :=
        optLoop_spec fuel
          (pushErr ⟨src, rest, errs⟩
            (.UnexpectedControlChar c
              (Ctx.offset ⟨src, rest, errs⟩ - c.utf8Size,
               Ctx.offset ⟨src, rest, errs⟩))) [c] false
          (by simp [pushErr] at hlen ⊢; omega)
      refine ⟨v', cx', ?_, by simpa [pushErr] using l2, ?_,
        errsExtend_trans (by simpa [pushErr] using errsExtend_push errs _) l4,
        l5⟩
      · simp [parse_option, heqq, heqa, l1]
      · simp [pushErr] at l3
        simp at hlen ⊢
        omega
    · rw [if_neg hctl] at heqa
      obtain ⟨v', cx', tr', l1, l2, l3, l4, l5⟩ :=
        optLoop_spec fuel ⟨src, rest, errs⟩ [c] false
          (by simp at hlen ⊢; omega)
      refine ⟨v', cx', ?_, by simpa using l2, ?_, l4, l5⟩
      · simp [parse_option, heqq, heqa, l1]
      · simp at l3 hlen ⊢
        omega

theorem addOption_spec (opts : List (Str × Span)) (cx : Ctx) (opt : Str)
    (span : Span) :
    (addOption opts cx opt span).2.source = cx.source ∧
    (addOption opts cx opt span).2.remaining = cx.remaining ∧
    errsExtend cx.errors (addOption opts cx opt span).2.errors := by
  unfold addOption
  split
  · exact ⟨rfl, rfl, errsExtend_push _ _⟩
  · split
    · exact ⟨rfl, rfl, errsExtend_push _ _⟩
    · exact ⟨rfl, rfl, errsExtend_refl _⟩

theorem optionsIterStep_spec (fuel : Nat) (cxI : Ctx)
    (opts : List (Str × Span)) (os : Nat)
    (h : cxI.remaining.length < fuel) :
    ∃ opts' cx', optionsIterStep fuel cxI opts os = some (opts', cx') ∧
      cx'.source = cxI.source ∧
      cx'.remaining.length ≤ cxI.remaining.length ∧
      errsExtend cxI.errors cx'.errors ∧
      optBoundary cx'.remaining := by
  obtain ⟨cxC, w1, w2, w3, w4⟩ := skipWs_spec fuel cxI h
  have hClen : cxC.remaining.length ≤ cxI.remaining.length := by
    rw [w3]; exact dropWsP_length_le _
  by_cases hs : optionStarts cxC.remaining
  · obtain ⟨v, cxD, o1, o2, o3, o4, o5⟩ :=
      parse_option_yes fuel cxC hs (lt_of_le_of_lt hClen h)
    obtain ⟨a1, a2, a3⟩ := addOption_spec opts cxD v (cxC.offset, cxD.offset)
    refine ⟨(addOption opts cxD v (cxC.offset, cxD.offset)).1,
      (addOption opts cxD v (cxC.offset, cxD.offset)).2, ?_,
      by rw [a1, o2, w2], ?_, ?_, by rwa [a2]⟩
    · simp [optionsIterStep, w1, o1]
    · rw [a2]
      exact le_trans (le_of_lt o3) hClen
    · exact errsExtend_trans w4 (errsExtend_trans o4 a3)
  · have heq := parse_option_no fuel cxC hs
    have hb : optBoundary cxI.remaining := by
      rcases hx : cxC.remaining with _ | ⟨c, rest⟩
      · unfold optBoundary
        rw [← w3, hx]
        exact trivial
      · have hc : ¬(c = '"' ∨ ¬atomRejects c) :=
          fun hh => hs ⟨c, rest, hx, hh⟩
        push_neg at hc
        exact optBoundary_of_reject (by rw [← w3, hx]) hc.2
    have hroll : tryRollback cxI cxC = cxI := by
      obtain ⟨s, r, e⟩ := cxI
      simp [tryRollback, errsExtend_take w4, w2]
    refine ⟨opts, pushErr (tryRollback cxI cxC)
        (.EmptyOption (os,
          if cxC.remaining.head? = some ',' then cxC.offset + 1
          else cxC.offset)), ?_, ?_, ?_, ?_, ?_⟩
    · simp [optionsIterStep, w1, heq]
    · simp [hroll, pushErr]
    · simp [hroll, pushErr]
    · rw [hroll]
      exact errsExtend_push _ _
    · rw [hroll]
      simpa [pushErr] using hb

/-- The exit condition: after the field whitespace no comma follows, so
`optBoundary` strengthens to `optionsBoundary`. -/
theorem optionsBoundary_of_optBoundary {s : Str}
    (hb : optBoundary s) (hc : dropWsP s = [] ∨ ∀ r, dropWsP s ≠ ',' :: r) :
    optionsBoundary s := by
  unfold optBoundary at hb
  unfold optionsBoundary
  rcases hx : dropWsP s with _ | ⟨c, rest⟩
  · exact trivial
  · rw [hx] at hb
    rcases hb with h | h
    · rcases hc with hc | hc
      · simp [hx] at hc
      · exact absurd (hx.trans (by rw [h])) (hc rest)
    · exact h

theorem optionsLoop_spec (fuel : Nat) :
    ∀ (cx : Ctx) (opts : List (Str × Span)) (os : Nat) (already : Bool),
      cx.remaining.length + (if already then 1 else 0) < fuel →
      (already = false → optBoundary cx.remaining) →
      ∃ opts' cx', optionsLoop fuel cx opts os already = some (opts', cx') ∧
        cx'.source = cx.source ∧
        cx'.remaining.length ≤ cx.remaining.length ∧
        errsExtend cx.errors cx'.errors ∧
        optionsBoundary cx'.remaining := by
  induction fuel with
  | zero => intro cx opts os already h _; omega
  | succ n ih =>
    intro cx opts os already h hinv
    by_cases ha : already = true
    · subst ha
      have hlt : cx.remaining.length < n := by simpa using h
      obtain ⟨opts₁, cx₁, s1, s2, s3, s4, s5⟩ :=
        optionsIterStep_spec (n + 1) cx opts os (by omega)
      obtain ⟨opts', cx', g1, g2, g3, g4, g5⟩ :=
        ih cx₁ opts₁ os false (by simp; omega) (fun _ => s5)
      refine ⟨opts', cx', ?_, g2.trans s2, le_trans g3 s3,
        errsExtend_trans s4 g4, g5⟩
      simp [optionsLoop, s1, g1]
    · have ha' : already = false := by simpa using ha
      subst ha'
      have hb := hinv rfl
      have hlt : cx.remaining.length < n + 1 := by simpa using h
      obtain ⟨cxA, w1, w2, w3, w4⟩ := skipWs_spec (n + 1) cx hlt
      rcases hx : cxA.remaining with _ | ⟨c, rest⟩
      · -- end of input: the comma attempt fails, the loop exits
        obtain ⟨sA, rA, eA⟩ := cxA
        simp only at hx
        subst hx
        have hroll : tryRollback cx ⟨sA, [], eA⟩ = cx := by
          obtain ⟨s, r, e⟩ := cx
          simp only [tryRollback]
          simp at w2
          simp [w2, errsExtend_take w4]
        refine ⟨opts, cx, ?_, rfl, le_refl _, errsExtend_refl _, ?_⟩
        · simp [optionsLoop, w1, parse_exact_char_nil, hroll]
        · refine optionsBoundary_of_optBoundary hb (Or.inl ?_)
          have := w3
          simp at this
          exact this
      by_cases hc : c = ','
      · -- a comma: continue with one more option attempt
        subst hc
        obtain ⟨sA, rA, eA⟩ := cxA
        simp only at hx
        subst hx
        have heq := parse_exact_char_cons sA ',' rest eA ','
        rw [if_pos rfl] at heq
        have hrlen : rest.length < n := by
          have h1 : (dropWsP cx.remaining).length ≤ cx.remaining.length :=
            dropWsP_length_le _
          have h2 : (',' :: rest).length = (dropWsP cx.remaining).length := by
            rw [← w3]
          simp at h2
          simp at hlt
          omega
        obtain ⟨opts₁, cx₁, s1, s2, s3, s4, s5⟩ :=
          optionsIterStep_spec (n + 1) ⟨sA, rest, eA⟩ opts
            (Ctx.offset ⟨sA, ',' :: rest, eA⟩) (by simp; omega)
        obtain ⟨opts', cx', g1, g2, g3, g4, g5⟩ :=
          ih cx₁ opts₁ (Ctx.offset ⟨sA, ',' :: rest, eA⟩) false
            (by simp at s3 ⊢; omega) (fun _ => s5)
        have hsrc : cx'.source = cx.source := by
          rw [g2]
          rw [s2]
          simpa using w2
        refine ⟨opts', cx', ?_, hsrc, ?_, ?_, g5⟩
        · simp [optionsLoop, w1, heq, s1, g1]
        · have h2 : (',' :: rest).length = (dropWsP cx.remaining).length := by
            rw [← w3]
          have h1 : (dropWsP cx.remaining).length ≤ cx.remaining.length :=
            dropWsP_length_le _
          simp at h2
          simp at s3
          omega
        · exact errsExtend_trans w4 (errsExtend_trans (by simpa using s4) g4)
      · -- no comma: the attempt is rolled back and the loop exits
        obtain ⟨sA, rA, eA⟩ := cxA
        simp only at hx
        subst hx
        have heq := parse_exact_char_cons sA c rest eA ','
        rw [if_neg hc] at heq
        have hroll : tryRollback cx ⟨sA, c :: rest, eA⟩ = cx := by
          obtain ⟨s, r, e⟩ := cx
          simp only [tryRollback]
          simp at w2
          simp [w2, errsExtend_take w4]
        refine ⟨opts, cx, ?_, rfl, le_refl _, errsExtend_refl _, ?_⟩
        · simp [optionsLoop, w1, heq, hroll]
        · refine optionsBoundary_of_optBoundary hb (Or.inr ?_)
          intro r hr
          have := w3
          simp at this
          rw [← this] at hr
          injection hr with h1 _
          exact hc h1

theorem parse_options_spec (fuel : Nat) (cx : Ctx)
    (h : cx.remaining.length < fuel) :
    ∃ r cx', parse_options fuel cx = some (r, cx') ∧
      cx'.source = cx.source ∧
      errsExtend cx.errors cx'.errors ∧
      ((r = none ∧ cx' = cx ∧ (∀ rest, cx.remaining ≠ ',' :: rest) ∧
          ¬optionStarts cx.remaining) ∨
        (∃ opts, r = some opts ∧
          cx'.remaining.length ≤ cx.remaining.length ∧
          optionsBoundary cx'.remaining)) := by
  obtain ⟨src, rem, errs⟩ := cx
  rcases hrem : rem with _ | ⟨c, rest⟩
  · subst hrem
    have heq := parse_exact_char_nil src errs ','
    have hno : ¬optionStarts ([] : Str) := by
      rintro ⟨c, r, hh, _⟩
      simp at hh
    have heqo : parse_option fuel ⟨src, [], errs⟩ =
        some (none, ⟨src, [], errs⟩) :=
      parse_option_no fuel ⟨src, [], errs⟩ hno
    refine ⟨none, ⟨src, [], errs⟩, ?_, rfl, errsExtend_refl _,
      Or.inl ⟨rfl, rfl, by simp, hno⟩⟩
    simp [parse_options, heq, heqo]
  · subst hrem
    by_cases hc : c = ','
    · subst hc
      have heq := parse_exact_char_cons src ',' rest errs ','
      rw [if_pos rfl] at heq
      obtain ⟨opts', cx', g1, g2, g3, g4, g5⟩ :=
        optionsLoop_spec fuel
          (pushErr ⟨src, rest, errs⟩
            (.EmptyOption (Ctx.offset ⟨src, ',' :: rest, errs⟩,
              Ctx.offset ⟨src, rest, errs⟩))) [] 
          (Ctx.offset ⟨src, ',' :: rest, errs⟩) true
          (by simp [pushErr] at h ⊢; omega) (by simp)
      refine ⟨some opts', cx', ?_, by simpa [pushErr] using g2,
        errsExtend_trans (errsExtend_push errs _)
          (by simpa [pushErr] using g4),
        Or.inr ⟨opts', rfl, ?_, g5⟩⟩
      · simp [parse_options, heq, g1]
      · simp [pushErr] at g3
        simp
        omega
    · have heq := parse_exact_char_cons src c rest errs ','
      rw [if_neg hc] at heq
      by_cases hs : optionStarts (c :: rest)
      · obtain ⟨v, cx₂, o1, o2, o3, o4, o5⟩ :=
          parse_option_yes fuel ⟨src, c :: rest, errs⟩ hs h
        obtain ⟨a1, a2, a3⟩ := addOption_spec [] cx₂ v
          (Ctx.offset ⟨src, c :: rest, errs⟩, cx₂.offset)
        set r := addOption [] cx₂ v
          (Ctx.offset ⟨src, c :: rest, errs⟩, cx₂.offset) with hr
        obtain ⟨opts', cx', g1, g2, g3, g4, g5⟩ :=
          optionsLoop_spec fuel r.2 r.1
            (Ctx.offset ⟨src, c :: rest, errs⟩) false
            (by rw [a2]; simp at o3 h ⊢; omega)
            (fun _ => by rwa [a2])
        refine ⟨some opts', cx', ?_, by rw [g2, a1, o2], 
          errsExtend_trans o4 (errsExtend_trans a3 g4),
          Or.inr ⟨opts', rfl, ?_, g5⟩⟩
        · simp [parse_options, heq, o1, g1]
        · rw [a2] at g3
          simp at o3 g3 ⊢
          omega
      · have heqo := parse_option_no fuel ⟨src, c :: rest, errs⟩ hs
        refine ⟨none, ⟨src, c :: rest, errs⟩, ?_, rfl, errsExtend_refl _,
          Or.inl ⟨rfl, rfl, ?_, hs⟩⟩
        · simp [parse_options, heq, heqo]
        · intro r hr
          injection hr with h1 _
          exact hc h1

theorem dashish_of_optionsBoundary {s : Str} (h : optionsBoundary s) :
    dashish (dropWsP s) := by
  unfold optionsBoundary at h
  rcases hx : dropWsP s with _ | ⟨c, rest⟩
  · exact Or.inl rfl
  · rw [hx] at h
    exact Or.inr ⟨c, rest, rfl, h⟩

theorem dashish_of_reject {s : Str} {c : Char} {rest : Str}
    (hd : dropWsP s = c :: rest) (hr : atomRejects c) (hc : c ≠ ',') :
    dashish (dropWsP s) := by
  have hb := optBoundary_of_reject hd hr
  unfold optBoundary at hb
  rw [hd] at hb
  refine Or.inr ⟨c, rest, hd, ?_⟩
  rcases hb with h | h | h | h | h
  · exact absurd h hc
  · exact Or.inl h
  · exact Or.inr (Or.inl h)
  · exact Or.inr (Or.inr (Or.inl h))
  · exact Or.inr (Or.inr (Or.inr h))

theorem blankish_of_reject {s : Str} {c : Char} {rest : Str}
    (hd : dropWsP s = c :: rest) (hr : atomRejects c)
    (h1 : c ≠ ',') (h2 : c ≠ '-') : blankish s := by
  have hf : isFieldWs c = false := by
    rcases dropWsP_head s with h | ⟨c', rest', ha, hb⟩
    · simp [hd] at h
    · rw [hd] at ha
      cases ha
      exact hb
  unfold blankish
  rw [hd]
  rcases hr with h | h | h | h | h | h
  · exact Or.inl (Or.inr (Or.inl ⟨rest, by rw [h]⟩))
  · exact Or.inl (Or.inr (Or.inr ⟨rest, by rw [h]⟩))
  · exact absurd h h1
  · exact absurd h h2
  · exact Or.inr (by simp [h])
  · by_cases hcr : c = '\r'
    · exact Or.inl (Or.inr (Or.inl ⟨rest, by rw [hcr]⟩))
    · by_cases hlf : c = '\n'
      · exact Or.inl (Or.inr (Or.inr ⟨rest, by rw [hlf]⟩))
      · exact absurd ⟨h, hcr, hlf⟩ (isFieldWs_not hf)

theorem termsBody_spec (fuel : Nat) (cx : Ctx)
    (h : cx.remaining.length < fuel) :
    ∃ r, termsBody fuel cx = some r ∧
      r.2.source = cx.source ∧
      errsExtend cx.errors r.2.errors ∧
      ((r.1 = none ∧ blankish cx.remaining) ∨
        (∃ terms sb, r.1 = some (terms, true, sb) ∧
          r.2.remaining.length ≤ cx.remaining.length) ∨
        (∃ terms sb, r.1 = some (terms, false, sb) ∧
          r.2.remaining.length ≤ cx.remaining.length ∧
          (atLineEnd r.2.remaining ∨ r.2.remaining.head? = some '#'))) := by
  obtain ⟨cxA, w1, w2, w3, w4⟩ := skipWs_spec fuel cx h
  have hAlen : cxA.remaining.length ≤ cx.remaining.length := by
    rw [w3]; exact dropWsP_length_le _
  obtain ⟨ores, cxB, p1, p2, p3, p4⟩ :=
    parse_options_spec fuel cxA (lt_of_le_of_lt hAlen h)
  rcases p4 with ⟨hn, hcx, hnc, hns⟩ | ⟨opts, hsome, hblen, hbnd⟩
  · -- the inner (whitespace, options) attempt failed and is rolled back
    subst hn
    subst hcx
    have hroll : tryRollback cx cxB = cx := by
      obtain ⟨s, r, e⟩ := cx
      simp [tryRollback, errsExtend_take w4, w2]
    have hbody : tryParseF cx
        ((skipWs fuel cx).bind fun cxA => parse_options fuel cxA) =
          some (none, cx) := by
      simp [tryParseF, w1, p1, tryParse, hroll]
    obtain ⟨cxC, v1, v2, v3, v4⟩ := skipWs_spec fuel cx h
    have hCC : cxC.remaining = cxB.remaining := by rw [v3, w3]
    obtain ⟨sC, rC, eC⟩ := cxC
    simp only at v2 v3 v4 hCC
    rcases hx : rC with _ | ⟨c, rest⟩
    · subst hx
      have heq := parse_exact_char_nil sC eC '-'
      refine ⟨(none, ⟨sC, [], eC⟩), ?_, v2, v4, Or.inl ⟨rfl, ?_⟩⟩
      · rw [termsBody, hbody]
        simp [v1, heq]
      · unfold blankish
        rw [← v3]
        exact Or.inl (Or.inl rfl)
    · subst hx
      by_cases hc : c = '-'
      · subst hc
        have heq := parse_exact_char_cons sC '-' rest eC '-'
        rw [if_pos rfl] at heq
        refine ⟨(some ([], true,
            decide (rest.length + 1 < cx.remaining.length)), ⟨sC, rest, eC⟩),
          ?_, v2, v4, Or.inr (Or.inl ⟨[], _, rfl, ?_⟩)⟩
        · rw [termsBody, hbody]
          simp [v1, heq]
        · have h1 : (('-' :: rest : Str)).length ≤ cx.remaining.length := by
            rw [v3]; exact dropWsP_length_le _
          simp at h1 ⊢
          omega
      · have heq := parse_exact_char_cons sC c rest eC '-'
        rw [if_neg hc] at heq
        have hrej : atomRejects c ∧ c ≠ '"' := by
          by_contra hcon
          refine hns ?_
          rw [← hCC]
          refine ⟨c, rest, rfl, ?_⟩
          by_cases hq : c = '"'
          · exact Or.inl hq
          · refine Or.inr fun ha => hcon ⟨ha, hq⟩
        refine ⟨(none, ⟨sC, c :: rest, eC⟩), ?_, v2, v4, Or.inl ⟨rfl, ?_⟩⟩
        · rw [termsBody, hbody]
          simp [v1, heq]
        · refine @blankish_of_reject _ c rest ?_ hrej.1 ?_ hc
          · exact v3.symm
          · intro hcm
            exact hnc rest (by rw [← hCC, hcm])
  · -- the options succeeded; look for the separator dash
    obtain ⟨hb1, hb2⟩ : ores = some opts ∧ True := ⟨hsome, trivial⟩
    subst hb1
    have hbody : tryParseF cx
        ((skipWs fuel cx).bind fun cxA => parse_options fuel cxA) =
          some (some opts, cxB) := by
      simp [tryParseF, w1, p1, tryParse]
    have hBlen : cxB.remaining.length ≤ cx.remaining.length :=
      le_trans hblen hAlen
    obtain ⟨cxC, v1, v2, v3, v4⟩ :=
      skipWs_spec fuel cxB (lt_of_le_of_lt hBlen h)
    have hClen : cxC.remaining.length ≤ cx.remaining.length := by
      rw [v3]
      exact le_trans (dropWsP_length_le _) hBlen
    obtain ⟨sC, rC, eC⟩ := cxC
    simp only at v2 v3 v4 hClen
    rcases hx : rC with _ | ⟨c, rest⟩
    · subst hx
      have heq := parse_exact_char_nil sC eC '-'
      refine ⟨(some (opts, false,
          decide (([] : Str).length < cxB.remaining.length)), ⟨sC, [], eC⟩),
        ?_, by rw [v2, p2, w2], ?_, Or.inr (Or.inr ⟨opts, _, rfl, by simp,
          Or.inl (Or.inl rfl)⟩)⟩
      · rw [termsBody, hbody]
        simp [v1, heq]
      · exact errsExtend_trans w4 (errsExtend_trans p3 v4)
    · subst hx
      by_cases hc : c = '-'
      · subst hc
        have heq := parse_exact_char_cons sC '-' rest eC '-'
        rw [if_pos rfl] at heq
        refine ⟨(some (opts, true,
            decide (rest.length + 1 < cxB.remaining.length)), ⟨sC, rest, eC⟩),
          ?_, by rw [v2, p2, w2], ?_, Or.inr (Or.inl ⟨opts, _, rfl, ?_⟩)⟩
        · rw [termsBody, hbody]
          simp [v1, heq]
        · exact errsExtend_trans w4 (errsExtend_trans p3 v4)
        · simp at hClen ⊢
          omega
      · have heq := parse_exact_char_cons sC c rest eC '-'
        rw [if_neg hc] at heq
        have hcd : c = '#' ∨ c = '\r' ∨ c = '\n' := by
          have := hbnd
          unfold optionsBoundary at this
          rw [show dropWsP cxB.remaining = c :: rest from v3.symm] at this
          rcases this with h' | h' | h' | h'
          · exact absurd h' hc
          · exact Or.inl h'
          · exact Or.inr (Or.inl h')
          · exact Or.inr (Or.inr h')
        refine ⟨(some (opts, false,
            decide ((c :: rest : Str).length < cxB.remaining.length)),
            ⟨sC, c :: rest, eC⟩),
          ?_, by rw [v2, p2, w2], ?_, Or.inr (Or.inr ⟨opts, _, rfl,
            by simpa using hClen, ?_⟩)⟩
        · rw [termsBody, hbody]
          simp [v1, heq]
        · exact errsExtend_trans w4 (errsExtend_trans p3 v4)
        · rcases hcd with h' | h' | h'
          · exact Or.inr (by simp [h'])
          · exact Or.inl (Or.inr (Or.inl ⟨rest, by rw [h']⟩))
          · exact Or.inl (Or.inr (Or.inr ⟨rest, by rw [h']⟩))

theorem ite_pushErr_facts (cx : Ctx) (b : Prop) [Decidable b]
    (e : ParseError) :
    (if b then pushErr cx e else cx).source = cx.source ∧
    (if b then pushErr cx e else cx).remaining = cx.remaining ∧
    errsExtend cx.errors (if b then pushErr cx e else cx).errors := by
  split
  · exact ⟨rfl, rfl, errsExtend_push _ _⟩
  · exact ⟨rfl, rfl, errsExtend_refl _⟩

theorem thirdPartTail_spec (fuel : Nat) (cardStart : Nat)
    (defs : List (Str × Span)) (cx₅ : Ctx)
    (hlen : cx₅.remaining.length < fuel) (hd : dashish cx₅.remaining) :
    ∃ cxD, thirdPartTail fuel cardStart defs cx₅ = some (defs, cxD) ∧
      cxD.source = cx₅.source ∧
      cxD.remaining.length ≤ cx₅.remaining.length ∧
      errsExtend cx₅.errors cxD.errors ∧
      (atLineEnd cxD.remaining ∨ cxD.remaining.head? = some '#') := by
  obtain ⟨s, r, e⟩ := cx₅
  rcases hd with hd | ⟨c, rest, hd, hc⟩
  · simp only at hd
    subst hd
    refine ⟨⟨s, [], e⟩, ?_, rfl, le_refl _, errsExtend_refl _,
      Or.inl (Or.inl rfl)⟩
    simp [thirdPartTail, parse_exact_char_nil]
  · simp only at hd
    subst hd
    rcases hc with hc | hc | hc | hc
    · subst hc
      have heq := parse_exact_char_cons s '-' rest e '-'
      rw [if_pos rfl] at heq
      obtain ⟨cxT, g1, g2, g3, g4⟩ :=
        titleChars_spec fuel ⟨s, rest, e⟩ [] (by simp at hlen ⊢; omega)
      refine ⟨pushErr cxT
          (.ThirdPart (cardStart, Ctx.offset ⟨s, '-' :: rest, e⟩)
            (Ctx.offset ⟨s, '-' :: rest, e⟩, cxT.offset)), ?_,
        by simpa [pushErr] using g2, ?_,
        errsExtend_trans g4 (by simpa [pushErr] using errsExtend_push _ _),
        ?_⟩
      · simp [thirdPartTail, heq, g1]
      · simp only [pushErr]
        rw [g3]
        simp
        exact le_trans (dropWhile_length_le _ _) (by omega)
      · simp only [pushErr]
        rw [g3]
        simp only []
        rcases dropTitle_head rest with hh | hh
        · exact Or.inl hh
        · exact Or.inr hh
    · subst hc
      have heq := parse_exact_char_cons s '#' rest e '-'
      rw [if_neg (by decide)] at heq
      exact ⟨⟨s, '#' :: rest, e⟩, by simp [thirdPartTail, heq], rfl,
        le_refl _, errsExtend_refl _, Or.inr (by simp)⟩
    · subst hc
      have heq := parse_exact_char_cons s '\r' rest e '-'
      rw [if_neg (by decide)] at heq
      exact ⟨⟨s, '\r' :: rest, e⟩, by simp [thirdPartTail, heq], rfl,
        le_refl _, errsExtend_refl _, Or.inl (Or.inr (Or.inl ⟨rest, rfl⟩))⟩
    · subst hc
      have heq := parse_exact_char_cons s '\n' rest e '-'
      rw [if_neg (by decide)] at heq
      exact ⟨⟨s, '\n' :: rest, e⟩, by simp [thirdPartTail, heq], rfl,
        le_refl _, errsExtend_refl _, Or.inl (Or.inr (Or.inr ⟨rest, rfl⟩))⟩

theorem cardFinish_spec (fuel : Nat) (cardStart : Nat)
    (terms defs : List (Str × Span)) (cxD : Ctx)
    (hlen : cxD.remaining.length < fuel)
    (hb : atLineEnd cxD.remaining ∨ cxD.remaining.head? = some '#') :
    ∃ cxG, cardFinish fuel cardStart terms defs cxD =
        some (some ⟨terms.map Prod.fst, defs.map Prod.fst⟩, cxG) ∧
      cxG.source = cxD.source ∧
      cxG.remaining.length ≤ cxD.remaining.length ∧
      errsExtend cxD.errors cxG.errors ∧
      atLineEnd cxG.remaining := by
  obtain ⟨e1, e2, e3⟩ := ite_pushErr_facts cxD (terms = [])
    (.NoTerms (cardStart, cxD.offset))
  set cxE := if terms = [] then pushErr cxD (.NoTerms (cardStart, cxD.offset))
    else cxD with hE
  obtain ⟨f1, f2, f3⟩ := ite_pushErr_facts cxE (defs = [])
    (.NoDefinitions (cardStart, cxE.offset))
  set cxF := if defs = [] then pushErr cxE (.NoDefinitions (cardStart, cxE.offset))
    else cxE with hF
  obtain ⟨cxG, c1, c2, c3, c4⟩ := parse_comment_spec fuel cxF
    (by rw [f2, e2]; exact hlen)
  refine ⟨cxG, ?_, by rw [c2, f1, e1], ?_, 
    errsExtend_trans e3 (errsExtend_trans f3 c4), ?_⟩
  · simp [cardFinish, ← hE, ← hF, c1]
  · rw [c3, f2, e2]
    exact commentRest_length_le _
  · rw [c3, f2, e2]
    exact commentRest_atLineEnd _ (by
      rcases hb with hb | hb
      · exact Or.inl hb
      · exact Or.inr (by simpa using hb))

theorem cardDefs_spec (fuel : Nat) (cardStart : Nat) (cx₁ : Ctx)
    (sb : Bool) (hlen : cx₁.remaining.length < fuel) :
    ∃ defs cxD, cardDefs fuel cardStart cx₁ sb = some (defs, cxD) ∧
      cxD.source = cx₁.source ∧
      cxD.remaining.length ≤ cx₁.remaining.length ∧
      errsExtend cx₁.errors cxD.errors ∧
      (atLineEnd cxD.remaining ∨ cxD.remaining.head? = some '#') := by
  obtain ⟨cx₂, w1, w2, w3, w4⟩ := skipWs_spec fuel cx₁ hlen
  have h2len : cx₂.remaining.length ≤ cx₁.remaining.length := by
    rw [w3]; exact dropWsP_length_le _
  obtain ⟨m1, m2, m3⟩ := ite_pushErr_facts cx₂
    (!sb || !decide (cx₂.remaining.length < cx₁.remaining.length))
    (.MissingWhitespaceAroundDash (cx₁.offset - 1, cx₁.offset))
  set cx₃ := if (!sb || !decide (cx₂.remaining.length < cx₁.remaining.length))
    then pushErr cx₂ (.MissingWhitespaceAroundDash (cx₁.offset - 1, cx₁.offset))
    else cx₂ with h3
  have h3len : cx₃.remaining.length ≤ cx₁.remaining.length := by
    rw [m2]; exact h2len
  have hrem3 : cx₃.remaining = dropWsP cx₁.remaining := by rw [m2, w3]
  obtain ⟨defsRes, cx₄, p1, p2, p3, p4⟩ := parse_options_spec fuel cx₃
    (lt_of_le_of_lt h3len hlen)
  rcases p4 with ⟨hn, hcx, hnc, hns⟩ | ⟨opts, hsome, hblen, hbnd⟩
  · subst hn
    subst hcx
    have hdash : dashish cx₃.remaining := by
      rcases hx : cx₃.remaining with _ | ⟨c, rest⟩
      · exact Or.inl rfl
      · have hrej : atomRejects c ∧ c ≠ '"' := by
          by_contra hcon
          refine hns ⟨c, rest, hx, ?_⟩
          by_cases hq : c = '"'
          · exact Or.inl hq
          · exact Or.inr fun ha => hcon ⟨ha, hq⟩
        have hcm : c ≠ ',' := fun hcm => hnc rest (by rw [hx, hcm])
        have hd : dropWsP cx₁.remaining = c :: rest := by
          rw [← hrem3]; exact hx
        have := dashish_of_reject hd hrej.1 hcm
        rwa [hd] at this
    obtain ⟨cxD, t1, t2, t3, t4, t5⟩ :=
      thirdPartTail_spec fuel cardStart [] cx₃
        (lt_of_le_of_lt h3len hlen) hdash
    refine ⟨[], cxD, ?_, by rw [t2, m1, w2], le_trans t3 h3len,
      errsExtend_trans w4 (errsExtend_trans m3 t4), t5⟩
    rw [cardDefs, w1]
    simp only [← h3, p1]
    simp [t1]
  · subst hsome
    obtain ⟨cx₅, v1, v2, v3, v4⟩ := skipWs_spec fuel cx₄
      (lt_of_le_of_lt (le_trans hblen h3len) hlen)
    have h5len : cx₅.remaining.length ≤ cx₁.remaining.length := by
      rw [v3]
      exact le_trans (dropWsP_length_le _) (le_trans hblen h3len)
    have hdash : dashish cx₅.remaining := by
      rw [v3]
      exact dashish_of_optionsBoundary hbnd
    obtain ⟨cxD, t1, t2, t3, t4, t5⟩ :=
      thirdPartTail_spec fuel cardStart opts cx₅
        (lt_of_le_of_lt h5len hlen) hdash
    refine ⟨opts, cxD, ?_, by rw [t2, v2, p2, m1, w2],
      le_trans t3 h5len,
      errsExtend_trans w4 (errsExtend_trans m3
        (errsExtend_trans p3 (errsExtend_trans v4 t4))), t5⟩
    rw [cardDefs, w1]
    simp only [← h3, p1]
    simp [v1, t1]

theorem parse_card_spec (fuel : Nat) (cx : Ctx)
    (h : cx.remaining.length < fuel) :
    ∃ r, parse_card fuel cx = some r ∧
      ((r.1 = none ∧ r.2 = cx ∧ blankish cx.remaining) ∨
        (∃ card, r.1 = some card ∧ r.2.source = cx.source ∧
          r.2.remaining.length ≤ cx.remaining.length ∧
          errsExtend cx.errors r.2.errors ∧ atLineEnd r.2.remaining)) := by
  obtain ⟨⟨rT, cxT⟩, t1, t2, t3, t4⟩ := termsBody_spec fuel cx h
  have t2' : cxT.source = cx.source := t2
  have t3' : errsExtend cx.errors cxT.errors := t3
  rcases t4 with ⟨hn, hblank⟩ | ⟨terms, sb, hsome, hTlen⟩ |
    ⟨terms, sb, hsome, hTlen, hTb⟩
  · simp only at hn
    subst hn
    have hroll : tryRollback cx cxT = cx := by
      obtain ⟨s, r, e⟩ := cx
      simp [tryRollback, errsExtend_take t3', t2']
    refine ⟨(none, cx), ?_, Or.inl ⟨rfl, rfl, hblank⟩⟩
    simp [parse_card, tryParseF, t1, tryParse, hroll]
  · simp only at hsome
    subst hsome
    obtain ⟨defs, cxD, d1, d2, d3, d4, d5⟩ :=
      cardDefs_spec fuel cx.offset cxT sb (lt_of_le_of_lt hTlen h)
    obtain ⟨cxG, f1, f2, f3, f4, f5⟩ :=
      cardFinish_spec fuel cx.offset terms defs cxD
        (lt_of_le_of_lt (le_trans d3 hTlen) h) d5
    refine ⟨(some ⟨terms.map Prod.fst, defs.map Prod.fst⟩, cxG), ?_,
      Or.inr ⟨_, rfl, by rw [f2, d2, t2'], le_trans f3 (le_trans d3 hTlen),
        errsExtend_trans t3' (errsExtend_trans d4 f4), f5⟩⟩
    simp [parse_card, tryParseF, t1, tryParse, d1, f1]
  · simp only at hsome
    subst hsome
    obtain ⟨cxG, f1, f2, f3, f4, f5⟩ :=
      cardFinish_spec fuel cx.offset terms [] cxT
        (lt_of_le_of_lt hTlen h) hTb
    refine ⟨(some ⟨terms.map Prod.fst, ([] : List (Str × Span)).map Prod.fst⟩,
        cxG), ?_,
      Or.inr ⟨_, rfl, by rw [f2, t2'], le_trans f3 hTlen,
        errsExtend_trans t3' f4, f5⟩⟩
    simp [parse_card, tryParseF, t1, tryParse, f1]

theorem parse_newline_cases (cx : Ctx) :
    (parse_newline cx = (none, cx) ∧
      (cx.remaining = [] ∨
        ∃ c rest, cx.remaining = c :: rest ∧ c ≠ '\r' ∧ c ≠ '\n')) ∨
    ((parse_newline cx).1 = some () ∧
      (parse_newline cx).2.source = cx.source ∧
      (parse_newline cx).2.remaining.length < cx.remaining.length ∧
      errsExtend cx.errors (parse_newline cx).2.errors) := by
  obtain ⟨src, rem, errs⟩ := cx
  rcases rem with _ | ⟨c, rest⟩
  · exact Or.inl ⟨parse_newline_nil src errs, Or.inl rfl⟩
  by_cases hlf : c = '\n'
  · subst hlf
    refine Or.inr ?_
    rw [parse_newline_lf]
    exact ⟨rfl, rfl, by simp, errsExtend_refl _⟩
  by_cases hcr : c = '\r'
  · subst hcr
    rcases rest with _ | ⟨c₂, rest₂⟩
    · refine Or.inr ?_
      rw [parse_newline_cr_nil]
      exact ⟨rfl, by simp [pushErr], by simp [pushErr],
        by simpa [pushErr] using errsExtend_push errs _⟩
    by_cases hc₂ : c₂ = '\n'
    · subst hc₂
      refine Or.inr ?_
      rw [parse_newline_crlf]
      refine ⟨rfl, rfl, by simp; omega, errsExtend_refl _⟩
    · refine Or.inr ?_
      rw [parse_newline_cr src c₂ rest₂ errs hc₂]
      exact ⟨rfl, by simp [pushErr], by simp [pushErr],
        by simpa [pushErr] using errsExtend_push errs _⟩
  · exact Or.inl ⟨parse_newline_no src c rest errs hcr hlf,
      Or.inr ⟨c, rest, rfl, hcr, hlf⟩⟩

theorem skipBlankLines_spec (fuel : Nat) :
    ∀ cx : Ctx, cx.remaining.length < fuel →
      ∃ cx', skipBlankLines fuel cx = some cx' ∧
        cx'.source = cx.source ∧
        cx'.remaining.length ≤ cx.remaining.length ∧
        errsExtend cx.errors cx'.errors := by
  induction fuel with
  | zero => intro cx h; omega
  | succ n ih =>
    intro cx h
    obtain ⟨cxB, b1, b2, b3, b4⟩ := parse_blank_line_spec (n + 1) cx h
    have hBlen : cxB.remaining.length ≤ cx.remaining.length := by
      rw [b3]
      exact le_trans (commentRest_length_le _) (dropWsP_length_le _)
    rcases parse_newline_cases cxB with ⟨hn1, _⟩ | ⟨hn1, hn2, hn3, hn4⟩
    · have hroll : tryRollback cx cxB = cx := by
        obtain ⟨s, r, e⟩ := cx
        simp [tryRollback, errsExtend_take b4, b2]
      refine ⟨cx, ?_, rfl, le_refl _, errsExtend_refl _⟩
      simp [skipBlankLines, tryParseF, b1, hn1, tryParse, hroll]
    · rcases hpn : parse_newline cxB with ⟨r1, cxN⟩
      rw [hpn] at hn1 hn2 hn3 hn4
      obtain rfl : r1 = some () := hn1
      have hn2' : cxN.source = cxB.source := hn2
      have hn3' : cxN.remaining.length < cxB.remaining.length := hn3
      have hn4' : errsExtend cxB.errors cxN.errors := hn4
      obtain ⟨cx', g1, g2, g3, g4⟩ := ih cxN (by
        have := hBlen
        omega)
      refine ⟨cx', ?_, g2.trans (hn2'.trans b2),
        le_trans g3 (le_trans (le_of_lt hn3') hBlen),
        errsExtend_trans b4 (errsExtend_trans hn4' g4)⟩
      simp [skipBlankLines, tryParseF, b1, hpn, tryParse, g1]

theorem cardsLoop_spec (fuel : Nat) :
    ∀ (cx : Ctx) (cards : List (Card × Span)),
      cx.remaining.length < fuel → atLineEnd cx.remaining →
      ∃ cards' cx', cardsLoop fuel cx cards = some (cards', cx') ∧
        cx'.source = cx.source ∧
        errsExtend cx.errors cx'.errors ∧
        cx'.remaining = [] := by
  induction fuel with
  | zero => intro cx cards h _; omega
  | succ n ih =>
    intro cx cards h hline
    rcases parse_newline_cases cx with ⟨hn1, hn2⟩ | ⟨hn1, hn2, hn3, hn4⟩
    · -- no line break follows: with the invariant, the input is exhausted
      have hnil : cx.remaining = [] := by
        rcases hn2 with h' | ⟨c, rest, hc, h1, h2⟩
        · exact h'
        · rcases hline with hl | ⟨r, hl⟩ | ⟨r, hl⟩
          · exact hl
          · rw [hc] at hl
            injection hl with hl' _
            exact absurd hl' h1
          · rw [hc] at hl
            injection hl with hl' _
            exact absurd hl' h2
      exact ⟨cards, cx, by simp [cardsLoop, hn1], rfl, errsExtend_refl _,
        hnil⟩
    · rcases hpn : parse_newline cx with ⟨r1, cx₁⟩
      rw [hpn] at hn1 hn2 hn3 hn4
      obtain rfl : r1 = some () := hn1
      have hn2' : cx₁.source = cx.source := hn2
      have hn3' : cx₁.remaining.length < cx.remaining.length := hn3
      have hn4' : errsExtend cx.errors cx₁.errors := hn4
      obtain ⟨⟨rC, cx₂⟩, c1, c2⟩ := parse_card_spec (n + 1) cx₁
        (lt_trans hn3' h)
      rcases c2 with ⟨hc1, hc2, hc3⟩ | ⟨card, hc1, hc2, hc3, hc4, hc5⟩
      · -- not a card: skip the blank line
        simp only at hc1 hc2
        subst hc1
        subst hc2
        obtain ⟨cx₃, b1, b2, b3, b4⟩ := parse_blank_line_spec (n + 1) cx₂
          (lt_trans hn3' h)
        have hline₃ : atLineEnd cx₃.remaining := by
          rw [b3]
          exact commentRest_atLineEnd _ hc3
        have hlen₃ : cx₃.remaining.length ≤ cx₂.remaining.length := by
          rw [b3]
          exact le_trans (commentRest_length_le _) (dropWsP_length_le _)
        obtain ⟨cards', cx', g1, g2, g3, g4⟩ := ih cx₃ cards
          (by omega) hline₃
        refine ⟨cards', cx', ?_, g2.trans (b2.trans hn2'),
          errsExtend_trans hn4' (errsExtend_trans b4 g3), g4⟩
        simp [cardsLoop, hpn, c1, b1, g1]
      · -- a card was parsed; deduplicate and continue
        simp only at hc1
        subst hc1
        have hc2' : cx₂.source = cx₁.source := hc2
        have hc3' : cx₂.remaining.length ≤ cx₁.remaining.length := hc3
        have hc4' : errsExtend cx₁.errors cx₂.errors := hc4
        have hc5' : atLineEnd cx₂.remaining := hc5
        rcases hlk : lookupCard cards card with _ | orig
        · obtain ⟨cards', cx', g1, g2, g3, g4⟩ :=
            ih cx₂ (cards ++ [(card, (cx₁.offset, cx₂.offset))])
              (by omega) hc5'
          refine ⟨cards', cx', ?_, g2.trans (hc2'.trans hn2'),
            errsExtend_trans hn4' (errsExtend_trans hc4' g3), g4⟩
          simp [cardsLoop, hpn, c1, hlk, g1]
        · obtain ⟨cards', cx', g1, g2, g3, g4⟩ :=
            ih (pushErr cx₂ (.DuplicateCard orig (cx₁.offset, cx₂.offset)))
              cards (by simp [pushErr]; omega)
              (by simpa [pushErr] using hc5')
          refine ⟨cards', cx', ?_, ?_, ?_, g4⟩
          · simp [cardsLoop, hpn, c1, hlk, g1]
          · rw [g2]
            simpa [pushErr] using hc2'.trans hn2'
          · exact errsExtend_trans hn4' (errsExtend_trans hc4'
              (errsExtend_trans (errsExtend_push _ _)
                (by simpa [pushErr] using g3)))

theorem parse_set_inner_spec (fuel : Nat) (cx : Ctx)
    (h : cx.remaining.length < fuel) :
    ∃ set cx', parse_set_inner fuel cx = some (set, cx') ∧
      cx'.source = cx.source ∧
      errsExtend cx.errors cx'.errors ∧
      cx'.remaining = [] := by
  obtain ⟨cxS, s1, s2, s3, s4⟩ := skipBlankLines_spec fuel cx h
  obtain ⟨cxT, t1, t2, t3, t4, t5⟩ := parse_title_spec fuel cxS
    (lt_of_le_of_lt s3 h)
  obtain ⟨cards, cx', g1, g2, g3, g4⟩ := cardsLoop_spec fuel cxT []
    (lt_of_le_of_lt (le_trans t4 s3) h) t3
  refine ⟨⟨strTrim (cxS.remaining.takeWhile isTitleChar),
      cards.map Prod.fst⟩,
    (if cards = [] then pushErr cx' .EmptySet else cx'), ?_, ?_, ?_, ?_⟩
  · rw [parse_set_inner, s1]
    simp [t1, g1]
  · obtain ⟨e1, e2, e3⟩ := ite_pushErr_facts cx' (cards = []) .EmptySet
    rw [e1, g2, t2, s2]
  · obtain ⟨e1, e2, e3⟩ := ite_pushErr_facts cx' (cards = []) .EmptySet
    exact errsExtend_trans s4 (errsExtend_trans t5
      (errsExtend_trans g3 e3))
  · obtain ⟨e1, e2, e3⟩ := ite_pushErr_facts cx' (cards = []) .EmptySet
    rw [e2, g4]

/-! ### The CRLF simulation -/

theorem crlfOf_nil : crlfOf [] = [] := rfl

theorem crlfOf_lf (r : Str) :
    crlfOf ('\n' :: r) = '\r' :: '\n' :: crlfOf r := rfl

theorem crlfOf_crlf (r : Str) :
    crlfOf ('\r' :: '\n' :: r) = '\r' :: '\n' :: crlfOf r := rfl

theorem crlfOf_cr_nil : crlfOf ['\r'] = ['\r'] := rfl

theorem crlfOf_cr (c : Char) (r : Str) (h : c ≠ '\n') :
    crlfOf ('\r' :: c :: r) = '\r' :: crlfOf (c :: r) := by
  rw [crlfOf]
  · rintro rest - heq
    injection heq with h1 _
    exact h h1
  · intro hbad
    exact absurd hbad (by decide)

theorem crlfOf_other (c : Char) (r : Str) (h₁ : c ≠ '\r') (h₂ : c ≠ '\n') :
    crlfOf (c :: r) = c :: crlfOf r := by
  rw [crlfOf]
  · rintro rest hbad -
    exact h₁ hbad
  · intro hbad
    exact h₂ hbad

/-- A CR whose successor is not LF is copied unchanged. -/
theorem crlfOf_cr_any (r : Str) (h : r.head? ≠ some '\n') :
    crlfOf ('\r' :: r) = '\r' :: crlfOf r := by
  match r with
  | [] => exact crlfOf_cr_nil
  | c :: r₂ =>
      refine crlfOf_cr c r₂ (fun hc => h ?_)
      rw [hc]
      rfl

/-- `crlfOf` commutes with `takeWhile` for predicates rejecting CR and
LF. -/
theorem takeWhile_crlfOf (p : Char → Bool) (hr : p '\r' = false)
    (hn : p '\n' = false) (s : Str) :
    (crlfOf s).takeWhile p = s.takeWhile p := by
  induction s using crlfOf.induct with
  | case1 => rfl
  | case2 rest ih =>
      rw [crlfOf_crlf]
      simp [List.takeWhile_cons, hr, hn]
  | case3 rest ih =>
      rw [crlfOf_lf]
      simp [List.takeWhile_cons, hr, hn]
  | case4 c rest h1 h2 ih =>
      have hcn : c ≠ '\n' := fun hc => h2 hc
      by_cases hcr : c = '\r'
      · subst hcr
        have hhd : rest.head? ≠ some '\n' := by
          intro hh
          cases rest with
          | nil => exact Option.noConfusion hh
          | cons c₂ r₂ =>
              simp only [List.head?, Option.some.injEq] at hh
              exact h1 r₂ rfl (by rw [hh])
        rw [crlfOf_cr_any rest hhd]
        simp [List.takeWhile_cons, hr]
      · rw [crlfOf_other c rest hcr hcn]
        simp only [List.takeWhile_cons]
        by_cases hp : p c = true
        · simp [hp, ih]
        · simp [Bool.not_eq_true] at hp
          simp [hp]

/-- `crlfOf` commutes with `dropWhile` for predicates rejecting CR and
LF. -/
theorem dropWhile_crlfOf (p : Char → Bool) (hr : p '\r' = false)
    (hn : p '\n' = false) (s : Str) :
    (crlfOf s).dropWhile p = crlfOf (s.dropWhile p) := by
  induction s using crlfOf.induct with
  | case1 => rfl
  | case2 rest ih =>
      rw [crlfOf_crlf]
      simp [List.dropWhile_cons, hr, hn, crlfOf_crlf]
  | case3 rest ih =>
      rw [crlfOf_lf]
      simp [List.dropWhile_cons, hr, hn, crlfOf_lf]
  | case4 c rest h1 h2 ih =>
      have hcn : c ≠ '\n' := fun hc => h2 hc
      by_cases hcr : c = '\r'
      · subst hcr
        have hhd : rest.head? ≠ some '\n' := by
          intro hh
          cases rest with
          | nil => exact Option.noConfusion hh
          | cons c₂ r₂ =>
              simp only [List.head?, Option.some.injEq] at hh
              exact h1 r₂ rfl (by rw [hh])
        rw [crlfOf_cr_any rest hhd]
        simp [List.dropWhile_cons, hr, crlfOf_cr_any rest hhd]
      · rw [crlfOf_other c rest hcr hcn]
        simp only [List.dropWhile_cons]
        by_cases hp : p c = true
        · simp [hp, ih]
        · simp [Bool.not_eq_true] at hp
          simp [hp, crlfOf_other c rest hcr hcn]

/-- The head of the CRLF version determines and is determined by the head
of the original string, up to the LF-to-CRLF change. -/
theorem crlfOf_head (s : Str) :
    (s = [] ∧ crlfOf s = []) ∨
    (∃ r, s = '\n' :: r ∧ crlfOf s = '\r' :: '\n' :: crlfOf r) ∨
    (∃ r, s = '\r' :: '\n' :: r ∧ crlfOf s = '\r' :: '\n' :: crlfOf r) ∨
    (∃ r, s = '\r' :: r ∧ r.head? ≠ some '\n' ∧
      crlfOf s = '\r' :: crlfOf r) ∨
    (∃ c r, s = c :: r ∧ c ≠ '\r' ∧ c ≠ '\n' ∧
      crlfOf s = c :: crlfOf r) := by
  match s with
  | [] => exact Or.inl ⟨rfl, rfl⟩
  | '\n' :: r => exact Or.inr (Or.inl ⟨r, rfl, crlfOf_lf r⟩)
  | '\r' :: '\n' :: r =>
      exact Or.inr (Or.inr (Or.inl ⟨r, rfl, crlfOf_crlf r⟩))
  | '\r' :: [] =>
      exact Or.inr (Or.inr (Or.inr (Or.inl
        ⟨[], rfl, ⟨fun h => Option.noConfusion h, crlfOf_cr_nil⟩⟩)))
  | '\r' :: c :: r =>
      by_cases hc : c = '\n'
      · subst hc
        exact Or.inr (Or.inr (Or.inl ⟨r, rfl, crlfOf_crlf r⟩))
      · refine Or.inr (Or.inr (Or.inr (Or.inl ⟨c :: r, rfl, ?_, ?_⟩)))
        · intro h
          injection h with h1
          exact hc h1
        · exact crlfOf_cr c r hc
  | c :: r =>
      by_cases h1 : c = '\n'
      · subst h1; exact Or.inr (Or.inl ⟨r, rfl, crlfOf_lf r⟩)
      by_cases h2 : c = '\r'
      · subst h2
        match r with
        | [] =>
            exact Or.inr (Or.inr (Or.inr (Or.inl
              ⟨[], rfl, ⟨fun h => Option.noConfusion h, crlfOf_cr_nil⟩⟩)))
        | c₂ :: r₂ =>
            by_cases hc : c₂ = '\n'
            · subst hc
              exact Or.inr (Or.inr (Or.inl ⟨r₂, rfl, crlfOf_crlf r₂⟩))
            · refine Or.inr (Or.inr (Or.inr (Or.inl
                ⟨c₂ :: r₂, rfl, ?_, crlfOf_cr c₂ r₂ hc⟩)))
              intro h
              injection h with h1
              exact hc h1
      · exact Or.inr (Or.inr (Or.inr (Or.inr
          ⟨c, r, rfl, h2, h1, crlfOf_other c r h2 h1⟩)))

theorem crlfOf_eq_nil {s : Str} (h : crlfOf s = []) : s = [] := by
  rcases crlfOf_head s with ⟨h1, h2⟩ | ⟨r, h1, h2⟩ | ⟨r, h1, h2⟩ |
      ⟨r, h1, h3, h2⟩ | ⟨c, r, h1, h3, h4, h2⟩
  · exact h1
  · rw [h2] at h; exact absurd h (by simp)
  · rw [h2] at h; exact absurd h (by simp)
  · rw [h2] at h; exact absurd h (by simp)
  · rw [h2] at h; exact absurd h (by simp)

theorem crlfOf_head_ne_lf (s : Str) : (crlfOf s).head? ≠ some '\n' := by
  rcases crlfOf_head s with ⟨h1, h2⟩ | ⟨r, h1, h2⟩ | ⟨r, h1, h2⟩ |
      ⟨r, h1, h3, h2⟩ | ⟨c, r, h1, hc1, hc2, h2⟩
  · rw [h2]; simp
  · rw [h2]; simp
  · rw [h2]; simp
  · rw [h2]; simp
  · rw [h2]
    simp only [List.head?, ne_eq, Option.some.injEq]
    exact hc2

theorem crlfOf_head_eq {c : Char} (hc1 : c ≠ '\r') (hc2 : c ≠ '\n')
    (s : Str) : (crlfOf s).head? = some c ↔ s.head? = some c := by
  rcases crlfOf_head s with ⟨h1, h2⟩ | ⟨r, h1, h2⟩ | ⟨r, h1, h2⟩ |
      ⟨r, h1, h3, h2⟩ | ⟨c₂, r, h1, h3, h4, h2⟩
  · subst h1; rw [crlfOf_nil]
  · subst h1
    rw [h2]
    simp only [List.head?, Option.some.injEq]
    constructor
    · intro h; exact absurd h.symm hc1
    · intro h; exact absurd h.symm hc2
  · subst h1
    rw [h2]
    simp only [List.head?]
  · subst h1
    rw [h2]
    simp only [List.head?]
  · subst h1
    rw [h2]
    simp only [List.head?]

/-- The whitespace-consumption flag (`space_before_dash` and friends) is
insensitive to the CRLF transform. -/
theorem spaceFlag_crlfOf (s : Str) :
    ((dropWsP (crlfOf s)).length < (crlfOf s).length ↔
      (dropWsP s).length < s.length) := by
  have key : ∀ t : Str, (dropWsP t).length < t.length ↔
      0 < (t.takeWhile isFieldWs).length := by
    intro t
    have hsplit : (t.takeWhile isFieldWs).length +
        (t.dropWhile isFieldWs).length = t.length := by
      rw [← List.length_append, List.takeWhile_append_dropWhile]
    unfold dropWsP
    omega
  rw [key, key, takeWhile_crlfOf isFieldWs (by decide) (by decide)]

theorem parse_character_sim : SimStep parse_character := by
  rintro ⟨s₁, r₁, e₁⟩ ⟨s₂, r₂, e₂⟩ hrem hlen
  obtain rfl : r₂ = crlfOf r₁ := hrem
  replace hlen : e₂.length = e₁.length := hlen
  rcases crlfOf_head r₁ with ⟨h1, h2⟩ | ⟨r, h1, h2⟩ | ⟨r, h1, h2⟩ |
      ⟨r, h1, _, h2⟩ | ⟨c, r, h1, hc1, hc2, h2⟩
  · subst h1
    rw [crlfOf_nil, parse_character_nil, parse_character_nil]
    exact ⟨rfl, rfl, hlen⟩
  · subst h1
    rw [h2, parse_character_crlf s₁ _ _ _ (Or.inr rfl),
      parse_character_crlf s₂ _ _ _ (Or.inl rfl)]
    exact ⟨rfl, h2.symm, hlen⟩
  · subst h1
    rw [h2, parse_character_crlf s₁ _ _ _ (Or.inl rfl),
      parse_character_crlf s₂ _ _ _ (Or.inl rfl)]
    exact ⟨rfl, h2.symm, hlen⟩
  · subst h1
    rw [h2, parse_character_crlf s₁ _ _ _ (Or.inl rfl),
      parse_character_crlf s₂ _ _ _ (Or.inl rfl)]
    exact ⟨rfl, h2.symm, hlen⟩
  · subst h1
    rw [h2, parse_character_cons s₁ c r e₁ hc1 hc2,
      parse_character_cons s₂ c (crlfOf r) e₂ hc1 hc2]
    by_cases hctl : rustIsControl c
    · simp [hctl, pushErr, hlen]
    · simp [hctl, hlen]

theorem parse_exact_char_sim (e : Char) (he1 : e ≠ '\r') (he2 : e ≠ '\n') :
    ∀ cx₁ cx₂ : Ctx, cx₂.remaining = crlfOf cx₁.remaining →
      cx₂.errors.length = cx₁.errors.length →
      (parse_exact_char cx₂ e).1 = (parse_exact_char cx₁ e).1 ∧
      (parse_exact_char cx₂ e).2.remaining =
        crlfOf (parse_exact_char cx₁ e).2.remaining ∧
      (parse_exact_char cx₂ e).2.errors.length =
        (parse_exact_char cx₁ e).2.errors.length := by
  rintro ⟨s₁, r₁, e₁⟩ ⟨s₂, r₂, e₂⟩ hrem hlen
  obtain rfl : r₂ = crlfOf r₁ := hrem
  replace hlen : e₂.length = e₁.length := hlen
  rcases crlfOf_head r₁ with ⟨h1, h2⟩ | ⟨r, h1, h2⟩ | ⟨r, h1, h2⟩ |
      ⟨r, h1, h3, h2⟩ | ⟨c, r, h1, hc1, hc2, h2⟩
  · subst h1
    rw [crlfOf_nil, parse_exact_char_nil, parse_exact_char_nil]
    exact ⟨rfl, rfl, hlen⟩
  · subst h1
    rw [h2, parse_exact_char_cons, parse_exact_char_cons]
    simp only [if_neg (fun h => he2 (Eq.symm h)),
      if_neg (fun h => he1 (Eq.symm h))]
    exact ⟨by trivial, h2.symm, hlen⟩
  · subst h1
    rw [h2, parse_exact_char_cons, parse_exact_char_cons]
    simp only [if_neg (fun h => he1 (Eq.symm h))]
    exact ⟨by trivial, h2.symm, hlen⟩
  · subst h1
    rw [h2, parse_exact_char_cons, parse_exact_char_cons]
    simp only [if_neg (fun h => he1 (Eq.symm h))]
    exact ⟨by trivial, h2.symm, hlen⟩
  · subst h1
    rw [h2, parse_exact_char_cons, parse_exact_char_cons]
    by_cases hce : c = e
    · simp only [if_pos hce]
      exact ⟨by trivial, by trivial, hlen⟩
    · simp only [if_neg hce]
      exact ⟨by trivial, h2.symm, hlen⟩

theorem parse_ws_sim : SimStep parse_ws := by
  rintro ⟨s₁, r₁, e₁⟩ ⟨s₂, r₂, e₂⟩ hrem hlen
  obtain rfl : r₂ = crlfOf r₁ := hrem
  replace hlen : e₂.length = e₁.length := hlen
  have hwr : isFieldWs '\r' = false := by decide
  have hwn : isFieldWs '\n' = false := by decide
  rcases crlfOf_head r₁ with ⟨h1, h2⟩ | ⟨r, h1, h2⟩ | ⟨r, h1, h2⟩ |
      ⟨r, h1, _, h2⟩ | ⟨c, r, h1, hc1, hc2, h2⟩
  · subst h1
    rw [crlfOf_nil, parse_ws_nil, parse_ws_nil]
    exact ⟨rfl, rfl, hlen⟩
  · subst h1
    rw [h2, parse_ws_no s₁ _ _ _ hwn, parse_ws_no s₂ _ _ _ hwr]
    exact ⟨rfl, h2.symm, hlen⟩
  · subst h1
    rw [h2, parse_ws_no s₁ _ _ _ hwr, parse_ws_no s₂ _ _ _ hwr]
    exact ⟨rfl, h2.symm, hlen⟩
  · subst h1
    rw [h2, parse_ws_no s₁ _ _ _ hwr, parse_ws_no s₂ _ _ _ hwr]
    exact ⟨rfl, h2.symm, hlen⟩
  · subst h1
    by_cases hw : isFieldWs c
    · rw [h2, parse_ws_yes s₁ c r e₁ hw, parse_ws_yes s₂ c (crlfOf r) e₂ hw]
      by_cases hsp : c = ' '
      · simp [hsp, hlen]
      · simp [hsp, pushErr, hlen]
    · rw [h2, parse_ws_no s₁ c r e₁ (by simpa using hw),
        parse_ws_no s₂ c (crlfOf r) e₂ (by simpa using hw)]
      exact ⟨rfl, h2.symm, hlen⟩

theorem parse_option_ws_sim : SimStep parse_option_ws := by
  rintro ⟨s₁, r₁, e₁⟩ ⟨s₂, r₂, e₂⟩ hrem hlen
  obtain rfl : r₂ = crlfOf r₁ := hrem
  replace hlen : e₂.length = e₁.length := hlen
  have hwr : isFieldWs '\r' = false := by decide
  have hwn : isFieldWs '\n' = false := by decide
  rcases crlfOf_head r₁ with ⟨h1, h2⟩ | ⟨r, h1, h2⟩ | ⟨r, h1, h2⟩ |
      ⟨r, h1, _, h2⟩ | ⟨c, r, h1, hc1, hc2, h2⟩
  · subst h1
    rw [crlfOf_nil, parse_option_ws_nil, parse_option_ws_nil]
    exact ⟨rfl, rfl, hlen⟩
  · subst h1
    rw [h2, parse_option_ws_no s₁ _ _ _ hwn, parse_option_ws_no s₂ _ _ _ hwr]
    exact ⟨rfl, h2.symm, hlen⟩
  · subst h1
    rw [h2, parse_option_ws_no s₁ _ _ _ hwr, parse_option_ws_no s₂ _ _ _ hwr]
    exact ⟨rfl, h2.symm, hlen⟩
  · subst h1
    rw [h2, parse_option_ws_no s₁ _ _ _ hwr, parse_option_ws_no s₂ _ _ _ hwr]
    exact ⟨rfl, h2.symm, hlen⟩
  · subst h1
    by_cases hw : isFieldWs c
    · rw [h2, parse_option_ws_yes s₁ c r e₁ hw,
        parse_option_ws_yes s₂ c (crlfOf r) e₂ hw]
      by_cases hctl : rustIsControl c
      · simp [hctl, pushErr, hlen]
      · simp [hctl, hlen]
    · rw [h2, parse_option_ws_no s₁ c r e₁ (by simpa using hw),
        parse_option_ws_no s₂ c (crlfOf r) e₂ (by simpa using hw)]
      exact ⟨rfl, h2.symm, hlen⟩

theorem parse_option_atom_sim : SimStep parse_option_atom := by
  rintro ⟨s₁, r₁, e₁⟩ ⟨s₂, r₂, e₂⟩ hrem hlen
  obtain rfl : r₂ = crlfOf r₁ := hrem
  replace hlen : e₂.length = e₁.length := hlen
  have har : atomRejects '\r' := Or.inl rfl
  have han : atomRejects '\n' := Or.inr (Or.inl rfl)
  rcases crlfOf_head r₁ with ⟨h1, h2⟩ | ⟨r, h1, h2⟩ | ⟨r, h1, h2⟩ |
      ⟨r, h1, _, h2⟩ | ⟨c, r, h1, hc1, hc2, h2⟩
  · subst h1
    rw [crlfOf_nil, parse_option_atom_nil, parse_option_atom_nil]
    exact ⟨rfl, rfl, hlen⟩
  · subst h1
    rw [h2, parse_option_atom_no s₁ _ _ _ han, parse_option_atom_no s₂ _ _ _ har]
    exact ⟨rfl, h2.symm, hlen⟩
  · subst h1
    rw [h2, parse_option_atom_no s₁ _ _ _ har, parse_option_atom_no s₂ _ _ _ har]
    exact ⟨rfl, h2.symm, hlen⟩
  · subst h1
    rw [h2, parse_option_atom_no s₁ _ _ _ har, parse_option_atom_no s₂ _ _ _ har]
    exact ⟨rfl, h2.symm, hlen⟩
  · subst h1
    by_cases hrej : atomRejects c
    · rw [h2, parse_option_atom_no s₁ c r e₁ hrej,
        parse_option_atom_no s₂ c (crlfOf r) e₂ hrej]
      exact ⟨rfl, h2.symm, hlen⟩
    · rw [h2, parse_option_atom_yes s₁ c r e₁ hrej,
        parse_option_atom_yes s₂ c (crlfOf r) e₂ hrej]
      by_cases hctl : rustIsControl c
      · simp [hctl, pushErr, hlen]
      · simp [hctl, hlen]

theorem parse_newline_sim : SimStep parse_newline := by
  rintro ⟨s₁, r₁, e₁⟩ ⟨s₂, r₂, e₂⟩ hrem hlen
  obtain rfl : r₂ = crlfOf r₁ := hrem
  replace hlen : e₂.length = e₁.length := hlen
  rcases crlfOf_head r₁ with ⟨h1, h2⟩ | ⟨r, h1, h2⟩ | ⟨r, h1, h2⟩ |
      ⟨r, h1, hhd, h2⟩ | ⟨c, r, h1, hc1, hc2, h2⟩
  · subst h1
    rw [crlfOf_nil, parse_newline_nil, parse_newline_nil]
    exact ⟨rfl, rfl, hlen⟩
  · subst h1
    rw [h2, parse_newline_lf, parse_newline_crlf]
    exact ⟨rfl, rfl, hlen⟩
  · subst h1
    rw [h2, parse_newline_crlf, parse_newline_crlf]
    exact ⟨rfl, rfl, hlen⟩
  · subst h1
    have hhd2 : (crlfOf r).head? ≠ some '\n' := crlfOf_head_ne_lf r
    cases r with
    | nil =>
        rw [crlfOf_cr_nil, parse_newline_cr_nil, parse_newline_cr_nil]
        simp [pushErr, hlen, crlfOf_nil]
    | cons c₂ r₂ =>
        have hc₂ : c₂ ≠ '\n' := by
          intro h
          exact hhd (by rw [h]; rfl)
        rw [h2]
        cases hq : crlfOf (c₂ :: r₂) with
        | nil => exact absurd (crlfOf_eq_nil hq) (by simp)
        | cons d q =>
            have hd : d ≠ '\n' := by
              intro h
              rw [hq, h] at hhd2
              exact hhd2 rfl
            rw [parse_newline_cr s₁ c₂ r₂ e₁ hc₂, parse_newline_cr s₂ d q e₂ hd]
            simp [pushErr, hlen, hq.symm, h2]
  · subst h1
    rw [h2, parse_newline_no s₁ c r e₁ hc1 hc2,
      parse_newline_no s₂ c (crlfOf r) e₂ hc1 hc2]
    exact ⟨rfl, h2.symm, hlen⟩

theorem CtxRel_push {a b : Ctx} (h : CtxRel a b) (x y : ParseError) :
    CtxRel (pushErr a x) (pushErr b y) := by
  obtain ⟨h1, h2⟩ := h
  exact ⟨h1, by simp [pushErr, h2]⟩

theorem parse_character_errs (cx : Ctx) :
    errsExtend cx.errors (parse_character cx).2.errors := by
  obtain ⟨s, r, e⟩ := cx
  match r with
  | [] => rw [parse_character_nil]; exact errsExtend_refl e
  | '\r' :: rest =>
      rw [parse_character_crlf s _ rest e (Or.inl rfl)]
      exact errsExtend_refl e
  | '\n' :: rest =>
      rw [parse_character_crlf s _ rest e (Or.inr rfl)]
      exact errsExtend_refl e
  | c :: rest =>
      by_cases h1 : c = '\r'
      · rw [parse_character_crlf s c rest e (Or.inl h1)]
        exact errsExtend_refl e
      by_cases h2 : c = '\n'
      · rw [parse_character_crlf s c rest e (Or.inr h2)]
        exact errsExtend_refl e
      rw [parse_character_cons s c rest e h1 h2]
      by_cases hc : rustIsControl c
      · simp only [if_pos hc]
        exact errsExtend_push e _
      · simp only [if_neg hc]
        exact errsExtend_refl e

theorem skipWs_sim (f₁ : Nat) :
    ∀ (f₂ : Nat) (cx₁ cx₂ cx₁A cx₂A : Ctx),
      skipWs f₁ cx₁ = some cx₁A → skipWs f₂ cx₂ = some cx₂A →
      CtxRel cx₁ cx₂ → CtxRel cx₁A cx₂A := by
  induction f₁ with
  | zero =>
      intro f₂ cx₁ cx₂ cx₁A cx₂A h₁ h₂ hrel
      exact absurd h₁ (by simp [skipWs])
  | succ f₁ ih =>
      intro f₂ cx₁ cx₂ cx₁A cx₂A h₁ h₂ hrel
      obtain ⟨hr, hl⟩ := hrel
      cases f₂ with
      | zero => exact absurd h₂ (by simp [skipWs])
      | succ f₂ =>
          rw [skipWs] at h₁ h₂
          have hs := parse_ws_sim cx₁ cx₂ hr hl
          rcases hp : parse_ws cx₁ with ⟨o₁, cx₁B⟩
          rcases hq : parse_ws cx₂ with ⟨o₂, cx₂B⟩
          rw [hp, hq] at hs
          rw [hp] at h₁
          rw [hq] at h₂
          obtain ⟨hv, hrem2, hlen2⟩ := hs
          replace hv : o₂ = o₁ := hv
          replace hrem2 : cx₂B.remaining = crlfOf cx₁B.remaining := hrem2
          replace hlen2 : cx₂B.errors.length = cx₁B.errors.length := hlen2
          subst hv
          cases o₂ with
          | some u =>
              exact ih f₂ cx₁B cx₂B cx₁A cx₂A h₁ h₂ ⟨hrem2, hlen2⟩
          | none =>
              cases h₁
              cases h₂
              exact ⟨hrem2, hlen2⟩

theorem charSkip_sim (f₁ : Nat) :
    ∀ (f₂ : Nat) (cx₁ cx₂ cx₁A cx₂A : Ctx),
      charSkip f₁ cx₁ = some cx₁A → charSkip f₂ cx₂ = some cx₂A →
      CtxRel cx₁ cx₂ → CtxRel cx₁A cx₂A := by
  induction f₁ with
  | zero =>
      intro f₂ cx₁ cx₂ cx₁A cx₂A h₁ h₂ hrel
      exact absurd h₁ (by simp [charSkip])
  | succ f₁ ih =>
      intro f₂ cx₁ cx₂ cx₁A cx₂A h₁ h₂ hrel
      obtain ⟨hr, hl⟩ := hrel
      cases f₂ with
      | zero => exact absurd h₂ (by simp [charSkip])
      | succ f₂ =>
          rw [charSkip] at h₁ h₂
          have hs := parse_character_sim cx₁ cx₂ hr hl
          rcases hp : parse_character cx₁ with ⟨o₁, cx₁B⟩
          rcases hq : parse_character cx₂ with ⟨o₂, cx₂B⟩
          rw [hp, hq] at hs
          rw [hp] at h₁
          rw [hq] at h₂
          obtain ⟨hv, hrem2, hlen2⟩ := hs
          replace hv : o₂ = o₁ := hv
          replace hrem2 : cx₂B.remaining = crlfOf cx₁B.remaining := hrem2
          replace hlen2 : cx₂B.errors.length = cx₁B.errors.length := hlen2
          subst hv
          cases o₂ with
          | some u =>
              exact ih f₂ cx₁B cx₂B cx₁A cx₂A h₁ h₂ ⟨hrem2, hlen2⟩
          | none =>
              cases h₁
              cases h₂
              exact ⟨hrem2, hlen2⟩

theorem titleChars_sim (f₁ : Nat) :
    ∀ (f₂ : Nat) (cx₁ cx₂ : Ctx) (acc : Str) (v₁ v₂ : Str) (cx₁A cx₂A : Ctx),
      titleChars f₁ cx₁ acc = some (v₁, cx₁A) →
      titleChars f₂ cx₂ acc = some (v₂, cx₂A) →
      CtxRel cx₁ cx₂ → v₂ = v₁ ∧ CtxRel cx₁A cx₂A := by
  induction f₁ with
  | zero =>
      intro f₂ cx₁ cx₂ acc v₁ v₂ cx₁A cx₂A h₁ h₂ hrel
      exact absurd h₁ (by simp [titleChars])
  | succ f₁ ih =>
      intro f₂ cx₁ cx₂ acc v₁ v₂ cx₁A cx₂A h₁ h₂ hrel
      obtain ⟨hr, hl⟩ := hrel
      cases f₂ with
      | zero => exact absurd h₂ (by simp [titleChars])
      | succ f₂ =>
          rw [titleChars] at h₁ h₂
          have hs := parse_character_sim cx₁ cx₂ hr hl
          have he₁ := parse_character_errs cx₁
          have he₂ := parse_character_errs cx₂
          rcases hp : parse_character cx₁ with ⟨o₁, cx₁B⟩
          rcases hq : parse_character cx₂ with ⟨o₂, cx₂B⟩
          rw [hp, hq] at hs
          rw [hp] at h₁ he₁
          rw [hq] at h₂ he₂
          obtain ⟨hv, hrem2, hlen2⟩ := hs
          replace hv : o₂ = o₁ := hv
          replace hrem2 : cx₂B.remaining = crlfOf cx₁B.remaining := hrem2
          replace hlen2 : cx₂B.errors.length = cx₁B.errors.length := hlen2
          replace he₁ : errsExtend cx₁.errors cx₁B.errors := he₁
          replace he₂ : errsExtend cx₂.errors cx₂B.errors := he₂
          subst hv
          cases o₂ with
          | some c =>
              by_cases hhash : c = '#'
              · subst hhash
                simp only [tryParse, tryRollback, ne_eq, not_true_eq_false,
                  if_false, ite_false] at h₁ h₂
                cases h₁
                cases h₂
                refine ⟨rfl, hr, ?_⟩
                show (cx₂B.errors.take cx₂.errors.length).length =
                  (cx₁B.errors.take cx₁.errors.length).length
                rw [errsExtend_take he₁, errsExtend_take he₂, hl]
              · simp only [tryParse, if_pos (show c ≠ '#' from hhash)] at h₁ h₂
                exact (ih f₂ cx₁B cx₂B (acc ++ [c]) v₁ v₂ cx₁A cx₂A h₁ h₂
                  ⟨hrem2, hlen2⟩)
          | none =>
              simp only [tryParse, tryRollback] at h₁ h₂
              cases h₁
              cases h₂
              refine ⟨rfl, hr, ?_⟩
              show (cx₂B.errors.take cx₂.errors.length).length =
                (cx₁B.errors.take cx₁.errors.length).length
              rw [errsExtend_take he₁, errsExtend_take he₂, hl]

theorem parse_comment_sim (f₁ f₂ : Nat) (cx₁ cx₂ cx₁A cx₂A : Ctx)
    (h₁ : parse_comment f₁ cx₁ = some cx₁A)
    (h₂ : parse_comment f₂ cx₂ = some cx₂A)
    (hrel : CtxRel cx₁ cx₂) : CtxRel cx₁A cx₂A := by
  obtain ⟨hr, hl⟩ := hrel
  rw [parse_comment] at h₁ h₂
  have hs := parse_exact_char_sim '#' (by decide) (by decide) cx₁ cx₂ hr hl
  rcases hp : parse_exact_char cx₁ '#' with ⟨o₁, cx₁B⟩
  rcases hq : parse_exact_char cx₂ '#' with ⟨o₂, cx₂B⟩
  rw [hp, hq] at hs
  rw [hp] at h₁
  rw [hq] at h₂
  obtain ⟨hv, hrem2, hlen2⟩ := hs
  replace hv : o₂ = o₁ := hv
  replace hrem2 : cx₂B.remaining = crlfOf cx₁B.remaining := hrem2
  replace hlen2 : cx₂B.errors.length = cx₁B.errors.length := hlen2
  subst hv
  cases o₂ with
  | some u => exact charSkip_sim f₁ f₂ cx₁B cx₂B cx₁A cx₂A h₁ h₂ ⟨hrem2, hlen2⟩
  | none =>
      cases h₁
      cases h₂
      exact ⟨hrem2, hlen2⟩

theorem parse_blank_line_sim (f₁ f₂ : Nat) (cx₁ cx₂ cx₁A cx₂A : Ctx)
    (h₁ : parse_blank_line f₁ cx₁ = some cx₁A)
    (h₂ : parse_blank_line f₂ cx₂ = some cx₂A)
    (hrel : CtxRel cx₁ cx₂) : CtxRel cx₁A cx₂A := by
  rw [parse_blank_line] at h₁ h₂
  rcases hp : skipWs f₁ cx₁ with _ | cx₁B
  · rw [hp] at h₁; cases h₁
  rcases hq : skipWs f₂ cx₂ with _ | cx₂B
  · rw [hq] at h₂; cases h₂
  rw [hp] at h₁
  rw [hq] at h₂
  have hmid := skipWs_sim f₁ f₂ cx₁ cx₂ cx₁B cx₂B hp hq hrel
  exact parse_comment_sim f₁ f₂ cx₁B cx₂B cx₁A cx₂A h₁ h₂ hmid

theorem parse_title_sim (f₁ f₂ : Nat) (cx₁ cx₂ : Ctx) (t₁ t₂ : Str)
    (cx₁A cx₂A : Ctx)
    (h₁ : parse_title f₁ cx₁ = some (t₁, cx₁A))
    (h₂ : parse_title f₂ cx₂ = some (t₂, cx₂A))
    (hrel : CtxRel cx₁ cx₂) : t₂ = t₁ ∧ CtxRel cx₁A cx₂A := by
  rw [parse_title] at h₁ h₂
  rcases hp : titleChars f₁ cx₁ [] with _ | ⟨v₁, cx₁B⟩
  · rw [hp] at h₁; cases h₁
  rcases hq : titleChars f₂ cx₂ [] with _ | ⟨v₂, cx₂B⟩
  · rw [hq] at h₂; cases h₂
  rw [hp] at h₁
  rw [hq] at h₂
  obtain ⟨hveq, hmid⟩ :=
    titleChars_sim f₁ f₂ cx₁ cx₂ [] v₁ v₂ cx₁B cx₂B hp hq hrel
  subst hveq
  simp only [Option.some_bind] at h₁ h₂
  by_cases ht : strTrim v₂ = []
  · rw [if_pos ht] at h₁ h₂
    rcases hc : parse_comment f₁ (pushErr cx₁B _) with _ | cx₁C
    · rw [hc] at h₁; cases h₁
    rcases hd : parse_comment f₂ (pushErr cx₂B _) with _ | cx₂C
    · rw [hd] at h₂; cases h₂
    rw [hc] at h₁
    rw [hd] at h₂
    have hend := parse_comment_sim f₁ f₂ _ _ cx₁C cx₂C hc hd
      (CtxRel_push hmid _ _)
    cases h₁
    cases h₂
    exact ⟨rfl, hend⟩
  · rw [if_neg ht] at h₁ h₂
    rcases hc : parse_comment f₁ cx₁B with _ | cx₁C
    · rw [hc] at h₁; cases h₁
    rcases hd : parse_comment f₂ cx₂B with _ | cx₂C
    · rw [hd] at h₂; cases h₂
    rw [hc] at h₁
    rw [hd] at h₂
    have hend := parse_comment_sim f₁ f₂ _ _ cx₁C cx₂C hc hd hmid
    cases h₁
    cases h₂
    exact ⟨rfl, hend⟩

theorem dashRun_sim (f₁ : Nat) :
    ∀ (f₂ : Nat) (cx₁ cx₂ : Ctx) (v v₁ v₂ : Str) (cx₁A cx₂A : Ctx),
      dashRun f₁ cx₁ v = some (v₁, cx₁A) →
      dashRun f₂ cx₂ v = some (v₂, cx₂A) →
      CtxRel cx₁ cx₂ → v₂ = v₁ ∧ CtxRel cx₁A cx₂A := by
  induction f₁ with
  | zero =>
      intro f₂ cx₁ cx₂ v v₁ v₂ cx₁A cx₂A h₁ h₂ hrel
      exact absurd h₁ (by simp [dashRun])
  | succ f₁ ih =>
      intro f₂ cx₁ cx₂ v v₁ v₂ cx₁A cx₂A h₁ h₂ hrel
      obtain ⟨hr, hl⟩ := hrel
      cases f₂ with
      | zero => exact absurd h₂ (by simp [dashRun])
      | succ f₂ =>
          rw [dashRun] at h₁ h₂
          have hs := parse_exact_char_sim '-' (by decide) (by decide) cx₁ cx₂ hr hl
          rcases hp : parse_exact_char cx₁ '-' with ⟨o₁, cx₁B⟩
          rcases hq : parse_exact_char cx₂ '-' with ⟨o₂, cx₂B⟩
          rw [hp, hq] at hs
          rw [hp] at h₁
          rw [hq] at h₂
          obtain ⟨hv, hrem2, hlen2⟩ := hs
          replace hv : o₂ = o₁ := hv
          replace hrem2 : cx₂B.remaining = crlfOf cx₁B.remaining := hrem2
          replace hlen2 : cx₂B.errors.length = cx₁B.errors.length := hlen2
          subst hv
          cases o₂ with
          | some u =>
              exact ih f₂ cx₁B cx₂B (v ++ ['-']) v₁ v₂ cx₁A cx₂A h₁ h₂
                ⟨hrem2, hlen2⟩
          | none =>
              cases h₁
              cases h₂
              exact ⟨rfl, hrem2, hlen2⟩

theorem wsRun_sim (f₁ : Nat) :
    ∀ (f₂ : Nat) (cx₁ cx₂ : Ctx) (v v₁ v₂ : Str) (cx₁A cx₂A : Ctx),
      wsRun f₁ cx₁ v = some (v₁, cx₁A) →
      wsRun f₂ cx₂ v = some (v₂, cx₂A) →
      CtxRel cx₁ cx₂ → v₂ = v₁ ∧ CtxRel cx₁A cx₂A := by
  induction f₁ with
  | zero =>
      intro f₂ cx₁ cx₂ v v₁ v₂ cx₁A cx₂A h₁ h₂ hrel
      exact absurd h₁ (by simp [wsRun])
  | succ f₁ ih =>
      intro f₂ cx₁ cx₂ v v₁ v₂ cx₁A cx₂A h₁ h₂ hrel
      obtain ⟨hr, hl⟩ := hrel
      cases f₂ with
      | zero => exact absurd h₂ (by simp [wsRun])
      | succ f₂ =>
          rw [wsRun] at h₁ h₂
          have hs := parse_option_ws_sim cx₁ cx₂ hr hl
          rcases hp : parse_option_ws cx₁ with ⟨o₁, cx₁B⟩
          rcases hq : parse_option_ws cx₂ with ⟨o₂, cx₂B⟩
          rw [hp, hq] at hs
          rw [hp] at h₁
          rw [hq] at h₂
          obtain ⟨hv, hrem2, hlen2⟩ := hs
          replace hv : o₂ = o₁ := hv
          replace hrem2 : cx₂B.remaining = crlfOf cx₁B.remaining := hrem2
          replace hlen2 : cx₂B.errors.length = cx₁B.errors.length := hlen2
          subst hv
          cases o₂ with
          | some c =>
              exact ih f₂ cx₁B cx₂B (v ++ [c]) v₁ v₂ cx₁A cx₂A h₁ h₂
                ⟨hrem2, hlen2⟩
          | none =>
              cases h₁
              cases h₂
              exact ⟨rfl, hrem2, hlen2⟩

theorem quotedLoop_nil (n : Nat) (s : Str) (e : List ParseError)
    (acc : Str) (ss : Nat) :
    quotedLoop (n + 1) ⟨s, [], e⟩ acc ss =
      some (acc, pushErr ⟨s, [], e⟩
        (.UnclosedQuote (ss, Ctx.offset ⟨s, ([] : Str), e⟩))) := by
  simp [quotedLoop, parse_character_nil]

theorem quotedLoop_crlf (n : Nat) (s : Str) (c : Char) (r : Str)
    (e : List ParseError) (acc : Str) (ss : Nat) (h : c = '\r' ∨ c = '\n') :
    quotedLoop (n + 1) ⟨s, c :: r, e⟩ acc ss =
      some (acc, pushErr ⟨s, c :: r, e⟩
        (.UnclosedQuote (ss, Ctx.offset ⟨s, c :: r, e⟩))) := by
  have heq := parse_character_crlf s c r e h
  simp [quotedLoop, heq]

theorem quotedLoop_quote (n : Nat) (s : Str) (r : Str) (e : List ParseError)
    (acc : Str) (ss : Nat) :
    quotedLoop (n + 1) ⟨s, '"' :: r, e⟩ acc ss = some (acc, ⟨s, r, e⟩) := by
  have heq := parse_character_cons s '"' r e (by decide) (by decide)
  rw [show rustIsControl '"' = false from by decide] at heq
  simp only [Bool.false_eq_true, if_false] at heq
  simp [quotedLoop, heq]

theorem quotedLoop_esc_nil (n : Nat) (s : Str) (e : List ParseError)
    (acc : Str) (ss : Nat) :
    quotedLoop (n + 1) ⟨s, ['\\'], e⟩ acc ss =
      quotedLoop n ⟨s, [], e⟩ acc ss := by
  have heq := parse_character_cons s '\\' [] e (by decide) (by decide)
  rw [show rustIsControl '\\' = false from by decide] at heq
  simp only [Bool.false_eq_true, if_false] at heq
  simp [quotedLoop, heq, parse_any]

theorem quotedLoop_esc_known (n : Nat) (s : Str) (c₂ : Char) (r : Str)
    (e : List ParseError) (acc : Str) (ss : Nat)
    (h : c₂ = '"' ∨ c₂ = '\\') :
    quotedLoop (n + 1) ⟨s, '\\' :: c₂ :: r, e⟩ acc ss =
      quotedLoop n ⟨s, r, e⟩ (acc ++ [c₂]) ss := by
  have heq := parse_character_cons s '\\' (c₂ :: r) e (by decide) (by decide)
  rw [show rustIsControl '\\' = false from by decide] at heq
  simp only [Bool.false_eq_true, if_false] at heq
  simp [quotedLoop, heq, parse_any, h]

theorem quotedLoop_esc_unknown (n : Nat) (s : Str) (c₂ : Char) (r : Str)
    (e : List ParseError) (acc : Str) (ss : Nat)
    (h : ¬(c₂ = '"' ∨ c₂ = '\\')) :
    quotedLoop (n + 1) ⟨s, '\\' :: c₂ :: r, e⟩ acc ss =
      quotedLoop n (pushErr ⟨s, r, e⟩
        (.UnknownEscape c₂
          (Ctx.offset ⟨s, c₂ :: r, e⟩, Ctx.offset ⟨s, r, e⟩))) acc ss := by
  have heq := parse_character_cons s '\\' (c₂ :: r) e (by decide) (by decide)
  rw [show rustIsControl '\\' = false from by decide] at heq
  simp only [Bool.false_eq_true, if_false] at heq
  simp [quotedLoop, heq, parse_any, h]

theorem quotedLoop_char_ctl (n : Nat) (s : Str) (c : Char) (r : Str)
    (e : List ParseError) (acc : Str) (ss : Nat)
    (h1 : c ≠ '\r') (h2 : c ≠ '\n') (h3 : c ≠ '\\') (h4 : c ≠ '"')
    (hc : rustIsControl c = true) :
    quotedLoop (n + 1) ⟨s, c :: r, e⟩ acc ss =
      quotedLoop n (pushErr ⟨s, r, e⟩
        (.UnexpectedControlChar c
          (Ctx.offset ⟨s, r, e⟩ - c.utf8Size, Ctx.offset ⟨s, r, e⟩)))
        (acc ++ [c]) ss := by
  have heq := parse_character_cons s c r e h1 h2
  rw [hc] at heq
  simp only [if_true] at heq
  simp [quotedLoop, heq, h3, h4]

theorem quotedLoop_char_plain (n : Nat) (s : Str) (c : Char) (r : Str)
    (e : List ParseError) (acc : Str) (ss : Nat)
    (h1 : c ≠ '\r') (h2 : c ≠ '\n') (h3 : c ≠ '\\') (h4 : c ≠ '"')
    (hc : rustIsControl c = false) :
    quotedLoop (n + 1) ⟨s, c :: r, e⟩ acc ss =
      quotedLoop n ⟨s, r, e⟩ (acc ++ [c]) ss := by
  have heq := parse_character_cons s c r e h1 h2
  rw [hc] at heq
  simp only [Bool.false_eq_true, if_false] at heq
  simp [quotedLoop, heq, h3, h4]

theorem quotedLoop_sim (f₁ : Nat) :
    ∀ (f₂ : Nat) (s₁ s₂ : Str) (r₁ : Str) (e₁ e₂ : List ParseError)
      (acc : Str) (ss₁ ss₂ : Nat) (v₁ v₂ : Str) (cx₁A cx₂A : Ctx),
      r₁.length < f₁ →
      quotedLoop f₁ ⟨s₁, r₁, e₁⟩ acc ss₁ = some (v₁, cx₁A) →
      quotedLoop f₂ ⟨s₂, crlfOf r₁, e₂⟩ acc ss₂ = some (v₂, cx₂A) →
      e₂.length = e₁.length →
      (v₂ = v₁ ∧ CtxRel cx₁A cx₂A) ∨ cx₁A.errors ≠ [] := by
  induction f₁ with
  | zero =>
      intro f₂ s₁ s₂ r₁ e₁ e₂ acc ss₁ ss₂ v₁ v₂ cx₁A cx₂A hb h₁ h₂ hlen
      omega
  | succ n ih =>
      intro f₂ s₁ s₂ r₁ e₁ e₂ acc ss₁ ss₂ v₁ v₂ cx₁A cx₂A hb h₁ h₂ hlen
      cases f₂ with
      | zero => exact absurd h₂ (by simp [quotedLoop])
      | succ g =>
      rcases crlfOf_head r₁ with ⟨ha1, ha2⟩ | ⟨r, ha1, ha2⟩ | ⟨r, ha1, ha2⟩ |
          ⟨r, ha1, hhd, ha2⟩ | ⟨c, r, ha1, hc1, hc2, ha2⟩
      · subst ha1
        rw [crlfOf_nil] at h₂
        rw [quotedLoop_nil] at h₁ h₂
        cases h₁
        cases h₂
        refine Or.inl ⟨rfl, by simp [pushErr, crlfOf_nil], ?_⟩
        simp [pushErr, hlen]
      · subst ha1
        rw [ha2] at h₂
        rw [quotedLoop_crlf n s₁ '\n' r e₁ acc ss₁ (Or.inr rfl)] at h₁
        rw [quotedLoop_crlf g s₂ '\r' ('\n' :: crlfOf r) e₂ acc ss₂
          (Or.inl rfl)] at h₂
        cases h₁
        cases h₂
        refine Or.inl ⟨rfl, by simp [pushErr, ha2.symm], ?_⟩
        simp [pushErr, hlen]
      · subst ha1
        rw [ha2] at h₂
        rw [quotedLoop_crlf n s₁ '\r' ('\n' :: r) e₁ acc ss₁ (Or.inl rfl)] at h₁
        rw [quotedLoop_crlf g s₂ '\r' ('\n' :: crlfOf r) e₂ acc ss₂
          (Or.inl rfl)] at h₂
        cases h₁
        cases h₂
        refine Or.inl ⟨rfl, by simp [pushErr, ha2.symm], ?_⟩
        simp [pushErr, hlen]
      · subst ha1
        rw [ha2] at h₂
        rw [quotedLoop_crlf n s₁ '\r' r e₁ acc ss₁ (Or.inl rfl)] at h₁
        rw [quotedLoop_crlf g s₂ '\r' (crlfOf r) e₂ acc ss₂ (Or.inl rfl)] at h₂
        cases h₁
        cases h₂
        refine Or.inl ⟨rfl, by simp [pushErr, ha2.symm], ?_⟩
        simp [pushErr, hlen]
      · subst ha1
        rw [ha2] at h₂
        by_cases hbs : c = '\\'
        · subst hbs
          rcases crlfOf_head r with ⟨hb1, hb2⟩ | ⟨r', hb1, hb2⟩ |
              ⟨r', hb1, hb2⟩ | ⟨r', hb1, hhd2, hb2⟩ | ⟨c₂, r', hb1, hd1, hd2, hb2⟩
          · subst hb1
            rw [crlfOf_nil] at h₂
            rw [quotedLoop_esc_nil] at h₁ h₂
            have hrec := ih g s₁ s₂ [] e₁ e₂ acc ss₁ ss₂ v₁ v₂ cx₁A cx₂A
              (by simp at hb ⊢; omega) h₁ (by rw [crlfOf_nil]; exact h₂) hlen
            exact hrec
          · subst hb1
            rw [quotedLoop_esc_unknown n s₁ '\n' r' e₁ acc ss₁
              (by decide)] at h₁
            obtain ⟨v, cx', g1, g2, g3, g4⟩ :=
              quotedLoop_spec n (pushErr ⟨s₁, r', e₁⟩
                (.UnknownEscape '\n'
                  (Ctx.offset ⟨s₁, '\n' :: r', e₁⟩, Ctx.offset ⟨s₁, r', e₁⟩)))
                acc ss₁ (by simp [pushErr] at hb ⊢; omega)
            rw [g1] at h₁
            cases h₁
            right
            obtain ⟨t, ht⟩ := g4
            rw [ht]
            simp [pushErr]
          · subst hb1
            rw [quotedLoop_esc_unknown n s₁ '\r' ('\n' :: r') e₁ acc ss₁
              (by decide)] at h₁
            obtain ⟨v, cx', g1, g2, g3, g4⟩ :=
              quotedLoop_spec n (pushErr ⟨s₁, '\n' :: r', e₁⟩
                (.UnknownEscape '\r'
                  (Ctx.offset ⟨s₁, '\r' :: '\n' :: r', e₁⟩,
                   Ctx.offset ⟨s₁, '\n' :: r', e₁⟩)))
                acc ss₁ (by simp [pushErr] at hb ⊢; omega)
            rw [g1] at h₁
            cases h₁
            right
            obtain ⟨t, ht⟩ := g4
            rw [ht]
            simp [pushErr]
          · subst hb1
            rw [hb2] at h₂
            rw [quotedLoop_esc_unknown n s₁ '\r' r' e₁ acc ss₁ (by decide)] at h₁
            rw [quotedLoop_esc_unknown g s₂ '\r' (crlfOf r') e₂ acc ss₂
              (by decide)] at h₂
            have hrec := ih g s₁ s₂ r' (e₁ ++ [_]) (e₂ ++ [_]) acc ss₁ ss₂
              v₁ v₂ cx₁A cx₂A (by simp at hb ⊢; omega) h₁ h₂ (by simp [hlen])
            exact hrec
          · subst hb1
            rw [hb2] at h₂
            by_cases hk : c₂ = '"' ∨ c₂ = '\\'
            · rw [quotedLoop_esc_known n s₁ c₂ r' e₁ acc ss₁ hk] at h₁
              rw [quotedLoop_esc_known g s₂ c₂ (crlfOf r') e₂ acc ss₂ hk] at h₂
              exact ih g s₁ s₂ r' e₁ e₂ (acc ++ [c₂]) ss₁ ss₂ v₁ v₂ cx₁A cx₂A
                (by simp at hb ⊢; omega) h₁ h₂ hlen
            · rw [quotedLoop_esc_unknown n s₁ c₂ r' e₁ acc ss₁ hk] at h₁
              rw [quotedLoop_esc_unknown g s₂ c₂ (crlfOf r') e₂ acc ss₂ hk] at h₂
              exact ih g s₁ s₂ r' (e₁ ++ [_]) (e₂ ++ [_]) acc ss₁ ss₂
                v₁ v₂ cx₁A cx₂A (by simp at hb ⊢; omega) h₁ h₂ (by simp [hlen])
        by_cases hq : c = '"'
        · subst hq
          rw [quotedLoop_quote] at h₁ h₂
          cases h₁
          cases h₂
          exact Or.inl ⟨rfl, rfl, hlen⟩
        by_cases hctl : rustIsControl c
        · rw [quotedLoop_char_ctl n s₁ c r e₁ acc ss₁ hc1 hc2 hbs hq hctl] at h₁
          rw [quotedLoop_char_ctl g s₂ c (crlfOf r) e₂ acc ss₂ hc1 hc2 hbs hq
            hctl] at h₂
          exact ih g s₁ s₂ r (e₁ ++ [_]) (e₂ ++ [_]) (acc ++ [c]) ss₁ ss₂
            v₁ v₂ cx₁A cx₂A (by simp at hb ⊢; omega) h₁ h₂ (by simp [hlen])
        · simp only [Bool.not_eq_true] at hctl
          rw [quotedLoop_char_plain n s₁ c r e₁ acc ss₁ hc1 hc2 hbs hq hctl] at h₁
          rw [quotedLoop_char_plain g s₂ c (crlfOf r) e₂ acc ss₂ hc1 hc2 hbs hq
            hctl] at h₂
          exact ih g s₁ s₂ r e₁ e₂ (acc ++ [c]) ss₁ ss₂ v₁ v₂ cx₁A cx₂A
            (by simp at hb ⊢; omega) h₁ h₂ hlen

theorem parse_option_atom_fail (cx : Ctx)
    (h : (parse_option_atom cx).1 = none) : (parse_option_atom cx).2 = cx := by
  obtain ⟨s, r, e⟩ := cx
  match r with
  | [] => rw [parse_option_atom_nil]
  | c :: rest =>
      by_cases hrej : atomRejects c
      · rw [parse_option_atom_no s c rest e hrej]
      · rw [parse_option_atom_yes s c rest e hrej] at h
        simp at h

theorem parse_option_atom_succ_len (cx : Ctx) {c : Char}
    (h : (parse_option_atom cx).1 = some c) :
    (parse_option_atom cx).2.remaining.length < cx.remaining.length := by
  obtain ⟨s, r, e⟩ := cx
  match r with
  | [] => rw [parse_option_atom_nil] at h; simp at h
  | c₀ :: rest =>
      by_cases hrej : atomRejects c₀
      · rw [parse_option_atom_no s c₀ rest e hrej] at h
        simp at h
      · rw [parse_option_atom_yes s c₀ rest e hrej]
        by_cases hc : rustIsControl c₀ <;> simp [hc, pushErr]

theorem parse_quoted_sim (f₁ f₂ : Nat) (cx₁ cx₂ : Ctx) (o₁ o₂ : Option Str)
    (cx₁A cx₂A : Ctx)
    (hb₁ : cx₁.remaining.length < f₁) (hb₂ : cx₂.remaining.length < f₂)
    (h₁ : parse_quoted f₁ cx₁ = some (o₁, cx₁A))
    (h₂ : parse_quoted f₂ cx₂ = some (o₂, cx₂A))
    (hrel : CtxRel cx₁ cx₂) :
    (o₁ = none ∧ o₂ = none ∧ cx₁A = cx₁ ∧ cx₂A = cx₂) ∨
    (∃ v, o₁ = some v ∧ o₂ = some v ∧ CtxRel cx₁A cx₂A ∧
      cx₁A.remaining.length < cx₁.remaining.length ∧
      cx₂A.remaining.length < cx₂.remaining.length) ∨
    (∃ v, o₁ = some v ∧ cx₁A.errors ≠ [] ∧
      cx₁A.remaining.length < cx₁.remaining.length) := by
  obtain ⟨hr, hl⟩ := hrel
  obtain ⟨s₁, r₁, e₁⟩ := cx₁
  obtain ⟨s₂, r₂, e₂⟩ := cx₂
  obtain rfl : r₂ = crlfOf r₁ := hr
  replace hl : e₂.length = e₁.length := hl
  replace hb₁ : r₁.length < f₁ := hb₁
  replace hb₂ : (crlfOf r₁).length < f₂ := hb₂
  by_cases hq : ∃ r, r₁ = '"' :: r
  · obtain ⟨r, rfl⟩ := hq
    have hc2 : crlfOf ('"' :: r) = '"' :: crlfOf r :=
      crlfOf_other '"' r (by decide) (by decide)
    cases f₁ with
    | zero => omega
    | succ n =>
    cases f₂ with
    | zero => omega
    | succ g =>
    rw [hc2] at h₂ hb₂
    have heq₁ := parse_exact_char_cons s₁ '"' r e₁ '"'
    rw [if_pos rfl] at heq₁
    have heq₂ := parse_exact_char_cons s₂ '"' (crlfOf r) e₂ '"'
    rw [if_pos rfl] at heq₂
    obtain ⟨w₁, cx₁B, g1, g2, g3, g4⟩ :=
      quotedLoop_spec (n + 1) ⟨s₁, r, e₁⟩ []
        (Ctx.offset ⟨s₁, '"' :: r, e₁⟩) (by simp at hb₁ ⊢; omega)
    obtain ⟨w₂, cx₂B, k1, k2, k3, k4⟩ :=
      quotedLoop_spec (g + 1) ⟨s₂, crlfOf r, e₂⟩ []
        (Ctx.offset ⟨s₂, '"' :: crlfOf r, e₂⟩) (by simp at hb₂ ⊢; omega)
    have hh₁ : parse_quoted (n + 1) ⟨s₁, '"' :: r, e₁⟩ =
        some (some w₁, cx₁B) := by
      simp [parse_quoted, heq₁, g1]
    have hh₂ : parse_quoted (g + 1) ⟨s₂, '"' :: crlfOf r, e₂⟩ =
        some (some w₂, cx₂B) := by
      simp [parse_quoted, heq₂, k1]
    rw [hh₁] at h₁
    rw [hh₂] at h₂
    cases h₁
    cases h₂
    rcases quotedLoop_sim (n + 1) (g + 1) s₁ s₂ r e₁ e₂ []
        (Ctx.offset ⟨s₁, '"' :: r, e₁⟩) (Ctx.offset ⟨s₂, '"' :: crlfOf r, e₂⟩)
        w₁ w₂ cx₁A cx₂A (by simp only [List.length_cons] at hb₁; omega)
        g1 k1 hl with
      ⟨hveq, hrelB⟩ | hbad
    · refine Or.inr (Or.inl ⟨w₁, rfl, by rw [hveq], hrelB, ?_, ?_⟩)
      · simp only [Ctx.remaining]
        simp at g3 ⊢
        omega
      · simp only [Ctx.remaining]
        rw [hc2]
        simp at k3 ⊢
        omega
    · exact Or.inr (Or.inr ⟨w₁, rfl, hbad, by
        simp only [Ctx.remaining]
        simp at g3 ⊢
        omega⟩)
  · have hno₁ : ∀ rest, (⟨s₁, r₁, e₁⟩ : Ctx).remaining ≠ '"' :: rest := by
      intro rest hcon
      exact hq ⟨rest, hcon⟩
    have hno₂ : ∀ rest, (⟨s₂, crlfOf r₁, e₂⟩ : Ctx).remaining ≠ '"' :: rest := by
      intro rest hcon
      have : (crlfOf r₁).head? = some '"' := by
        show (⟨s₂, crlfOf r₁, e₂⟩ : Ctx).remaining.head? = some '"'
        rw [hcon]
        rfl
      rw [crlfOf_head_eq (by decide) (by decide)] at this
      cases r₁ with
      | nil => exact Option.noConfusion this
      | cons c t =>
          simp only [List.head?, Option.some.injEq] at this
          exact hq ⟨t, by rw [this]⟩
    rw [parse_quoted_no f₁ _ hno₁] at h₁
    rw [parse_quoted_no f₂ _ hno₂] at h₂
    cases h₁
    cases h₂
    exact Or.inl ⟨rfl, rfl, rfl, rfl⟩

theorem optStep_eq (f : Nat) (cx : Ctx) (v w : Str) (cxB : Ctx)
    (hrun : (if cx.remaining.head? = some '-' then dashRun f cx v
             else wsRun f cx v) = some (w, cxB)) :
    optStep f cx v = some (match parse_option_atom cxB with
      | (some c, cxC) => (some (w ++ [c]), cxC)
      | (none, cxC) => (none, cxC)) := by
  rw [optStep, hrun]
  rfl

theorem optStep_sim (f₁ f₂ : Nat) (cx₁ cx₂ : Ctx) (v : Str)
    (o₁ o₂ : Option Str) (cx₁A cx₂A : Ctx)
    (h₁ : optStep f₁ cx₁ v = some (o₁, cx₁A))
    (h₂ : optStep f₂ cx₂ v = some (o₂, cx₂A))
    (hrel : CtxRel cx₁ cx₂) :
    o₂ = o₁ ∧ CtxRel cx₁A cx₂A := by
  obtain ⟨hr, hl⟩ := hrel
  have hdiff : cx₂.remaining.head? = some '-' ↔
      cx₁.remaining.head? = some '-' := by
    rw [hr]
    exact crlfOf_head_eq (by decide) (by decide) _
  have hmain : ∀ (w₁ w₂ : Str) (cx₁B cx₂B : Ctx),
      optStep f₁ cx₁ v = some (o₁, cx₁A) →
      optStep f₂ cx₂ v = some (o₂, cx₂A) →
      (if cx₁.remaining.head? = some '-' then dashRun f₁ cx₁ v
       else wsRun f₁ cx₁ v) = some (w₁, cx₁B) →
      (if cx₂.remaining.head? = some '-' then dashRun f₂ cx₂ v
       else wsRun f₂ cx₂ v) = some (w₂, cx₂B) →
      w₂ = w₁ → CtxRel cx₁B cx₂B →
      o₂ = o₁ ∧ CtxRel cx₁A cx₂A := by
    intro w₁ w₂ cx₁B cx₂B h₁ h₂ hrun₁ hrun₂ hveq hrelB
    subst hveq
    obtain ⟨hbr, hbl⟩ := hrelB
    rw [optStep_eq f₁ cx₁ v _ cx₁B hrun₁] at h₁
    rw [optStep_eq f₂ cx₂ v _ cx₂B hrun₂] at h₂
    have hs := parse_option_atom_sim cx₁B cx₂B hbr hbl
    rcases hat : parse_option_atom cx₁B with ⟨oC₁, cxC₁⟩
    rcases hbt : parse_option_atom cx₂B with ⟨oC₂, cxC₂⟩
    rw [hat, hbt] at hs
    obtain ⟨hveq2, hrem2, hlen2⟩ := hs
    replace hveq2 : oC₂ = oC₁ := hveq2
    replace hrem2 : cxC₂.remaining = crlfOf cxC₁.remaining := hrem2
    replace hlen2 : cxC₂.errors.length = cxC₁.errors.length := hlen2
    subst hveq2
    rw [hat] at h₁
    rw [hbt] at h₂
    cases oC₂ with
    | some c =>
        cases h₁
        cases h₂
        exact ⟨rfl, hrem2, hlen2⟩
    | none =>
        cases h₁
        cases h₂
        exact ⟨rfl, hrem2, hlen2⟩
  by_cases hd₁ : cx₁.remaining.head? = some '-'
  · have hd₂ : cx₂.remaining.head? = some '-' := hdiff.mpr hd₁
    rcases hdr : dashRun f₁ cx₁ v with _ | ⟨w₁, cx₁B⟩
    · exact absurd h₁ (by rw [optStep, if_pos hd₁, hdr]; simp)
    rcases hds : dashRun f₂ cx₂ v with _ | ⟨w₂, cx₂B⟩
    · exact absurd h₂ (by rw [optStep, if_pos hd₂, hds]; simp)
    obtain ⟨hveq, hrelB⟩ :=
      dashRun_sim f₁ f₂ cx₁ cx₂ v w₁ w₂ cx₁B cx₂B hdr hds ⟨hr, hl⟩
    exact hmain w₁ w₂ cx₁B cx₂B h₁ h₂ (by rw [if_pos hd₁]; exact hdr)
      (by rw [if_pos hd₂]; exact hds) hveq hrelB
  · have hd₂ : ¬cx₂.remaining.head? = some '-' := fun h => hd₁ (hdiff.mp h)
    rcases hdr : wsRun f₁ cx₁ v with _ | ⟨w₁, cx₁B⟩
    · exact absurd h₁ (by rw [optStep, if_neg hd₁, hdr]; simp)
    rcases hds : wsRun f₂ cx₂ v with _ | ⟨w₂, cx₂B⟩
    · exact absurd h₂ (by rw [optStep, if_neg hd₂, hds]; simp)
    obtain ⟨hveq, hrelB⟩ :=
      wsRun_sim f₁ f₂ cx₁ cx₂ v w₁ w₂ cx₁B cx₂B hdr hds ⟨hr, hl⟩
    exact hmain w₁ w₂ cx₁B cx₂B h₁ h₂ (by rw [if_neg hd₁]; exact hdr)
      (by rw [if_neg hd₂]; exact hds) hveq hrelB

theorem optLoop_sim (f₁ : Nat) :
    ∀ (f₂ : Nat) (cx₁ cx₂ : Ctx) (v : Str) (tr : Bool)
      (v₁ v₂ : Str) (cx₁A cx₂A : Ctx) (t₁ t₂ : Bool),
      cx₁.remaining.length < f₁ → cx₂.remaining.length < f₂ →
      optLoop f₁ cx₁ v tr = some (v₁, cx₁A, t₁) →
      optLoop f₂ cx₂ v tr = some (v₂, cx₂A, t₂) →
      CtxRel cx₁ cx₂ →
      v₂ = v₁ ∧ t₂ = t₁ ∧ CtxRel cx₁A cx₂A := by
  induction f₁ with
  | zero =>
      intro f₂ cx₁ cx₂ v tr v₁ v₂ cx₁A cx₂A t₁ t₂ hb₁ hb₂ h₁ h₂ hrel
      omega
  | succ n ih =>
      intro f₂ cx₁ cx₂ v tr v₁ v₂ cx₁A cx₂A t₁ t₂ hb₁ hb₂ h₁ h₂ hrel
      cases f₂ with
      | zero => omega
      | succ g =>
      rw [optLoop] at h₁ h₂
      rcases hos₁ : optStep (n + 1) cx₁ v with _ | ⟨oB₁, cx₁B⟩
      · rw [hos₁] at h₁
        simp [tryParseF] at h₁
      rcases hos₂ : optStep (g + 1) cx₂ v with _ | ⟨oB₂, cx₂B⟩
      · rw [hos₂] at h₂
        simp [tryParseF] at h₂
      rw [hos₁] at h₁
      rw [hos₂] at h₂
      obtain ⟨hveq, hrelB⟩ := optStep_sim (n + 1) (g + 1) cx₁ cx₂ v oB₁ oB₂
        cx₁B cx₂B hos₁ hos₂ hrel
      subst hveq
      obtain ⟨rsp₁, e1, e2, e3, hdisj₁⟩ := optStep_spec (n + 1) cx₁ v hb₁
      have hid₁ : some rsp₁ = some (oB₂, cx₁B) := e1.symm.trans hos₁
      cases hid₁
      obtain ⟨rsp₂, k1, k2, k3, hdisj₂⟩ := optStep_spec (g + 1) cx₂ v hb₂
      have hid₂ : some rsp₂ = some (oB₂, cx₂B) := k1.symm.trans hos₂
      cases hid₂
      cases oB₂ with
      | some v' =>
          simp only [tryParseF, tryParse, Option.map] at h₁ h₂
          have hlb₁ : cx₁B.remaining.length < n := by
            rcases hdisj₁ with ⟨v'', hv, hlt⟩ | ⟨hnone, _⟩
            · simp only at hlt
              omega
            · exact absurd hnone (by simp)
          have hlb₂ : cx₂B.remaining.length < g := by
            rcases hdisj₂ with ⟨v'', hv, hlt⟩ | ⟨hnone, _⟩
            · simp only at hlt
              omega
            · exact absurd hnone (by simp)
          exact ih g cx₁B cx₂B v' true v₁ v₂ cx₁A cx₂A t₁ t₂ hlb₁ hlb₂ h₁ h₂
            hrelB
      | none =>
          simp only [tryParseF, tryParse, Option.map] at h₁ h₂
          cases h₁
          cases h₂
          obtain ⟨hr, hl⟩ := hrel
          refine ⟨rfl, rfl, hr, ?_⟩
          show (cx₂B.errors.take cx₂.errors.length).length =
            (cx₁B.errors.take cx₁.errors.length).length
          rw [errsExtend_take (show errsExtend cx₂.errors cx₂B.errors from k3),
            errsExtend_take (show errsExtend cx₁.errors cx₁B.errors from e3), hl]

theorem errsExtend_ne {a b : List ParseError} (h : errsExtend a b)
    (ha : a ≠ []) : b ≠ [] := by
  obtain ⟨t, rfl⟩ := h
  simp [ha]

theorem pushErr_ne (cx : Ctx) (e : ParseError) : (pushErr cx e).errors ≠ [] := by
  simp [pushErr]

theorem parse_option_eq_none (f : Nat) (cx cx₁B : Ctx)
    (hq : parse_quoted f cx = some (none, cx₁B)) :
    parse_option f cx = (match parse_option_atom cx₁B with
      | (some c, cx₂) => (optLoop f cx₂ [c] false).map fun r => (some r.1, r.2.1)
      | (none, cx₂) => some (none, cx₂)) := by
  rw [parse_option, hq]

theorem parse_option_eq_some (f : Nat) (cx : Ctx) (q : Str) (cx₁B : Ctx)
    (hq : parse_quoted f cx = some (some q, cx₁B)) :
    parse_option f cx = (optLoop f cx₁B q false).map fun r =>
      (some r.1,
        if r.2.2 then
          pushErr r.2.1 (.TrailingOptionChars (cx₁B.offset, r.2.1.offset))
        else r.2.1) := by
  rw [parse_option, hq]

theorem parse_option_sim (f₁ f₂ : Nat) (cx₁ cx₂ : Ctx) (o₁ o₂ : Option Str)
    (cx₁A cx₂A : Ctx)
    (hb₁ : cx₁.remaining.length < f₁) (hb₂ : cx₂.remaining.length < f₂)
    (h₁ : parse_option f₁ cx₁ = some (o₁, cx₁A))
    (h₂ : parse_option f₂ cx₂ = some (o₂, cx₂A))
    (hrel : CtxRel cx₁ cx₂) :
    (o₁ = none ∧ o₂ = none ∧ cx₁A = cx₁ ∧ cx₂A = cx₂) ∨
    (∃ v, o₁ = some v ∧ o₂ = some v ∧ CtxRel cx₁A cx₂A ∧
      cx₁A.remaining.length < cx₁.remaining.length ∧
      cx₂A.remaining.length < cx₂.remaining.length) ∨
    (∃ v, o₁ = some v ∧ cx₁A.errors ≠ [] ∧
      cx₁A.remaining.length < cx₁.remaining.length ∧
      optBoundary cx₁A.remaining) := by
  rcases hq₁ : parse_quoted f₁ cx₁ with _ | ⟨oQ₁, cx₁B⟩
  · rw [parse_option, hq₁] at h₁
    cases h₁
  rcases hq₂ : parse_quoted f₂ cx₂ with _ | ⟨oQ₂, cx₂B⟩
  · rw [parse_option, hq₂] at h₂
    cases h₂
  rcases parse_quoted_sim f₁ f₂ cx₁ cx₂ oQ₁ oQ₂ cx₁B cx₂B hb₁ hb₂ hq₁ hq₂
      hrel with
    ⟨hn₁, hn₂, hcx₁, hcx₂⟩ | ⟨q, hs₁, hs₂, hrelB, hl₁, hl₂⟩ |
      ⟨q, hs₁, hbad, hl₁⟩
  · subst hn₁
    subst hn₂
    rw [parse_option_eq_none f₁ cx₁ cx₁B hq₁] at h₁
    rw [parse_option_eq_none f₂ cx₂ cx₂B hq₂] at h₂
    have hrelB : CtxRel cx₁B cx₂B := by
      rw [hcx₁, hcx₂]
      exact hrel
    obtain ⟨hr, hl⟩ := hrelB
    have hs := parse_option_atom_sim cx₁B cx₂B hr hl
    rcases hat : parse_option_atom cx₁B with ⟨oC₁, cxC₁⟩
    rcases hbt : parse_option_atom cx₂B with ⟨oC₂, cxC₂⟩
    rw [hat, hbt] at hs
    obtain ⟨hveq, hrem2, hlen2⟩ := hs
    replace hveq : oC₂ = oC₁ := hveq
    replace hrem2 : cxC₂.remaining = crlfOf cxC₁.remaining := hrem2
    replace hlen2 : cxC₂.errors.length = cxC₁.errors.length := hlen2
    subst hveq
    rw [hat] at h₁
    rw [hbt] at h₂
    cases oC₂ with
    | none =>
        replace h₁ : some ((none : Option Str), cxC₁) = some (o₁, cx₁A) := h₁
        replace h₂ : some ((none : Option Str), cxC₂) = some (o₂, cx₂A) := h₂
        cases h₁
        cases h₂
        have hf₁ : cx₁A = cx₁B := by
          have := parse_option_atom_fail cx₁B (by rw [hat])
          rw [hat] at this
          exact this
        have hf₂ : cx₂A = cx₂B := by
          have := parse_option_atom_fail cx₂B (by rw [hbt])
          rw [hbt] at this
          exact this
        exact Or.inl ⟨rfl, rfl, hf₁.trans hcx₁, hf₂.trans hcx₂⟩
    | some c =>
        replace h₁ : Option.map (fun r => ((some r.1 : Option Str), r.2.1))
            (optLoop f₁ cxC₁ [c] false) = some (o₁, cx₁A) := h₁
        replace h₂ : Option.map (fun r => ((some r.1 : Option Str), r.2.1))
            (optLoop f₂ cxC₂ [c] false) = some (o₂, cx₂A) := h₂
        rcases hol₁ : optLoop f₁ cxC₁ [c] false with _ | ⟨w₁, cxL₁, tL₁⟩
        · rw [hol₁] at h₁
          simp at h₁
        rcases hol₂ : optLoop f₂ cxC₂ [c] false with _ | ⟨w₂, cxL₂, tL₂⟩
        · rw [hol₂] at h₂
          simp at h₂
        rw [hol₁] at h₁
        rw [hol₂] at h₂
        replace h₁ : some ((some w₁ : Option Str), cxL₁) = some (o₁, cx₁A) := h₁
        replace h₂ : some ((some w₂ : Option Str), cxL₂) = some (o₂, cx₂A) := h₂
        cases h₁
        cases h₂
        have hlb₁ : cxC₁.remaining.length < f₁ := by
          have := @parse_option_atom_succ_len cx₁B c (by rw [hat])
          rw [hat] at this
          simp only at this
          rw [hcx₁] at this
          omega
        have hlb₂ : cxC₂.remaining.length < f₂ := by
          have := @parse_option_atom_succ_len cx₂B c (by rw [hbt])
          rw [hbt] at this
          simp only at this
          rw [hcx₂] at this
          omega
        obtain ⟨hveq, hteq, hrelL⟩ := optLoop_sim f₁ f₂ cxC₁ cxC₂ [c] false
          w₁ w₂ cx₁A cx₂A tL₁ tL₂ hlb₁ hlb₂ hol₁ hol₂ ⟨hrem2, hlen2⟩
        subst hveq
        obtain ⟨v₁L, cx₁L, t₁L, g1, g2, g3, g4, g5⟩ :=
          optLoop_spec f₁ cxC₁ [c] false hlb₁
        have hid₁ : some (v₁L, cx₁L, t₁L) = some (w₂, cx₁A, tL₁) :=
          g1.symm.trans hol₁
        cases hid₁
        obtain ⟨v₂L, cx₂L, t₂L, k1, k2, k3, k4, k5⟩ :=
          optLoop_spec f₂ cxC₂ [c] false hlb₂
        have hid₂ : some (v₂L, cx₂L, t₂L) = some (w₂, cx₂A, tL₂) :=
          k1.symm.trans hol₂
        cases hid₂
        have hsl₁ := @parse_option_atom_succ_len cx₁B c (by rw [hat])
        rw [hat] at hsl₁
        simp only at hsl₁
        have hsl₂ := @parse_option_atom_succ_len cx₂B c (by rw [hbt])
        rw [hbt] at hsl₂
        simp only at hsl₂
        rw [hcx₁] at hsl₁
        rw [hcx₂] at hsl₂
        exact Or.inr (Or.inl ⟨w₂, rfl, rfl, hrelL, by omega, by omega⟩)
  · subst hs₁
    subst hs₂
    rw [parse_option_eq_some f₁ cx₁ q cx₁B hq₁] at h₁
    rw [parse_option_eq_some f₂ cx₂ q cx₂B hq₂] at h₂
    rcases hol₁ : optLoop f₁ cx₁B q false with _ | ⟨w₁, cxL₁, tL₁⟩
    · rw [hol₁] at h₁
      simp at h₁
    rcases hol₂ : optLoop f₂ cx₂B q false with _ | ⟨w₂, cxL₂, tL₂⟩
    · rw [hol₂] at h₂
      simp at h₂
    rw [hol₁] at h₁
    rw [hol₂] at h₂
    replace h₁ : some ((some w₁ : Option Str),
        if tL₁ = true then
          pushErr cxL₁ (.TrailingOptionChars (cx₁B.offset, cxL₁.offset))
        else cxL₁) = some (o₁, cx₁A) := h₁
    replace h₂ : some ((some w₂ : Option Str),
        if tL₂ = true then
          pushErr cxL₂ (.TrailingOptionChars (cx₂B.offset, cxL₂.offset))
        else cxL₂) = some (o₂, cx₂A) := h₂
    cases h₁
    cases h₂
    obtain ⟨hveq, hteq, hrelL⟩ := optLoop_sim f₁ f₂ cx₁B cx₂B q false
      w₁ w₂ cxL₁ cxL₂ tL₁ tL₂ (by omega) (by omega) hol₁ hol₂ hrelB
    subst hveq
    subst hteq
    obtain ⟨v₁L, cx₁L, t₁L, g1, g2, g3, g4, g5⟩ :=
      optLoop_spec f₁ cx₁B q false (by omega)
    have hid₁ : some (v₁L, cx₁L, t₁L) = some (w₂, cxL₁, tL₂) :=
      g1.symm.trans hol₁
    cases hid₁
    obtain ⟨v₂L, cx₂L, t₂L, k1, k2, k3, k4, k5⟩ :=
      optLoop_spec f₂ cx₂B q false (by omega)
    have hid₂ : some (v₂L, cx₂L, t₂L) = some (w₂, cxL₂, tL₂) :=
      k1.symm.trans hol₂
    cases hid₂
    cases tL₂ with
    | false =>
        simp only [Bool.false_eq_true, if_false]
        exact Or.inr (Or.inl ⟨w₂, rfl, rfl, hrelL, by omega, by omega⟩)
    | true =>
        simp only [if_pos rfl]
        refine Or.inr (Or.inl ⟨w₂, rfl, rfl, CtxRel_push hrelL _ _, ?_, ?_⟩)
        · show cxL₁.remaining.length < cx₁.remaining.length
          omega
        · show cxL₂.remaining.length < cx₂.remaining.length
          omega
  · subst hs₁
    rw [parse_option_eq_some f₁ cx₁ q cx₁B hq₁] at h₁
    rcases hol₁ : optLoop f₁ cx₁B q false with _ | ⟨w₁, cxL₁, tL₁⟩
    · rw [hol₁] at h₁
      simp at h₁
    rw [hol₁] at h₁
    replace h₁ : some ((some w₁ : Option Str),
        if tL₁ = true then
          pushErr cxL₁ (.TrailingOptionChars (cx₁B.offset, cxL₁.offset))
        else cxL₁) = some (o₁, cx₁A) := h₁
    cases h₁
    obtain ⟨v', cx', tr', g1, g2, g3, g4, g5⟩ :=
      optLoop_spec f₁ cx₁B q false (by omega)
    have hid : some (v', cx', tr') = some (w₁, cxL₁, tL₁) := g1.symm.trans hol₁
    cases hid
    have hne : cxL₁.errors ≠ [] := errsExtend_ne g4 hbad
    cases tL₁ with
    | false =>
        simp only [Bool.false_eq_true, if_false]
        refine Or.inr (Or.inr ⟨w₁, rfl, hne, by omega, g5⟩)
    | true =>
        simp only [if_pos rfl]
        refine Or.inr (Or.inr ⟨w₁, rfl, pushErr_ne _ _, ?_, ?_⟩)
        · show (pushErr cxL₁ _).remaining.length < cx₁.remaining.length
          simp only [pushErr]
          omega
        · show optBoundary (pushErr cxL₁ _).remaining
          simp only [pushErr]
          exact g5

theorem parse_exact_char_succ_len (cx : Ctx) (e : Char) {u : Unit}
    (h : (parse_exact_char cx e).1 = some u) :
    (parse_exact_char cx e).2.remaining.length < cx.remaining.length := by
  obtain ⟨s, r, errs⟩ := cx
  match r with
  | [] => rw [parse_exact_char_nil] at h; simp at h
  | c :: rest =>
      rw [parse_exact_char_cons]
      rw [parse_exact_char_cons] at h
      by_cases hce : c = e
      · simp [hce]
      · rw [if_neg hce] at h
        simp at h

theorem parse_exact_char_errs (cx : Ctx) (e : Char) :
    (parse_exact_char cx e).2.errors = cx.errors := by
  obtain ⟨s, r, errs⟩ := cx
  match r with
  | [] => rw [parse_exact_char_nil]
  | c :: rest =>
      rw [parse_exact_char_cons]
      by_cases hce : c = e <;> simp [hce]

theorem lookupStr_keys (a : List (Str × Span)) :
    ∀ (b : List (Str × Span)), b.map Prod.fst = a.map Prod.fst →
      ∀ key, (lookupStr a key).isSome = (lookupStr b key).isSome := by
  induction a with
  | nil =>
      intro b hb key
      cases b with
      | nil => rfl
      | cons hd tl => simp at hb
  | cons hd tl ih =>
      intro b hb key
      cases b with
      | nil => simp at hb
      | cons hd₂ tl₂ =>
          simp only [List.map_cons, List.cons.injEq] at hb
          obtain ⟨hhd, htl⟩ := hb
          rw [lookupStr, lookupStr]
          by_cases hk : hd.1 = key
          · rw [if_pos hk, if_pos (by rw [hhd]; exact hk)]
            rfl
          · rw [if_neg hk, if_neg (by rw [hhd]; exact hk)]
            exact ih tl₂ htl key

theorem addOption_sim (opts₁ opts₂ : List (Str × Span)) (cx₁ cx₂ : Ctx)
    (opt : Str) (sp₁ sp₂ : Span)
    (hkeys : opts₂.map Prod.fst = opts₁.map Prod.fst)
    (hrel : CtxRel cx₁ cx₂) :
    (addOption opts₂ cx₂ opt sp₂).1.map Prod.fst =
      (addOption opts₁ cx₁ opt sp₁).1.map Prod.fst ∧
    CtxRel (addOption opts₁ cx₁ opt sp₁).2 (addOption opts₂ cx₂ opt sp₂).2 := by
  by_cases hne : opt = []
  · simp only [addOption, if_pos hne]
    exact ⟨hkeys, CtxRel_push hrel _ _⟩
  · have hksome := lookupStr_keys opts₁ opts₂ hkeys opt
    rcases hk₁ : lookupStr opts₁ opt with _ | sp
    · rcases hk₂ : lookupStr opts₂ opt with _ | sp'
      · simp only [addOption, if_neg hne, hk₁, hk₂]
        constructor
        · simp [hkeys]
        · exact hrel
      · rw [hk₁, hk₂] at hksome
        simp at hksome
    · rcases hk₂ : lookupStr opts₂ opt with _ | sp'
      · rw [hk₁, hk₂] at hksome
        simp at hksome
      · simp only [addOption, if_neg hne, hk₁, hk₂]
        exact ⟨hkeys, CtxRel_push hrel _ _⟩

theorem optionsIterStep_eq_ok (f : Nat) (cxI cxC cxD : Ctx)
    (opts : List (Str × Span)) (os : Nat) (opt : Str)
    (hsw : skipWs f cxI = some cxC)
    (hop : parse_option f cxC = some (some opt, cxD)) :
    optionsIterStep f cxI opts os =
      some (addOption opts cxD opt (cxC.offset, cxD.offset)) := by
  simp only [optionsIterStep, hsw, hop]

theorem optionsIterStep_eq_fail (f : Nat) (cxI cxC cxD : Ctx)
    (opts : List (Str × Span)) (os : Nat)
    (hsw : skipWs f cxI = some cxC)
    (hop : parse_option f cxC = some (none, cxD)) :
    optionsIterStep f cxI opts os =
      some (opts, pushErr (tryRollback cxI cxD)
        (.EmptyOption (os,
          if cxC.remaining.head? = some ',' then cxC.offset + 1
          else cxC.offset))) := by
  simp only [optionsIterStep, hsw, hop]

theorem optionsIterStep_sim (f₁ f₂ : Nat) (cxI₁ cxI₂ : Ctx)
    (opts₁ opts₂ : List (Str × Span)) (os₁ os₂ : Nat)
    (r₁ r₂ : List (Str × Span) × Ctx)
    (hb₁ : cxI₁.remaining.length < f₁) (hb₂ : cxI₂.remaining.length < f₂)
    (h₁ : optionsIterStep f₁ cxI₁ opts₁ os₁ = some r₁)
    (h₂ : optionsIterStep f₂ cxI₂ opts₂ os₂ = some r₂)
    (hrel : CtxRel cxI₁ cxI₂)
    (hkeys : opts₂.map Prod.fst = opts₁.map Prod.fst) :
    (r₂.1.map Prod.fst = r₁.1.map Prod.fst ∧ CtxRel r₁.2 r₂.2) ∨
    r₁.2.errors ≠ [] := by
  rcases hsw₁ : skipWs f₁ cxI₁ with _ | cxC₁
  · rw [optionsIterStep, hsw₁] at h₁
    cases h₁
  rcases hsw₂ : skipWs f₂ cxI₂ with _ | cxC₂
  · rw [optionsIterStep, hsw₂] at h₂
    cases h₂
  have hrelC := skipWs_sim f₁ f₂ cxI₁ cxI₂ cxC₁ cxC₂ hsw₁ hsw₂ hrel
  obtain ⟨w₁, e1, e2, e3, e4⟩ := skipWs_spec f₁ cxI₁ hb₁
  have hid₁ : some w₁ = some cxC₁ := e1.symm.trans hsw₁
  cases hid₁
  obtain ⟨w₂, k1, k2, k3, k4⟩ := skipWs_spec f₂ cxI₂ hb₂
  have hid₂ : some w₂ = some cxC₂ := k1.symm.trans hsw₂
  cases hid₂
  have hlb₁ : cxC₁.remaining.length < f₁ := by
    rw [e3]
    have := dropWsP_length_le cxI₁.remaining
    omega
  have hlb₂ : cxC₂.remaining.length < f₂ := by
    rw [k3]
    have := dropWsP_length_le cxI₂.remaining
    omega
  rcases hop₁ : parse_option f₁ cxC₁ with _ | ⟨oO₁, cxD₁⟩
  · simp only [optionsIterStep, hsw₁, hop₁] at h₁
    cases h₁
  rcases hop₂ : parse_option f₂ cxC₂ with _ | ⟨oO₂, cxD₂⟩
  · simp only [optionsIterStep, hsw₂, hop₂] at h₂
    cases h₂
  rcases parse_option_sim f₁ f₂ cxC₁ cxC₂ oO₁ oO₂ cxD₁ cxD₂ hlb₁ hlb₂
      hop₁ hop₂ hrelC with
    ⟨hn₁, hn₂, hd₁, hd₂⟩ | ⟨opt, hs₁, hs₂, hrelD, _, _⟩ |
      ⟨opt, hs₁, hbad, _, _⟩
  · subst hn₁
    subst hn₂
    rw [optionsIterStep_eq_fail f₁ cxI₁ cxC₁ cxD₁ opts₁ os₁ hsw₁ hop₁] at h₁
    rw [optionsIterStep_eq_fail f₂ cxI₂ cxC₂ cxD₂ opts₂ os₂ hsw₂ hop₂] at h₂
    cases h₁
    cases h₂
    left
    refine ⟨hkeys, ?_⟩
    obtain ⟨hr, hl⟩ := hrel
    have hrelR : CtxRel (tryRollback cxI₁ cxD₁) (tryRollback cxI₂ cxD₂) := by
      constructor
      · show cxI₂.remaining = crlfOf cxI₁.remaining
        exact hr
      · show (cxD₂.errors.take cxI₂.errors.length).length =
          (cxD₁.errors.take cxI₁.errors.length).length
        rw [hd₁, hd₂, errsExtend_take e4, errsExtend_take k4, hl]
    exact CtxRel_push hrelR _ _
  · subst hs₁
    subst hs₂
    rw [optionsIterStep_eq_ok f₁ cxI₁ cxC₁ cxD₁ opts₁ os₁ opt hsw₁ hop₁] at h₁
    rw [optionsIterStep_eq_ok f₂ cxI₂ cxC₂ cxD₂ opts₂ os₂ opt hsw₂ hop₂] at h₂
    cases h₁
    cases h₂
    exact Or.inl (addOption_sim opts₁ opts₂ cxD₁ cxD₂ opt _ _ hkeys hrelD)
  · subst hs₁
    rw [optionsIterStep_eq_ok f₁ cxI₁ cxC₁ cxD₁ opts₁ os₁ opt hsw₁ hop₁] at h₁
    cases h₁
    right
    obtain ⟨g1, g2, g3⟩ := addOption_spec opts₁ cxD₁ opt
      (cxC₁.offset, cxD₁.offset)
    exact errsExtend_ne g3 hbad

theorem optionsLoop_eq_already (n : Nat) (cx : Ctx)
    (opts : List (Str × Span)) (os : Nat) :
    optionsLoop (n + 1) cx opts os true =
      (match optionsIterStep (n + 1) cx opts os with
       | none => none
       | some (opts', cx') => optionsLoop n cx' opts' os false) := rfl

theorem optionsLoop_eq_comma (n : Nat) (cx cxA cxB : Ctx)
    (opts : List (Str × Span)) (os : Nat)
    (hsw : skipWs (n + 1) cx = some cxA)
    (hex : parse_exact_char cxA ',' = (some (), cxB)) :
    optionsLoop (n + 1) cx opts os false =
      (match optionsIterStep (n + 1) cxB opts cxA.offset with
       | none => none
       | some (opts', cx') => optionsLoop n cx' opts' cxA.offset false) := by
  simp only [optionsLoop, Bool.false_eq_true, if_false, hsw, hex]

theorem optionsLoop_eq_nocomma (n : Nat) (cx cxA cxB : Ctx)
    (opts : List (Str × Span)) (os : Nat)
    (hsw : skipWs (n + 1) cx = some cxA)
    (hex : parse_exact_char cxA ',' = (none, cxB)) :
    optionsLoop (n + 1) cx opts os false = some (opts, tryRollback cx cxB) := by
  simp only [optionsLoop, Bool.false_eq_true, if_false, hsw, hex]

theorem optionsLoop_sim (f₁ : Nat) :
    ∀ (f₂ : Nat) (cx₁ cx₂ : Ctx) (opts₁ opts₂ : List (Str × Span))
      (os₁ os₂ : Nat) (already : Bool) (r₁ r₂ : List (Str × Span) × Ctx),
      cx₁.remaining.length + (if already then 1 else 0) < f₁ →
      cx₂.remaining.length + (if already then 1 else 0) < f₂ →
      optionsLoop f₁ cx₁ opts₁ os₁ already = some r₁ →
      optionsLoop f₂ cx₂ opts₂ os₂ already = some r₂ →
      CtxRel cx₁ cx₂ → opts₂.map Prod.fst = opts₁.map Prod.fst →
      (r₂.1.map Prod.fst = r₁.1.map Prod.fst ∧ CtxRel r₁.2 r₂.2) ∨
      r₁.2.errors ≠ [] := by
  induction f₁ with
  | zero =>
      intro f₂ cx₁ cx₂ opts₁ opts₂ os₁ os₂ already r₁ r₂ hb₁ hb₂ h₁ h₂ hrel hk
      omega
  | succ n ih =>
      intro f₂ cx₁ cx₂ opts₁ opts₂ os₁ os₂ already r₁ r₂ hb₁ hb₂ h₁ h₂ hrel hk
      cases f₂ with
      | zero => omega
      | succ g =>
      cases already with
      | true =>
          simp at hb₁ hb₂
          rw [optionsLoop_eq_already] at h₁ h₂
          rcases hit₁ : optionsIterStep (n + 1) cx₁ opts₁ os₁ with
            _ | ⟨opts₁B, cx₁B⟩
          · rw [hit₁] at h₁
            cases h₁
          rcases hit₂ : optionsIterStep (g + 1) cx₂ opts₂ os₂ with
            _ | ⟨opts₂B, cx₂B⟩
          · rw [hit₂] at h₂
            cases h₂
          rw [hit₁] at h₁
          rw [hit₂] at h₂
          replace h₁ : optionsLoop n cx₁B opts₁B os₁ false = some r₁ := h₁
          replace h₂ : optionsLoop g cx₂B opts₂B os₂ false = some r₂ := h₂
          obtain ⟨w₁o, w₁c, e1, e2, e3, e4, e5⟩ :=
            optionsIterStep_spec (n + 1) cx₁ opts₁ os₁ (by omega)
          have hid₁ : some (w₁o, w₁c) = some (opts₁B, cx₁B) := e1.symm.trans hit₁
          cases hid₁
          obtain ⟨w₂o, w₂c, k1, k2, k3, k4, k5⟩ :=
            optionsIterStep_spec (g + 1) cx₂ opts₂ os₂ (by omega)
          have hid₂ : some (w₂o, w₂c) = some (opts₂B, cx₂B) := k1.symm.trans hit₂
          cases hid₂
          rcases optionsIterStep_sim (n + 1) (g + 1) cx₁ cx₂ opts₁ opts₂ os₁ os₂
              (opts₁B, cx₁B) (opts₂B, cx₂B) (by omega) (by omega)
              hit₁ hit₂ hrel hk with
            ⟨hkB, hrelB⟩ | hbad
          · exact ih g cx₁B cx₂B opts₁B opts₂B os₁ os₂ false r₁ r₂
              (by simp only [Bool.false_eq_true, if_false]; omega)
              (by simp only [Bool.false_eq_true, if_false]; omega)
              h₁ h₂ hrelB hkB
          · right
            obtain ⟨wo, wc, g1, g2, g3, g4, g5⟩ :=
              optionsLoop_spec n cx₁B opts₁B os₁ false
                (by simp only [Bool.false_eq_true, if_false]; omega)
                (fun _ => e5)
            have hid : some (wo, wc) = some r₁ := g1.symm.trans h₁
            cases hid
            exact errsExtend_ne g4 (by exact hbad)
      | false =>
          simp only [Bool.false_eq_true, if_false] at hb₁ hb₂
          rcases hsw₁ : skipWs (n + 1) cx₁ with _ | cxA₁
          · simp only [optionsLoop, Bool.false_eq_true, if_false, hsw₁] at h₁
            cases h₁
          rcases hsw₂ : skipWs (g + 1) cx₂ with _ | cxA₂
          · simp only [optionsLoop, Bool.false_eq_true, if_false, hsw₂] at h₂
            cases h₂
          have hrelA := skipWs_sim (n + 1) (g + 1) cx₁ cx₂ cxA₁ cxA₂ hsw₁ hsw₂
            hrel
          obtain ⟨wA, e1, e2, e3, e4⟩ := skipWs_spec (n + 1) cx₁ (by omega)
          have hidA : some wA = some cxA₁ := e1.symm.trans hsw₁
          cases hidA
          obtain ⟨wB, k1, k2, k3, k4⟩ := skipWs_spec (g + 1) cx₂ (by omega)
          have hidB : some wB = some cxA₂ := k1.symm.trans hsw₂
          cases hidB
          obtain ⟨hrA, hlA⟩ := hrelA
          have hsEx := parse_exact_char_sim ',' (by decide) (by decide) cxA₁ cxA₂
            hrA hlA
          rcases hex₁ : parse_exact_char cxA₁ ',' with ⟨oE₁, cxB₁⟩
          rcases hex₂ : parse_exact_char cxA₂ ',' with ⟨oE₂, cxB₂⟩
          rw [hex₁, hex₂] at hsEx
          obtain ⟨hvE, hrE, hlE⟩ := hsEx
          replace hvE : oE₂ = oE₁ := hvE
          replace hrE : cxB₂.remaining = crlfOf cxB₁.remaining := hrE
          replace hlE : cxB₂.errors.length = cxB₁.errors.length := hlE
          subst hvE
          cases oE₂ with
          | some u =>
              cases u
              rw [optionsLoop_eq_comma n cx₁ cxA₁ cxB₁ opts₁ os₁ hsw₁ hex₁] at h₁
              rw [optionsLoop_eq_comma g cx₂ cxA₂ cxB₂ opts₂ os₂ hsw₂ hex₂] at h₂
              have hlenB₁ : cxB₁.remaining.length < cxA₁.remaining.length := by
                have := parse_exact_char_succ_len cxA₁ ',' (by rw [hex₁])
                rw [hex₁] at this
                exact this
              have hlenB₂ : cxB₂.remaining.length < cxA₂.remaining.length := by
                have := parse_exact_char_succ_len cxA₂ ',' (by rw [hex₂])
                rw [hex₂] at this
                exact this
              have hlenA₁ : cxA₁.remaining.length ≤ cx₁.remaining.length := by
                rw [e3]
                exact dropWsP_length_le _
              have hlenA₂ : cxA₂.remaining.length ≤ cx₂.remaining.length := by
                rw [k3]
                exact dropWsP_length_le _
              rcases hit₁ : optionsIterStep (n + 1) cxB₁ opts₁ cxA₁.offset with
                _ | ⟨opts₁B, cx₁B⟩
              · rw [hit₁] at h₁
                cases h₁
              rcases hit₂ : optionsIterStep (g + 1) cxB₂ opts₂ cxA₂.offset with
                _ | ⟨opts₂B, cx₂B⟩
              · rw [hit₂] at h₂
                cases h₂
              rw [hit₁] at h₁
              rw [hit₂] at h₂
              replace h₁ : optionsLoop n cx₁B opts₁B cxA₁.offset false =
                some r₁ := h₁
              replace h₂ : optionsLoop g cx₂B opts₂B cxA₂.offset false =
                some r₂ := h₂
              obtain ⟨w₁o, w₁c, i1, i2, i3, i4, i5⟩ :=
                optionsIterStep_spec (n + 1) cxB₁ opts₁ cxA₁.offset (by omega)
              have hid₁ : some (w₁o, w₁c) = some (opts₁B, cx₁B) :=
                i1.symm.trans hit₁
              cases hid₁
              obtain ⟨w₂o, w₂c, j1, j2, j3, j4, j5⟩ :=
                optionsIterStep_spec (g + 1) cxB₂ opts₂ cxA₂.offset (by omega)
              have hid₂ : some (w₂o, w₂c) = some (opts₂B, cx₂B) :=
                j1.symm.trans hit₂
              cases hid₂
              rcases optionsIterStep_sim (n + 1) (g + 1) cxB₁ cxB₂ opts₁ opts₂
                  cxA₁.offset cxA₂.offset (opts₁B, cx₁B) (opts₂B, cx₂B)
                  (by omega) (by omega) hit₁ hit₂ ⟨hrE, hlE⟩ hk with
                ⟨hkB, hrelB⟩ | hbad
              · exact ih g cx₁B cx₂B opts₁B opts₂B cxA₁.offset cxA₂.offset false
                  r₁ r₂
                  (by simp only [Bool.false_eq_true, if_false]; omega)
                  (by simp only [Bool.false_eq_true, if_false]; omega)
                  h₁ h₂ hrelB hkB
              · right
                obtain ⟨wo, wc, g1, g2, g3, g4, g5⟩ :=
                  optionsLoop_spec n cx₁B opts₁B cxA₁.offset false
                    (by simp only [Bool.false_eq_true, if_false]; omega)
                    (fun _ => i5)
                have hid : some (wo, wc) = some r₁ := g1.symm.trans h₁
                cases hid
                exact errsExtend_ne g4 (by exact hbad)
          | none =>
              rw [optionsLoop_eq_nocomma n cx₁ cxA₁ cxB₁ opts₁ os₁ hsw₁
                hex₁] at h₁
              rw [optionsLoop_eq_nocomma g cx₂ cxA₂ cxB₂ opts₂ os₂ hsw₂
                hex₂] at h₂
              cases h₁
              cases h₂
              left
              refine ⟨hk, ?_⟩
              obtain ⟨hr, hl⟩ := hrel
              constructor
              · show cx₂.remaining = crlfOf cx₁.remaining
                exact hr
              · show (cxB₂.errors.take cx₂.errors.length).length =
                  (cxB₁.errors.take cx₁.errors.length).length
                have hee₁ : cxB₁.errors = cxA₁.errors := by
                  have := parse_exact_char_errs cxA₁ ','
                  rw [hex₁] at this
                  exact this
                have hee₂ : cxB₂.errors = cxA₂.errors := by
                  have := parse_exact_char_errs cxA₂ ','
                  rw [hex₂] at this
                  exact this
                rw [hee₁, hee₂, errsExtend_take e4, errsExtend_take k4, hl]

theorem parse_exact_char_fail (cx : Ctx) (e : Char)
    (h : (parse_exact_char cx e).1 = none) : (parse_exact_char cx e).2 = cx := by
  obtain ⟨s, r, errs⟩ := cx
  match r with
  | [] => rw [parse_exact_char_nil]
  | c :: rest =>
      rw [parse_exact_char_cons] at h ⊢
      by_cases hce : c = e
      · rw [if_pos hce] at h
        simp at h
      · rw [if_neg hce]

theorem parse_options_eq_comma (f : Nat) (cx cxB : Ctx)
    (hex : parse_exact_char cx ',' = (some (), cxB)) :
    parse_options f cx =
      (optionsLoop f (pushErr cxB (.EmptyOption (cx.offset, cxB.offset))) []
        cx.offset true).map fun r => (some r.1, r.2) := by
  simp only [parse_options, hex]

theorem parse_options_eq_nocomma (f : Nat) (cx cxB : Ctx)
    (hex : parse_exact_char cx ',' = (none, cxB)) :
    parse_options f cx =
      (match parse_option f cxB with
       | none => none
       | some (none, cx₂) => some (none, cx₂)
       | some (some opt, cx₂) =>
           (optionsLoop f (addOption [] cx₂ opt (cx.offset, cx₂.offset)).2
             (addOption [] cx₂ opt (cx.offset, cx₂.offset)).1 cx.offset
             false).map fun r₂ => (some r₂.1, r₂.2)) := by
  simp only [parse_options, hex]

theorem parse_options_sim (f₁ f₂ : Nat) (cx₁ cx₂ : Ctx)
    (o₁ o₂ : Option (List (Str × Span))) (cx₁A cx₂A : Ctx)
    (hb₁ : cx₁.remaining.length < f₁) (hb₂ : cx₂.remaining.length < f₂)
    (h₁ : parse_options f₁ cx₁ = some (o₁, cx₁A))
    (h₂ : parse_options f₂ cx₂ = some (o₂, cx₂A))
    (hrel : CtxRel cx₁ cx₂) :
    (o₁ = none ∧ o₂ = none ∧ cx₁A = cx₁ ∧ cx₂A = cx₂) ∨
    (∃ l₁ l₂, o₁ = some l₁ ∧ o₂ = some l₂ ∧
      l₂.map Prod.fst = l₁.map Prod.fst ∧ CtxRel cx₁A cx₂A) ∨
    (∃ l₁, o₁ = some l₁ ∧ cx₁A.errors ≠ []) := by
  obtain ⟨hr, hl⟩ := hrel
  have hsEx := parse_exact_char_sim ',' (by decide) (by decide) cx₁ cx₂ hr hl
  rcases hex₁ : parse_exact_char cx₁ ',' with ⟨oE₁, cxB₁⟩
  rcases hex₂ : parse_exact_char cx₂ ',' with ⟨oE₂, cxB₂⟩
  rw [hex₁, hex₂] at hsEx
  obtain ⟨hvE, hrE, hlE⟩ := hsEx
  replace hvE : oE₂ = oE₁ := hvE
  replace hrE : cxB₂.remaining = crlfOf cxB₁.remaining := hrE
  replace hlE : cxB₂.errors.length = cxB₁.errors.length := hlE
  subst hvE
  cases oE₂ with
  | some u =>
      cases u
      rw [parse_options_eq_comma f₁ cx₁ cxB₁ hex₁] at h₁
      rw [parse_options_eq_comma f₂ cx₂ cxB₂ hex₂] at h₂
      have hlenB₁ : cxB₁.remaining.length < cx₁.remaining.length := by
        have := parse_exact_char_succ_len cx₁ ',' (by rw [hex₁])
        rw [hex₁] at this
        exact this
      have hlenB₂ : cxB₂.remaining.length < cx₂.remaining.length := by
        have := parse_exact_char_succ_len cx₂ ',' (by rw [hex₂])
        rw [hex₂] at this
        exact this
      rcases hLp₁ : optionsLoop f₁
          (pushErr cxB₁ (.EmptyOption (cx₁.offset, cxB₁.offset))) []
          cx₁.offset true with _ | rL₁
      · rw [hLp₁] at h₁
        simp at h₁
      rcases hLp₂ : optionsLoop f₂
          (pushErr cxB₂ (.EmptyOption (cx₂.offset, cxB₂.offset))) []
          cx₂.offset true with _ | rL₂
      · rw [hLp₂] at h₂
        simp at h₂
      rw [hLp₁] at h₁
      rw [hLp₂] at h₂
      replace h₁ : some ((some rL₁.1 : Option (List (Str × Span))), rL₁.2) =
        some (o₁, cx₁A) := h₁
      replace h₂ : some ((some rL₂.1 : Option (List (Str × Span))), rL₂.2) =
        some (o₂, cx₂A) := h₂
      cases h₁
      cases h₂
      have hrelP : CtxRel
          (pushErr cxB₁ (.EmptyOption (cx₁.offset, cxB₁.offset)))
          (pushErr cxB₂ (.EmptyOption (cx₂.offset, cxB₂.offset))) :=
        CtxRel_push ⟨hrE, hlE⟩ _ _
      rcases optionsLoop_sim f₁ f₂ _ _ [] [] cx₁.offset cx₂.offset true rL₁ rL₂
          (by simp [pushErr]; omega)
          (by simp [pushErr]; omega)
          hLp₁ hLp₂ hrelP rfl with
        ⟨hkL, hrelL⟩ | hbad
      · exact Or.inr (Or.inl ⟨rL₁.1, rL₂.1, rfl, rfl, hkL, hrelL⟩)
      · exact Or.inr (Or.inr ⟨rL₁.1, rfl, hbad⟩)
  | none =>
      have hf₁ : cxB₁ = cx₁ := by
        have := parse_exact_char_fail cx₁ ',' (by rw [hex₁])
        rw [hex₁] at this
        exact this
      have hf₂ : cxB₂ = cx₂ := by
        have := parse_exact_char_fail cx₂ ',' (by rw [hex₂])
        rw [hex₂] at this
        exact this
      rw [parse_options_eq_nocomma f₁ cx₁ cxB₁ hex₁] at h₁
      rw [parse_options_eq_nocomma f₂ cx₂ cxB₂ hex₂] at h₂
      have hbB₁ : cxB₁.remaining.length < f₁ := by rw [hf₁]; exact hb₁
      have hbB₂ : cxB₂.remaining.length < f₂ := by rw [hf₂]; exact hb₂
      rcases hop₁ : parse_option f₁ cxB₁ with _ | ⟨oO₁, cxD₁⟩
      · rw [hop₁] at h₁
        cases h₁
      rcases hop₂ : parse_option f₂ cxB₂ with _ | ⟨oO₂, cxD₂⟩
      · rw [hop₂] at h₂
        cases h₂
      rw [hop₁] at h₁
      rw [hop₂] at h₂
      rcases parse_option_sim f₁ f₂ cxB₁ cxB₂ oO₁ oO₂ cxD₁ cxD₂ hbB₁ hbB₂
          hop₁ hop₂ ⟨hrE, hlE⟩ with
        ⟨hn₁, hn₂, hd₁, hd₂⟩ | ⟨opt, hs₁, hs₂, hrelD, hlen₁, hlen₂⟩ |
          ⟨opt, hs₁, hbad, hlen₁, hbdy⟩
      · subst hn₁
        subst hn₂
        replace h₁ : some ((none : Option (List (Str × Span))), cxD₁) =
          some (o₁, cx₁A) := h₁
        replace h₂ : some ((none : Option (List (Str × Span))), cxD₂) =
          some (o₂, cx₂A) := h₂
        cases h₁
        cases h₂
        exact Or.inl ⟨rfl, rfl, hd₁.trans hf₁, hd₂.trans hf₂⟩
      · subst hs₁
        subst hs₂
        replace h₁ : (optionsLoop f₁
            (addOption [] cxD₁ opt (cx₁.offset, cxD₁.offset)).2
            (addOption [] cxD₁ opt (cx₁.offset, cxD₁.offset)).1 cx₁.offset
            false).map (fun r₂ =>
              ((some r₂.1 : Option (List (Str × Span))), r₂.2)) =
          some (o₁, cx₁A) := h₁
        replace h₂ : (optionsLoop f₂
            (addOption [] cxD₂ opt (cx₂.offset, cxD₂.offset)).2
            (addOption [] cxD₂ opt (cx₂.offset, cxD₂.offset)).1 cx₂.offset
            false).map (fun r₂ =>
              ((some r₂.1 : Option (List (Str × Span))), r₂.2)) =
          some (o₂, cx₂A) := h₂
        rcases hLp₁ : optionsLoop f₁
            (addOption [] cxD₁ opt (cx₁.offset, cxD₁.offset)).2
            (addOption [] cxD₁ opt (cx₁.offset, cxD₁.offset)).1 cx₁.offset
            false with _ | rL₁
        · rw [hLp₁] at h₁
          simp at h₁
        rcases hLp₂ : optionsLoop f₂
            (addOption [] cxD₂ opt (cx₂.offset, cxD₂.offset)).2
            (addOption [] cxD₂ opt (cx₂.offset, cxD₂.offset)).1 cx₂.offset
            false with _ | rL₂
        · rw [hLp₂] at h₂
          simp at h₂
        rw [hLp₁] at h₁
        rw [hLp₂] at h₂
        replace h₁ : some ((some rL₁.1 : Option (List (Str × Span))), rL₁.2) =
          some (o₁, cx₁A) := h₁
        replace h₂ : some ((some rL₂.1 : Option (List (Str × Span))), rL₂.2) =
          some (o₂, cx₂A) := h₂
        cases h₁
        cases h₂
        obtain ⟨hadd₁, hadd₂, hadd₃⟩ :=
          addOption_spec [] cxD₁ opt (cx₁.offset, cxD₁.offset)
        obtain ⟨kadd₁, kadd₂, kadd₃⟩ :=
          addOption_spec [] cxD₂ opt (cx₂.offset, cxD₂.offset)
        obtain ⟨hkA, hrelA⟩ := addOption_sim [] [] cxD₁ cxD₂ opt
          (cx₁.offset, cxD₁.offset) (cx₂.offset, cxD₂.offset) rfl hrelD
        rcases optionsLoop_sim f₁ f₂ _ _ _ _ cx₁.offset cx₂.offset false
            rL₁ rL₂
            (by simp only [Bool.false_eq_true, if_false]
                rw [hadd₂, hf₁] at *
                omega)
            (by simp only [Bool.false_eq_true, if_false]
                rw [kadd₂, hf₂] at *
                omega)
            hLp₁ hLp₂ hrelA hkA with
          ⟨hkL, hrelL⟩ | hbad
        · exact Or.inr (Or.inl ⟨rL₁.1, rL₂.1, rfl, rfl, hkL, hrelL⟩)
        · exact Or.inr (Or.inr ⟨rL₁.1, rfl, hbad⟩)
      · subst hs₁
        replace h₁ : (optionsLoop f₁
            (addOption [] cxD₁ opt (cx₁.offset, cxD₁.offset)).2
            (addOption [] cxD₁ opt (cx₁.offset, cxD₁.offset)).1 cx₁.offset
            false).map (fun r₂ =>
              ((some r₂.1 : Option (List (Str × Span))), r₂.2)) =
          some (o₁, cx₁A) := h₁
        rcases hLp₁ : optionsLoop f₁
            (addOption [] cxD₁ opt (cx₁.offset, cxD₁.offset)).2
            (addOption [] cxD₁ opt (cx₁.offset, cxD₁.offset)).1 cx₁.offset
            false with _ | rL₁
        · rw [hLp₁] at h₁
          simp at h₁
        rw [hLp₁] at h₁
        replace h₁ : some ((some rL₁.1 : Option (List (Str × Span))), rL₁.2) =
          some (o₁, cx₁A) := h₁
        cases h₁
        obtain ⟨hadd₁, hadd₂, hadd₃⟩ :=
          addOption_spec [] cxD₁ opt (cx₁.offset, cxD₁.offset)
        obtain ⟨wo, wc, g1, g2, g3, g4, g5⟩ :=
          optionsLoop_spec f₁
            (addOption [] cxD₁ opt (cx₁.offset, cxD₁.offset)).2
            (addOption [] cxD₁ opt (cx₁.offset, cxD₁.offset)).1 cx₁.offset
            false
            (by simp only [Bool.false_eq_true, if_false]
                rw [hadd₂, hf₁] at *
                omega)
            (fun _ => by rw [hadd₂]; exact hbdy)
        have hid : some (wo, wc) = some rL₁ := g1.symm.trans hLp₁
        cases hid
        refine Or.inr (Or.inr ⟨wo, rfl, ?_⟩)
        exact errsExtend_ne g4 (errsExtend_ne hadd₃ hbad)

theorem termsBody_eq_ok (f : Nat) (cx₀ cxA cxO : Ctx)
    (l : List (Str × Span))
    (hsw : skipWs f cx₀ = some cxA)
    (hop : parse_options f cxA = some (some l, cxO)) :
    termsBody f cx₀ =
      (match skipWs f cxO with
       | none => none
       | some cx₂ =>
         match parse_exact_char cx₂ '-' with
         | (some _, cx₃) =>
             some (some (l, true,
               decide (cx₂.remaining.length < cxO.remaining.length)), cx₃)
         | (none, cx₃) =>
             some (some (l, false,
               decide (cx₂.remaining.length < cxO.remaining.length)), cx₃)) := by
  simp only [termsBody, tryParseF, hsw, Option.some_bind, hop, Option.map,
    tryParse, Option.getD, Option.isSome, if_true]

theorem termsBody_eq_fail (f : Nat) (cx₀ cxA cxO : Ctx)
    (hsw : skipWs f cx₀ = some cxA)
    (hop : parse_options f cxA = some (none, cxO)) :
    termsBody f cx₀ =
      (match skipWs f (tryRollback cx₀ cxO) with
       | none => none
       | some cx₂ =>
         match parse_exact_char cx₂ '-' with
         | (some _, cx₃) =>
             some (some ([], true,
               decide (cx₂.remaining.length <
                 (tryRollback cx₀ cxO).remaining.length)), cx₃)
         | (none, cx₃) => some (none, cx₃)) := by
  simp only [termsBody, tryParseF, hsw, Option.some_bind, hop, Option.map,
    tryParse, Option.getD, Option.isSome, Bool.false_eq_true, if_false]

theorem spaceFlag_decide (R : Str) :
    decide ((dropWsP (crlfOf R)).length < (crlfOf R).length) =
      decide ((dropWsP R).length < R.length) :=
  decide_eq_decide.mpr (spaceFlag_crlfOf R)

theorem termsBody_sim (f₁ f₂ : Nat) (cx₁ cx₂ : Ctx)
    (r₁ r₂ : Option (List (Str × Span) × Bool × Bool) × Ctx)
    (hb₁ : cx₁.remaining.length < f₁) (hb₂ : cx₂.remaining.length < f₂)
    (h₁ : termsBody f₁ cx₁ = some r₁) (h₂ : termsBody f₂ cx₂ = some r₂)
    (hrel : CtxRel cx₁ cx₂) :
    ((r₁.1 = none ∧ r₂.1 = none ∧ CtxRel r₁.2 r₂.2) ∨
     (∃ l₁ l₂ hd sb, r₁.1 = some (l₁, hd, sb) ∧ r₂.1 = some (l₂, hd, sb) ∧
        l₂.map Prod.fst = l₁.map Prod.fst ∧ CtxRel r₁.2 r₂.2)) ∨
    (∃ l hd sb, r₁.1 = some (l, hd, sb) ∧ r₁.2.errors ≠ []) := by
  rcases hsw₁ : skipWs f₁ cx₁ with _ | cxA₁
  · simp only [termsBody, tryParseF, hsw₁, Option.none_bind, Option.map] at h₁
    cases h₁
  rcases hsw₂ : skipWs f₂ cx₂ with _ | cxA₂
  · simp only [termsBody, tryParseF, hsw₂, Option.none_bind, Option.map] at h₂
    cases h₂
  have hrelA := skipWs_sim f₁ f₂ cx₁ cx₂ cxA₁ cxA₂ hsw₁ hsw₂ hrel
  obtain ⟨wA, e1, e2, e3, e4⟩ := skipWs_spec f₁ cx₁ hb₁
  have hidA : some wA = some cxA₁ := e1.symm.trans hsw₁
  cases hidA
  obtain ⟨wB, k1, k2, k3, k4⟩ := skipWs_spec f₂ cx₂ hb₂
  have hidB : some wB = some cxA₂ := k1.symm.trans hsw₂
  cases hidB
  have hbA₁ : cxA₁.remaining.length < f₁ := by
    rw [e3]
    have := dropWsP_length_le cx₁.remaining
    omega
  have hbA₂ : cxA₂.remaining.length < f₂ := by
    rw [k3]
    have := dropWsP_length_le cx₂.remaining
    omega
  rcases hop₁ : parse_options f₁ cxA₁ with _ | ⟨oO₁, cxO₁⟩
  · simp only [termsBody, tryParseF, hsw₁, Option.some_bind, hop₁,
      Option.map] at h₁
    cases h₁
  rcases hop₂ : parse_options f₂ cxA₂ with _ | ⟨oO₂, cxO₂⟩
  · simp only [termsBody, tryParseF, hsw₂, Option.some_bind, hop₂,
      Option.map] at h₂
    cases h₂
  rcases parse_options_sim f₁ f₂ cxA₁ cxA₂ oO₁ oO₂ cxO₁ cxO₂ hbA₁ hbA₂
      hop₁ hop₂ hrelA with
    ⟨hn₁, hn₂, hd₁, hd₂⟩ | ⟨l₁, l₂, hs₁, hs₂, hkeys, hrelO⟩ |
      ⟨l₁, hs₁, hbad⟩
  · subst hn₁
    subst hn₂
    rw [termsBody_eq_fail f₁ cx₁ cxA₁ cxO₁ hsw₁ hop₁] at h₁
    rw [termsBody_eq_fail f₂ cx₂ cxA₂ cxO₂ hsw₂ hop₂] at h₂
    have hrelR : CtxRel (tryRollback cx₁ cxO₁) (tryRollback cx₂ cxO₂) := by
      obtain ⟨hr, hl⟩ := hrel
      constructor
      · show cx₂.remaining = crlfOf cx₁.remaining
        exact hr
      · show (cxO₂.errors.take cx₂.errors.length).length =
          (cxO₁.errors.take cx₁.errors.length).length
        rw [hd₁, hd₂, errsExtend_take e4, errsExtend_take k4, hl]
    rcases hsw₁p : skipWs f₁ (tryRollback cx₁ cxO₁) with _ | cx₁S
    · rw [hsw₁p] at h₁
      cases h₁
    rcases hsw₂p : skipWs f₂ (tryRollback cx₂ cxO₂) with _ | cx₂S
    · rw [hsw₂p] at h₂
      cases h₂
    rw [hsw₁p] at h₁
    rw [hsw₂p] at h₂
    replace h₁ : (match parse_exact_char cx₁S '-' with
       | (some _, cx₃) =>
           some (some (([] : List (Str × Span)), true,
             decide (cx₁S.remaining.length <
               (tryRollback cx₁ cxO₁).remaining.length)), cx₃)
       | (none, cx₃) => some (none, cx₃)) = some r₁ := h₁
    replace h₂ : (match parse_exact_char cx₂S '-' with
       | (some _, cx₃) =>
           some (some (([] : List (Str × Span)), true,
             decide (cx₂S.remaining.length <
               (tryRollback cx₂ cxO₂).remaining.length)), cx₃)
       | (none, cx₃) => some (none, cx₃)) = some r₂ := h₂
    have hrelS := skipWs_sim f₁ f₂ _ _ cx₁S cx₂S hsw₁p hsw₂p hrelR
    obtain ⟨wS, p1, p2, p3, p4⟩ := skipWs_spec f₁ (tryRollback cx₁ cxO₁)
      (by show cx₁.remaining.length < f₁; exact hb₁)
    have hidS : some wS = some cx₁S := p1.symm.trans hsw₁p
    cases hidS
    obtain ⟨wT, q1, q2, q3, q4⟩ := skipWs_spec f₂ (tryRollback cx₂ cxO₂)
      (by show cx₂.remaining.length < f₂; exact hb₂)
    have hidT : some wT = some cx₂S := q1.symm.trans hsw₂p
    cases hidT
    have hflag : decide (cx₂S.remaining.length <
        (tryRollback cx₂ cxO₂).remaining.length) =
      decide (cx₁S.remaining.length <
        (tryRollback cx₁ cxO₁).remaining.length) := by
      rw [p3, q3]
      show decide ((dropWsP cx₂.remaining).length < cx₂.remaining.length) =
        decide ((dropWsP cx₁.remaining).length < cx₁.remaining.length)
      rw [hrel.1]
      exact spaceFlag_decide cx₁.remaining
    obtain ⟨hrS, hlS⟩ := hrelS
    have hsD := parse_exact_char_sim '-' (by decide) (by decide) cx₁S cx₂S
      hrS hlS
    rcases hexd₁ : parse_exact_char cx₁S '-' with ⟨oD₁, cx₁T⟩
    rcases hexd₂ : parse_exact_char cx₂S '-' with ⟨oD₂, cx₂T⟩
    rw [hexd₁, hexd₂] at hsD
    obtain ⟨hvD, hrD, hlD⟩ := hsD
    replace hvD : oD₂ = oD₁ := hvD
    replace hrD : cx₂T.remaining = crlfOf cx₁T.remaining := hrD
    replace hlD : cx₂T.errors.length = cx₁T.errors.length := hlD
    subst hvD
    rw [hexd₁] at h₁
    rw [hexd₂] at h₂
    cases oD₂ with
    | some u =>
        cases h₁
        cases h₂
        refine Or.inl (Or.inr ⟨[], [], true, _, rfl, ?_, rfl, hrD, hlD⟩)
        rw [hflag]
    | none =>
        cases h₁
        cases h₂
        exact Or.inl (Or.inl ⟨rfl, rfl, hrD, hlD⟩)
  · subst hs₁
    subst hs₂
    rw [termsBody_eq_ok f₁ cx₁ cxA₁ cxO₁ l₁ hsw₁ hop₁] at h₁
    rw [termsBody_eq_ok f₂ cx₂ cxA₂ cxO₂ l₂ hsw₂ hop₂] at h₂
    obtain ⟨rS, cxS, y1, y2, y3, ydisj⟩ := parse_options_spec f₁ cxA₁ hbA₁
    have hidO : some (rS, cxS) = some (some l₁, cxO₁) := y1.symm.trans hop₁
    cases hidO
    obtain ⟨rT, cxT, z1, z2, z3, zdisj⟩ := parse_options_spec f₂ cxA₂ hbA₂
    have hidP : some (rT, cxT) = some (some l₂, cxO₂) := z1.symm.trans hop₂
    cases hidP
    have hlenO₁ : cxO₁.remaining.length < f₁ := by
      rcases ydisj with ⟨hnone, _⟩ | ⟨opts, _, hlen, _⟩
      · cases hnone
      · omega
    have hlenO₂ : cxO₂.remaining.length < f₂ := by
      rcases zdisj with ⟨hnone, _⟩ | ⟨opts, _, hlen, _⟩
      · cases hnone
      · omega
    rcases hsw₁p : skipWs f₁ cxO₁ with _ | cx₁S
    · rw [hsw₁p] at h₁
      cases h₁
    rcases hsw₂p : skipWs f₂ cxO₂ with _ | cx₂S
    · rw [hsw₂p] at h₂
      cases h₂
    rw [hsw₁p] at h₁
    rw [hsw₂p] at h₂
    replace h₁ : (match parse_exact_char cx₁S '-' with
       | (some _, cx₃) =>
           some (some (l₁, true,
             decide (cx₁S.remaining.length < cxO₁.remaining.length)), cx₃)
       | (none, cx₃) =>
           some (some (l₁, false,
             decide (cx₁S.remaining.length < cxO₁.remaining.length)), cx₃)) =
      some r₁ := h₁
    replace h₂ : (match parse_exact_char cx₂S '-' with
       | (some _, cx₃) =>
           some (some (l₂, true,
             decide (cx₂S.remaining.length < cxO₂.remaining.length)), cx₃)
       | (none, cx₃) =>
           some (some (l₂, false,
             decide (cx₂S.remaining.length < cxO₂.remaining.length)), cx₃)) =
      some r₂ := h₂
    have hrelS := skipWs_sim f₁ f₂ _ _ cx₁S cx₂S hsw₁p hsw₂p hrelO
    obtain ⟨wS, p1, p2, p3, p4⟩ := skipWs_spec f₁ cxO₁ hlenO₁
    have hidS : some wS = some cx₁S := p1.symm.trans hsw₁p
    cases hidS
    obtain ⟨wT, q1, q2, q3, q4⟩ := skipWs_spec f₂ cxO₂ hlenO₂
    have hidT : some wT = some cx₂S := q1.symm.trans hsw₂p
    cases hidT
    have hflag : decide (cx₂S.remaining.length < cxO₂.remaining.length) =
        decide (cx₁S.remaining.length < cxO₁.remaining.length) := by
      rw [p3, q3, hrelO.1]
      exact spaceFlag_decide cxO₁.remaining
    obtain ⟨hrS, hlS⟩ := hrelS
    have hsD := parse_exact_char_sim '-' (by decide) (by decide) cx₁S cx₂S
      hrS hlS
    rcases hexd₁ : parse_exact_char cx₁S '-' with ⟨oD₁, cx₁T⟩
    rcases hexd₂ : parse_exact_char cx₂S '-' with ⟨oD₂, cx₂T⟩
    rw [hexd₁, hexd₂] at hsD
    obtain ⟨hvD, hrD, hlD⟩ := hsD
    replace hvD : oD₂ = oD₁ := hvD
    replace hrD : cx₂T.remaining = crlfOf cx₁T.remaining := hrD
    replace hlD : cx₂T.errors.length = cx₁T.errors.length := hlD
    subst hvD
    rw [hexd₁] at h₁
    rw [hexd₂] at h₂
    cases oD₂ with
    | some u =>
        cases h₁
        cases h₂
        refine Or.inl (Or.inr ⟨l₁, l₂, true, _, rfl, ?_, hkeys, hrD, hlD⟩)
        rw [hflag]
    | none =>
        cases h₁
        cases h₂
        refine Or.inl (Or.inr ⟨l₁, l₂, false, _, rfl, ?_, hkeys, hrD, hlD⟩)
        rw [hflag]
  · subst hs₁
    rw [termsBody_eq_ok f₁ cx₁ cxA₁ cxO₁ l₁ hsw₁ hop₁] at h₁
    obtain ⟨rS, cxS, y1, y2, y3, ydisj⟩ := parse_options_spec f₁ cxA₁ hbA₁
    have hidO : some (rS, cxS) = some (some l₁, cxO₁) := y1.symm.trans hop₁
    cases hidO
    have hlenO₁ : cxO₁.remaining.length < f₁ := by
      rcases ydisj with ⟨hnone, _⟩ | ⟨opts, _, hlen, _⟩
      · cases hnone
      · omega
    rcases hsw₁p : skipWs f₁ cxO₁ with _ | cx₁S
    · rw [hsw₁p] at h₁
      cases h₁
    rw [hsw₁p] at h₁
    replace h₁ : (match parse_exact_char cx₁S '-' with
       | (some _, cx₃) =>
           some (some (l₁, true,
             decide (cx₁S.remaining.length < cxO₁.remaining.length)), cx₃)
       | (none, cx₃) =>
           some (some (l₁, false,
             decide (cx₁S.remaining.length < cxO₁.remaining.length)), cx₃)) =
      some r₁ := h₁
    obtain ⟨wS, p1, p2, p3, p4⟩ := skipWs_spec f₁ cxO₁ hlenO₁
    have hidS : some wS = some cx₁S := p1.symm.trans hsw₁p
    cases hidS
    have hneS : cx₁S.errors ≠ [] := errsExtend_ne p4 hbad
    rcases hexd₁ : parse_exact_char cx₁S '-' with ⟨oD₁, cx₁T⟩
    have hee : cx₁T.errors = cx₁S.errors := by
      have := parse_exact_char_errs cx₁S '-'
      rw [hexd₁] at this
      exact this
    rw [hexd₁] at h₁
    cases oD₁ with
    | some u =>
        cases h₁
        refine Or.inr ⟨l₁, true, _, rfl, ?_⟩
        rw [hee]
        exact hneS
    | none =>
        cases h₁
        refine Or.inr ⟨l₁, false, _, rfl, ?_⟩
        rw [hee]
        exact hneS

theorem thirdPartTail_sim (f₁ f₂ cs₁ cs₂ : Nat)
    (defs₁ defs₂ : List (Str × Span)) (cx₁ cx₂ : Ctx)
    (r₁ r₂ : List (Str × Span) × Ctx)
    (h₁ : thirdPartTail f₁ cs₁ defs₁ cx₁ = some r₁)
    (h₂ : thirdPartTail f₂ cs₂ defs₂ cx₂ = some r₂)
    (hrel : CtxRel cx₁ cx₂) :
    r₁.1 = defs₁ ∧ r₂.1 = defs₂ ∧ CtxRel r₁.2 r₂.2 := by
  obtain ⟨hr, hl⟩ := hrel
  have hsD := parse_exact_char_sim '-' (by decide) (by decide) cx₁ cx₂ hr hl
  rcases hexd₁ : parse_exact_char cx₁ '-' with ⟨oD₁, cx₁B⟩
  rcases hexd₂ : parse_exact_char cx₂ '-' with ⟨oD₂, cx₂B⟩
  rw [hexd₁, hexd₂] at hsD
  obtain ⟨hvD, hrD, hlD⟩ := hsD
  replace hvD : oD₂ = oD₁ := hvD
  replace hrD : cx₂B.remaining = crlfOf cx₁B.remaining := hrD
  replace hlD : cx₂B.errors.length = cx₁B.errors.length := hlD
  subst hvD
  rw [thirdPartTail, hexd₁] at h₁
  rw [thirdPartTail, hexd₂] at h₂
  cases oD₂ with
  | none =>
      cases h₁
      cases h₂
      exact ⟨rfl, rfl, hrD, hlD⟩
  | some u =>
      replace h₁ : Option.map (fun r =>
          (defs₁, pushErr r.2
            (ParseError.ThirdPart (cs₁, cx₁.offset) (cx₁.offset, r.2.offset))))
          (titleChars f₁ cx₁B []) = some r₁ := h₁
      replace h₂ : Option.map (fun r =>
          (defs₂, pushErr r.2
            (ParseError.ThirdPart (cs₂, cx₂.offset) (cx₂.offset, r.2.offset))))
          (titleChars f₂ cx₂B []) = some r₂ := h₂
      rcases htc₁ : titleChars f₁ cx₁B [] with _ | ⟨v₁, cx₁C⟩
      · rw [htc₁] at h₁
        simp at h₁
      rcases htc₂ : titleChars f₂ cx₂B [] with _ | ⟨v₂, cx₂C⟩
      · rw [htc₂] at h₂
        simp at h₂
      rw [htc₁] at h₁
      rw [htc₂] at h₂
      cases h₁
      cases h₂
      obtain ⟨hveq, hrelC⟩ := titleChars_sim f₁ f₂ cx₁B cx₂B [] v₁ v₂
        cx₁C cx₂C htc₁ htc₂ ⟨hrD, hlD⟩
      exact ⟨rfl, rfl, CtxRel_push hrelC _ _⟩

theorem thirdPartTail_errs (f cs : Nat) (defs : List (Str × Span)) (cx : Ctx)
    (r : List (Str × Span) × Ctx)
    (hb : cx.remaining.length < f)
    (h : thirdPartTail f cs defs cx = some r) :
    r.1 = defs ∧ errsExtend cx.errors r.2.errors := by
  rcases hexd : parse_exact_char cx '-' with ⟨oD, cxB⟩
  have hee : cxB.errors = cx.errors := by
    have := parse_exact_char_errs cx '-'
    rw [hexd] at this
    exact this
  rw [thirdPartTail, hexd] at h
  cases oD with
  | none =>
      cases h
      exact ⟨rfl, errsExtend_eq (by exact hee)⟩
  | some u =>
      have hlB : cxB.remaining.length < f := by
        have := parse_exact_char_succ_len cx '-' (by rw [hexd])
        rw [hexd] at this
        replace this : cxB.remaining.length < cx.remaining.length := this
        omega
      replace h : Option.map (fun r =>
          (defs, pushErr r.2
            (ParseError.ThirdPart (cs, cx.offset) (cx.offset, r.2.offset))))
          (titleChars f cxB []) = some r := h
      obtain ⟨cxC, g1, g2, g3, g4⟩ := titleChars_spec f cxB [] hlB
      rw [g1] at h
      cases h
      refine ⟨rfl, ?_⟩
      have h1 : errsExtend cx.errors cxC.errors := by
        rw [← hee]
        exact g4
      exact errsExtend_trans h1 (by simpa [pushErr] using errsExtend_push cxC.errors _)

theorem cardFinish_sim (f₁ f₂ cs₁ cs₂ : Nat)
    (terms₁ terms₂ defs₁ defs₂ : List (Str × Span)) (cxD₁ cxD₂ : Ctx)
    (r₁ r₂ : Option Card × Ctx)
    (h₁ : cardFinish f₁ cs₁ terms₁ defs₁ cxD₁ = some r₁)
    (h₂ : cardFinish f₂ cs₂ terms₂ defs₂ cxD₂ = some r₂)
    (hrel : CtxRel cxD₁ cxD₂)
    (hkt : terms₂.map Prod.fst = terms₁.map Prod.fst)
    (hkd : defs₂.map Prod.fst = defs₁.map Prod.fst) :
    ∃ card, r₁.1 = some card ∧ r₂.1 = some card ∧ CtxRel r₁.2 r₂.2 := by
  have htiff : terms₂ = [] ↔ terms₁ = [] := by
    constructor
    · intro h
      subst h
      simpa using hkt.symm
    · intro h
      subst h
      simpa using hkt
  have hdiff : defs₂ = [] ↔ defs₁ = [] := by
    constructor
    · intro h
      subst h
      simpa using hkd.symm
    · intro h
      subst h
      simpa using hkd
  simp only [cardFinish] at h₁ h₂
  have hrelF : CtxRel
      (if defs₁ = [] then
        pushErr (if terms₁ = [] then
            pushErr cxD₁ (.NoTerms (cs₁, cxD₁.offset)) else cxD₁)
          (.NoDefinitions (cs₁,
            (if terms₁ = [] then
              pushErr cxD₁ (.NoTerms (cs₁, cxD₁.offset)) else cxD₁).offset))
       else (if terms₁ = [] then
         pushErr cxD₁ (.NoTerms (cs₁, cxD₁.offset)) else cxD₁))
      (if defs₂ = [] then
        pushErr (if terms₂ = [] then
            pushErr cxD₂ (.NoTerms (cs₂, cxD₂.offset)) else cxD₂)
          (.NoDefinitions (cs₂,
            (if terms₂ = [] then
              pushErr cxD₂ (.NoTerms (cs₂, cxD₂.offset)) else cxD₂).offset))
       else (if terms₂ = [] then
         pushErr cxD₂ (.NoTerms (cs₂, cxD₂.offset)) else cxD₂)) := by
    by_cases ht : terms₁ = []
    · by_cases hd : defs₁ = []
      · simp only [if_pos ht, if_pos hd, if_pos (htiff.mpr ht),
          if_pos (hdiff.mpr hd)]
        exact CtxRel_push (CtxRel_push hrel _ _) _ _
      · simp only [if_pos ht, if_neg hd, if_pos (htiff.mpr ht),
          if_neg (fun hh => hd (hdiff.mp hh))]
        exact CtxRel_push hrel _ _
    · by_cases hd : defs₁ = []
      · simp only [if_neg ht, if_pos hd, if_neg (fun hh => ht (htiff.mp hh)),
          if_pos (hdiff.mpr hd)]
        exact CtxRel_push hrel _ _
      · simp only [if_neg ht, if_neg hd, if_neg (fun hh => ht (htiff.mp hh)),
          if_neg (fun hh => hd (hdiff.mp hh))]
        exact hrel
  rcases hcm₁ : parse_comment f₁ _ with _ | cx₁G
  · rw [hcm₁] at h₁
    simp at h₁
  rcases hcm₂ : parse_comment f₂ _ with _ | cx₂G
  · rw [hcm₂] at h₂
    simp at h₂
  rw [hcm₁] at h₁
  rw [hcm₂] at h₂
  cases h₁
  cases h₂
  have hrelG := parse_comment_sim f₁ f₂ _ _ cx₁G cx₂G hcm₁ hcm₂ hrelF
  refine ⟨⟨terms₁.map Prod.fst, defs₁.map Prod.fst⟩, rfl, ?_, hrelG⟩
  show some (⟨terms₂.map Prod.fst, defs₂.map Prod.fst⟩ : Card) = _
  rw [hkt, hkd]

theorem cardFinish_errs (f cs : Nat) (terms defs : List (Str × Span))
    (cxD : Ctx) (r : Option Card × Ctx)
    (hb : cxD.remaining.length < f)
    (h : cardFinish f cs terms defs cxD = some r) :
    (∃ card, r.1 = some card) ∧ errsExtend cxD.errors r.2.errors := by
  simp only [cardFinish] at h
  have hrem : (if defs = [] then
      pushErr (if terms = [] then
          pushErr cxD (.NoTerms (cs, cxD.offset)) else cxD)
        (.NoDefinitions (cs,
          (if terms = [] then
            pushErr cxD (.NoTerms (cs, cxD.offset)) else cxD).offset))
     else (if terms = [] then
       pushErr cxD (.NoTerms (cs, cxD.offset)) else cxD)).remaining =
      cxD.remaining := by
    by_cases ht : terms = [] <;> by_cases hd : defs = [] <;>
      simp [ht, hd, pushErr]
  have hext : errsExtend cxD.errors
      (if defs = [] then
        pushErr (if terms = [] then
            pushErr cxD (.NoTerms (cs, cxD.offset)) else cxD)
          (.NoDefinitions (cs,
            (if terms = [] then
              pushErr cxD (.NoTerms (cs, cxD.offset)) else cxD).offset))
       else (if terms = [] then
         pushErr cxD (.NoTerms (cs, cxD.offset)) else cxD)).errors := by
    by_cases ht : terms = [] <;> by_cases hd : defs = [] <;>
      simp [ht, hd, pushErr, errsExtend]
  obtain ⟨cxG, g1, g2, g3, g4⟩ := parse_comment_spec f _ (by rw [hrem]; exact hb)
  rw [g1] at h
  cases h
  exact ⟨⟨_, rfl⟩, errsExtend_trans hext g4⟩

theorem cardDefs_sim (f₁ f₂ cs₁ cs₂ : Nat) (cx₁ cx₂ : Ctx) (sb : Bool)
    (r₁ r₂ : List (Str × Span) × Ctx)
    (hb₁ : cx₁.remaining.length < f₁) (hb₂ : cx₂.remaining.length < f₂)
    (h₁ : cardDefs f₁ cs₁ cx₁ sb = some r₁)
    (h₂ : cardDefs f₂ cs₂ cx₂ sb = some r₂)
    (hrel : CtxRel cx₁ cx₂) :
    (r₂.1.map Prod.fst = r₁.1.map Prod.fst ∧ CtxRel r₁.2 r₂.2) ∨
    r₁.2.errors ≠ [] := by
  have hmain : ∀ (cx₁P cx₂P : Ctx), CtxRel cx₁P cx₂P →
      cx₁P.remaining.length < f₁ → cx₂P.remaining.length < f₂ →
      ((match parse_options f₁ cx₁P with
        | none => none
        | some (defsRes, cx₄) =>
          (if defsRes.isSome then skipWs f₁ cx₄ else some cx₄).bind
            (thirdPartTail f₁ cs₁ (defsRes.getD []))) = some r₁) →
      ((match parse_options f₂ cx₂P with
        | none => none
        | some (defsRes, cx₄) =>
          (if defsRes.isSome then skipWs f₂ cx₄ else some cx₄).bind
            (thirdPartTail f₂ cs₂ (defsRes.getD []))) = some r₂) →
      (r₂.1.map Prod.fst = r₁.1.map Prod.fst ∧ CtxRel r₁.2 r₂.2) ∨
      r₁.2.errors ≠ [] := by
    intro cx₁P cx₂P hrelP hbP₁ hbP₂ h₁ h₂
    rcases hop₁ : parse_options f₁ cx₁P with _ | ⟨oD₁, cx₁Q⟩
    · rw [hop₁] at h₁
      cases h₁
    rcases hop₂ : parse_options f₂ cx₂P with _ | ⟨oD₂, cx₂Q⟩
    · rw [hop₂] at h₂
      cases h₂
    rw [hop₁] at h₁
    rw [hop₂] at h₂
    obtain ⟨rS, cxS, y1, y2, y3, ydisj⟩ := parse_options_spec f₁ cx₁P hbP₁
    have hidO : some (rS, cxS) = some (oD₁, cx₁Q) := y1.symm.trans hop₁
    cases hidO
    obtain ⟨rT, cxT, z1, z2, z3, zdisj⟩ := parse_options_spec f₂ cx₂P hbP₂
    have hidP : some (rT, cxT) = some (oD₂, cx₂Q) := z1.symm.trans hop₂
    cases hidP
    rcases parse_options_sim f₁ f₂ cx₁P cx₂P oD₁ oD₂ cx₁Q cx₂Q hbP₁ hbP₂
        hop₁ hop₂ hrelP with
      ⟨hn₁, hn₂, hd₁, hd₂⟩ | ⟨l₁, l₂, hs₁, hs₂, hkeys, hrelQ⟩ |
        ⟨l₁, hs₁, hbad⟩
    · subst hn₁
      subst hn₂
      replace h₁ : thirdPartTail f₁ cs₁ ([] : List (Str × Span)) cx₁Q =
        some r₁ := h₁
      replace h₂ : thirdPartTail f₂ cs₂ ([] : List (Str × Span)) cx₂Q =
        some r₂ := h₂
      have hrelQ : CtxRel cx₁Q cx₂Q := by
        rw [hd₁, hd₂]
        exact hrelP
      obtain ⟨e₁, e₂, hrelR⟩ := thirdPartTail_sim f₁ f₂ cs₁ cs₂ [] [] cx₁Q cx₂Q
        r₁ r₂ h₁ h₂ hrelQ
      rw [e₁, e₂]
      exact Or.inl ⟨rfl, hrelR⟩
    · subst hs₁
      subst hs₂
      replace h₁ : (skipWs f₁ cx₁Q).bind (thirdPartTail f₁ cs₁ l₁) =
        some r₁ := h₁
      replace h₂ : (skipWs f₂ cx₂Q).bind (thirdPartTail f₂ cs₂ l₂) =
        some r₂ := h₂
      rcases hsw₁p : skipWs f₁ cx₁Q with _ | cx₁R
      · rw [hsw₁p] at h₁
        cases h₁
      rcases hsw₂p : skipWs f₂ cx₂Q with _ | cx₂R
      · rw [hsw₂p] at h₂
        cases h₂
      rw [hsw₁p] at h₁
      rw [hsw₂p] at h₂
      replace h₁ : thirdPartTail f₁ cs₁ l₁ cx₁R = some r₁ := h₁
      replace h₂ : thirdPartTail f₂ cs₂ l₂ cx₂R = some r₂ := h₂
      have hrelR := skipWs_sim f₁ f₂ cx₁Q cx₂Q cx₁R cx₂R hsw₁p hsw₂p hrelQ
      obtain ⟨e₁, e₂, hrelS⟩ := thirdPartTail_sim f₁ f₂ cs₁ cs₂ l₁ l₂
        cx₁R cx₂R r₁ r₂ h₁ h₂ hrelR
      rw [e₁, e₂]
      exact Or.inl ⟨hkeys, hrelS⟩
    · subst hs₁
      replace h₁ : (skipWs f₁ cx₁Q).bind (thirdPartTail f₁ cs₁ l₁) =
        some r₁ := h₁
      have hlenQ₁ : cx₁Q.remaining.length < f₁ := by
        rcases ydisj with ⟨hnone, _⟩ | ⟨opts, _, hlen, _⟩
        · cases hnone
        · omega
      rcases hsw₁p : skipWs f₁ cx₁Q with _ | cx₁R
      · rw [hsw₁p] at h₁
        cases h₁
      rw [hsw₁p] at h₁
      replace h₁ : thirdPartTail f₁ cs₁ l₁ cx₁R = some r₁ := h₁
      obtain ⟨wS, p1, p2, p3, p4⟩ := skipWs_spec f₁ cx₁Q hlenQ₁
      have hidS : some wS = some cx₁R := p1.symm.trans hsw₁p
      cases hidS
      have hlenR : cx₁R.remaining.length < f₁ := by
        rw [p3]
        have := dropWsP_length_le cx₁Q.remaining
        omega
      obtain ⟨e₁, hext⟩ := thirdPartTail_errs f₁ cs₁ l₁ cx₁R r₁ hlenR h₁
      right
      exact errsExtend_ne hext (errsExtend_ne p4 hbad)
  rcases hsw₁ : skipWs f₁ cx₁ with _ | cx₁S
  · simp only [cardDefs, hsw₁] at h₁
    cases h₁
  rcases hsw₂ : skipWs f₂ cx₂ with _ | cx₂S
  · simp only [cardDefs, hsw₂] at h₂
    cases h₂
  simp only [cardDefs, hsw₁] at h₁
  simp only [cardDefs, hsw₂] at h₂
  have hrelS := skipWs_sim f₁ f₂ cx₁ cx₂ cx₁S cx₂S hsw₁ hsw₂ hrel
  obtain ⟨wS, p1, p2, p3, p4⟩ := skipWs_spec f₁ cx₁ hb₁
  have hidS : some wS = some cx₁S := p1.symm.trans hsw₁
  cases hidS
  obtain ⟨wT, q1, q2, q3, q4⟩ := skipWs_spec f₂ cx₂ hb₂
  have hidT : some wT = some cx₂S := q1.symm.trans hsw₂
  cases hidT
  have hbS₁ : cx₁S.remaining.length < f₁ := by
    rw [p3]
    have := dropWsP_length_le cx₁.remaining
    omega
  have hbS₂ : cx₂S.remaining.length < f₂ := by
    rw [q3]
    have := dropWsP_length_le cx₂.remaining
    omega
  have hflag : decide (cx₂S.remaining.length < cx₂.remaining.length) =
      decide (cx₁S.remaining.length < cx₁.remaining.length) := by
    rw [p3, q3, hrel.1]
    exact spaceFlag_decide cx₁.remaining
  rw [hflag] at h₂
  by_cases hcnd : (!sb ||
      !decide (cx₁S.remaining.length < cx₁.remaining.length)) = true
  · rw [if_pos hcnd] at h₁ h₂
    exact hmain _ _ (CtxRel_push hrelS _ _) (by simp [pushErr]; omega)
      (by simp [pushErr]; omega) h₁ h₂
  · rw [if_neg hcnd] at h₁ h₂
    exact hmain _ _ hrelS hbS₁ hbS₂ h₁ h₂

theorem parse_card_eq_none (f : Nat) (cx cxB : Ctx)
    (htb : termsBody f cx = some (none, cxB)) :
    parse_card f cx = some (none, tryRollback cx cxB) := by
  simp only [parse_card, tryParseF, htb, Option.map, tryParse]

theorem parse_card_eq_some (f : Nat) (cx cxB : Ctx)
    (terms : List (Str × Span)) (hd sb : Bool)
    (htb : termsBody f cx = some (some (terms, hd, sb), cxB)) :
    parse_card f cx = (if hd then cardDefs f cx.offset cxB sb
      else some (([] : List (Str × Span)), cxB)).bind fun r =>
      cardFinish f cx.offset terms r.1 r.2 := by
  simp only [parse_card, tryParseF, htb, Option.map, tryParse]

theorem parse_card_sim (f₁ f₂ : Nat) (cx₁ cx₂ : Ctx)
    (r₁ r₂ : Option Card × Ctx)
    (hb₁ : cx₁.remaining.length < f₁) (hb₂ : cx₂.remaining.length < f₂)
    (h₁ : parse_card f₁ cx₁ = some r₁) (h₂ : parse_card f₂ cx₂ = some r₂)
    (hrel : CtxRel cx₁ cx₂) :
    (r₁.1 = none ∧ r₂.1 = none ∧ CtxRel r₁.2 r₂.2) ∨
    (∃ card, r₁.1 = some card ∧ r₂.1 = some card ∧ CtxRel r₁.2 r₂.2) ∨
    (∃ card, r₁.1 = some card ∧ r₁.2.errors ≠ []) := by
  rcases htb₁ : termsBody f₁ cx₁ with _ | ⟨oB₁, cx₁B⟩
  · simp only [parse_card, tryParseF, htb₁, Option.map] at h₁
    cases h₁
  rcases htb₂ : termsBody f₂ cx₂ with _ | ⟨oB₂, cx₂B⟩
  · simp only [parse_card, tryParseF, htb₂, Option.map] at h₂
    cases h₂
  obtain ⟨rB, t1, t2, t3, tdisj⟩ := termsBody_spec f₁ cx₁ hb₁
  have hidB : some rB = some (oB₁, cx₁B) := t1.symm.trans htb₁
  cases hidB
  obtain ⟨rC, u1, u2, u3, udisj⟩ := termsBody_spec f₂ cx₂ hb₂
  have hidC : some rC = some (oB₂, cx₂B) := u1.symm.trans htb₂
  cases hidC
  rcases termsBody_sim f₁ f₂ cx₁ cx₂ (oB₁, cx₁B) (oB₂, cx₂B) hb₁ hb₂
      htb₁ htb₂ hrel with
    (⟨hn₁, hn₂, hrelB⟩ | ⟨l₁, l₂, hd, sb, hs₁, hs₂, hkeys, hrelB⟩) |
      ⟨l₁, hd, sb, hs₁, hbad⟩
  · replace hn₁ : oB₁ = none := hn₁
    replace hn₂ : oB₂ = none := hn₂
    subst hn₁
    subst hn₂
    rw [parse_card_eq_none f₁ cx₁ cx₁B htb₁] at h₁
    rw [parse_card_eq_none f₂ cx₂ cx₂B htb₂] at h₂
    cases h₁
    cases h₂
    left
    refine ⟨rfl, rfl, ?_, ?_⟩
    · show cx₂.remaining = crlfOf cx₁.remaining
      exact hrel.1
    · show (cx₂B.errors.take cx₂.errors.length).length =
        (cx₁B.errors.take cx₁.errors.length).length
      rw [errsExtend_take (show errsExtend cx₂.errors cx₂B.errors from u3),
        errsExtend_take (show errsExtend cx₁.errors cx₁B.errors from t3),
        hrel.2]
  · replace hs₁ : oB₁ = some (l₁, hd, sb) := hs₁
    replace hs₂ : oB₂ = some (l₂, hd, sb) := hs₂
    subst hs₁
    subst hs₂
    replace hrelB : CtxRel cx₁B cx₂B := hrelB
    rw [parse_card_eq_some f₁ cx₁ cx₁B l₁ hd sb htb₁] at h₁
    rw [parse_card_eq_some f₂ cx₂ cx₂B l₂ hd sb htb₂] at h₂
    have hlenB₁ : cx₁B.remaining.length ≤ cx₁.remaining.length := by
      rcases tdisj with ⟨hnone, _⟩ | ⟨t, s, heq, hlen⟩ | ⟨t, s, heq, hlen, _⟩
      · exact absurd (show some (l₁, hd, sb) = none from hnone) (by simp)
      · exact hlen
      · exact hlen
    have hlenB₂ : cx₂B.remaining.length ≤ cx₂.remaining.length := by
      rcases udisj with ⟨hnone, _⟩ | ⟨t, s, heq, hlen⟩ | ⟨t, s, heq, hlen, _⟩
      · exact absurd (show some (l₂, hd, sb) = none from hnone) (by simp)
      · exact hlen
      · exact hlen
    cases hd with
    | false =>
        rw [if_neg (by simp)] at h₁ h₂
        replace h₁ : cardFinish f₁ cx₁.offset l₁ [] cx₁B = some r₁ := h₁
        replace h₂ : cardFinish f₂ cx₂.offset l₂ [] cx₂B = some r₂ := h₂
        obtain ⟨card, hc₁, hc₂, hrelG⟩ := cardFinish_sim f₁ f₂ cx₁.offset
          cx₂.offset l₁ l₂ [] [] cx₁B cx₂B r₁ r₂ h₁ h₂ hrelB hkeys rfl
        exact Or.inr (Or.inl ⟨card, hc₁, hc₂, hrelG⟩)
    | true =>
        rw [if_pos rfl] at h₁ h₂
        rcases hcd₁ : cardDefs f₁ cx₁.offset cx₁B sb with _ | ⟨defs₁, cx₁D⟩
        · rw [hcd₁] at h₁
          cases h₁
        rcases hcd₂ : cardDefs f₂ cx₂.offset cx₂B sb with _ | ⟨defs₂, cx₂D⟩
        · rw [hcd₂] at h₂
          cases h₂
        rw [hcd₁] at h₁
        rw [hcd₂] at h₂
        replace h₁ : cardFinish f₁ cx₁.offset l₁ defs₁ cx₁D = some r₁ := h₁
        replace h₂ : cardFinish f₂ cx₂.offset l₂ defs₂ cx₂D = some r₂ := h₂
        rcases cardDefs_sim f₁ f₂ cx₁.offset cx₂.offset cx₁B cx₂B sb
            (defs₁, cx₁D) (defs₂, cx₂D) (by omega) (by omega)
            hcd₁ hcd₂ hrelB with
          ⟨hkD, hrelD⟩ | hbadD
        · obtain ⟨card, hc₁, hc₂, hrelG⟩ := cardFinish_sim f₁ f₂ cx₁.offset
            cx₂.offset l₁ l₂ defs₁ defs₂ cx₁D cx₂D r₁ r₂ h₁ h₂ hrelD hkeys hkD
          exact Or.inr (Or.inl ⟨card, hc₁, hc₂, hrelG⟩)
        · obtain ⟨wd, wc, c1, c2, c3, c4, c5⟩ :=
            cardDefs_spec f₁ cx₁.offset cx₁B sb (by omega)
          have hidD : some (wd, wc) = some (defs₁, cx₁D) := c1.symm.trans hcd₁
          cases hidD
          obtain ⟨⟨card, hcard⟩, hext⟩ := cardFinish_errs f₁ cx₁.offset l₁
            defs₁ cx₁D r₁ (by omega) h₁
          exact Or.inr (Or.inr ⟨card, hcard, errsExtend_ne hext
            (by exact hbadD)⟩)
  · replace hs₁ : oB₁ = some (l₁, hd, sb) := hs₁
    subst hs₁
    replace hbad : cx₁B.errors ≠ [] := hbad
    rw [parse_card_eq_some f₁ cx₁ cx₁B l₁ hd sb htb₁] at h₁
    have hlenB₁ : cx₁B.remaining.length ≤ cx₁.remaining.length := by
      rcases tdisj with ⟨hnone, _⟩ | ⟨t, s, heq, hlen⟩ | ⟨t, s, heq, hlen, _⟩
      · exact absurd (show some (l₁, hd, sb) = none from hnone) (by simp)
      · exact hlen
      · exact hlen
    cases hd with
    | false =>
        rw [if_neg (by simp)] at h₁
        replace h₁ : cardFinish f₁ cx₁.offset l₁ [] cx₁B = some r₁ := h₁
        obtain ⟨⟨card, hcard⟩, hext⟩ := cardFinish_errs f₁ cx₁.offset l₁ []
          cx₁B r₁ (by omega) h₁
        exact Or.inr (Or.inr ⟨card, hcard, errsExtend_ne hext hbad⟩)
    | true =>
        rw [if_pos rfl] at h₁
        rcases hcd₁ : cardDefs f₁ cx₁.offset cx₁B sb with _ | ⟨defs₁, cx₁D⟩
        · rw [hcd₁] at h₁
          cases h₁
        rw [hcd₁] at h₁
        replace h₁ : cardFinish f₁ cx₁.offset l₁ defs₁ cx₁D = some r₁ := h₁
        obtain ⟨wd, wc, c1, c2, c3, c4, c5⟩ :=
          cardDefs_spec f₁ cx₁.offset cx₁B sb (by omega)
        have hidD : some (wd, wc) = some (defs₁, cx₁D) := c1.symm.trans hcd₁
        cases hidD
        obtain ⟨⟨card, hcard⟩, hext⟩ := cardFinish_errs f₁ cx₁.offset l₁
          defs₁ cx₁D r₁ (by omega) h₁
        exact Or.inr (Or.inr ⟨card, hcard,
          errsExtend_ne hext (errsExtend_ne c4 hbad)⟩)

theorem parse_newline_errs (cx : Ctx) :
    errsExtend cx.errors (parse_newline cx).2.errors := by
  rcases parse_newline_cases cx with ⟨heq, _⟩ | ⟨hval, hsrc, hlen, hext⟩
  · rw [heq]
    exact errsExtend_refl _
  · exact hext

theorem parse_newline_fail (cx : Ctx) (h : (parse_newline cx).1 = none) :
    (parse_newline cx).2 = cx := by
  rcases parse_newline_cases cx with ⟨heq, _⟩ | ⟨hval, hsrc, hlen, hext⟩
  · rw [heq]
  · rw [hval] at h
    cases h

theorem lookupCard_keys (a : List (Card × Span)) :
    ∀ (b : List (Card × Span)), b.map Prod.fst = a.map Prod.fst →
      ∀ key, (lookupCard a key).isSome = (lookupCard b key).isSome := by
  induction a with
  | nil =>
      intro b hb key
      cases b with
      | nil => rfl
      | cons hd tl => simp at hb
  | cons hd tl ih =>
      intro b hb key
      cases b with
      | nil => simp at hb
      | cons hd₂ tl₂ =>
          simp only [List.map_cons, List.cons.injEq] at hb
          obtain ⟨hhd, htl⟩ := hb
          rw [lookupCard, lookupCard]
          by_cases hk : cardEqb hd.1 key
          · rw [if_pos hk, if_pos (by rw [hhd]; exact hk)]
            rfl
          · rw [if_neg hk, if_neg (by rw [hhd]; exact hk)]
            exact ih tl₂ htl key

theorem skipBlankLines_sim (f₁ : Nat) :
    ∀ (f₂ : Nat) (cx₁ cx₂ cx₁A cx₂A : Ctx),
      cx₁.remaining.length < f₁ → cx₂.remaining.length < f₂ →
      skipBlankLines f₁ cx₁ = some cx₁A → skipBlankLines f₂ cx₂ = some cx₂A →
      CtxRel cx₁ cx₂ → CtxRel cx₁A cx₂A := by
  induction f₁ with
  | zero =>
      intro f₂ cx₁ cx₂ cx₁A cx₂A hb₁ hb₂ h₁ h₂ hrel
      omega
  | succ n ih =>
      intro f₂ cx₁ cx₂ cx₁A cx₂A hb₁ hb₂ h₁ h₂ hrel
      cases f₂ with
      | zero => omega
      | succ g =>
      rw [skipBlankLines] at h₁ h₂
      rcases hbl₁ : parse_blank_line (n + 1) cx₁ with _ | cx₁B
      · rw [hbl₁] at h₁
        simp [tryParseF] at h₁
      rcases hbl₂ : parse_blank_line (g + 1) cx₂ with _ | cx₂B
      · rw [hbl₂] at h₂
        simp [tryParseF] at h₂
      rw [hbl₁] at h₁
      rw [hbl₂] at h₂
      simp only [Option.map] at h₁ h₂
      have hrelB := parse_blank_line_sim (n + 1) (g + 1) cx₁ cx₂ cx₁B cx₂B
        hbl₁ hbl₂ hrel
      obtain ⟨wB, e1, e2, e3, e4⟩ := parse_blank_line_spec (n + 1) cx₁ hb₁
      have hidB : some wB = some cx₁B := e1.symm.trans hbl₁
      cases hidB
      obtain ⟨wC, k1, k2, k3, k4⟩ := parse_blank_line_spec (g + 1) cx₂ hb₂
      have hidC : some wC = some cx₂B := k1.symm.trans hbl₂
      cases hidC
      have hsN := parse_newline_sim cx₁B cx₂B hrelB.1 hrelB.2
      have heN₁ := parse_newline_errs cx₁B
      have heN₂ := parse_newline_errs cx₂B
      rcases hnl₁ : parse_newline cx₁B with ⟨oN₁, cx₁N⟩
      rcases hnl₂ : parse_newline cx₂B with ⟨oN₂, cx₂N⟩
      rw [hnl₁, hnl₂] at hsN
      rw [hnl₁] at heN₁
      rw [hnl₂] at heN₂
      obtain ⟨hvN, hrN, hlN⟩ := hsN
      replace hvN : oN₂ = oN₁ := hvN
      replace hrN : cx₂N.remaining = crlfOf cx₁N.remaining := hrN
      replace hlN : cx₂N.errors.length = cx₁N.errors.length := hlN
      replace heN₁ : errsExtend cx₁B.errors cx₁N.errors := heN₁
      replace heN₂ : errsExtend cx₂B.errors cx₂N.errors := heN₂
      subst hvN
      rw [hnl₁] at h₁
      rw [hnl₂] at h₂
      cases oN₂ with
      | some u =>
          simp only [tryParseF, Option.map, tryParse] at h₁ h₂
          have hlt₁ : cx₁N.remaining.length < cx₁B.remaining.length := by
            rcases parse_newline_cases cx₁B with ⟨heq, _⟩ | ⟨hv, hs, hl, he⟩
            · rw [heq] at hnl₁
              cases hnl₁
            · rw [hnl₁] at hl
              exact hl
          have hlt₂ : cx₂N.remaining.length < cx₂B.remaining.length := by
            rcases parse_newline_cases cx₂B with ⟨heq, _⟩ | ⟨hv, hs, hl, he⟩
            · rw [heq] at hnl₂
              cases hnl₂
            · rw [hnl₂] at hl
              exact hl
          have hle₁ : cx₁B.remaining.length ≤ cx₁.remaining.length := by
            rw [e3]
            have h1 := commentRest_length_le (dropWsP cx₁.remaining)
            have h2 := dropWsP_length_le cx₁.remaining
            omega
          have hle₂ : cx₂B.remaining.length ≤ cx₂.remaining.length := by
            rw [k3]
            have h1 := commentRest_length_le (dropWsP cx₂.remaining)
            have h2 := dropWsP_length_le cx₂.remaining
            omega
          exact ih g cx₁N cx₂N cx₁A cx₂A (by omega) (by omega) h₁ h₂
            ⟨hrN, hlN⟩
      | none =>
          simp only [tryParseF, Option.map, tryParse] at h₁ h₂
          cases h₁
          cases h₂
          constructor
          · show cx₂.remaining = crlfOf cx₁.remaining
            exact hrel.1
          · show (cx₂N.errors.take cx₂.errors.length).length =
              (cx₁N.errors.take cx₁.errors.length).length
            rw [errsExtend_take (errsExtend_trans k4 heN₂),
              errsExtend_take (errsExtend_trans e4 heN₁), hrel.2]

theorem cardsLoop_sim (f₁ : Nat) :
    ∀ (f₂ : Nat) (cx₁ cx₂ : Ctx) (cards₁ cards₂ : List (Card × Span))
      (r₁ r₂ : List (Card × Span) × Ctx),
      cx₁.remaining.length < f₁ → cx₂.remaining.length < f₂ →
      cardsLoop f₁ cx₁ cards₁ = some r₁ → cardsLoop f₂ cx₂ cards₂ = some r₂ →
      CtxRel cx₁ cx₂ → cards₂.map Prod.fst = cards₁.map Prod.fst →
      (r₂.1.map Prod.fst = r₁.1.map Prod.fst ∧ CtxRel r₁.2 r₂.2) ∨
      r₁.2.errors ≠ [] := by
  induction f₁ with
  | zero =>
      intro f₂ cx₁ cx₂ cards₁ cards₂ r₁ r₂ hb₁ hb₂ h₁ h₂ hrel hk
      omega
  | succ n ih =>
      intro f₂ cx₁ cx₂ cards₁ cards₂ r₁ r₂ hb₁ hb₂ h₁ h₂ hrel hk
      cases f₂ with
      | zero => omega
      | succ g =>
      rw [cardsLoop] at h₁ h₂
      have hsN := parse_newline_sim cx₁ cx₂ hrel.1 hrel.2
      rcases hnl₁ : parse_newline cx₁ with ⟨oN₁, cx₁N⟩
      rcases hnl₂ : parse_newline cx₂ with ⟨oN₂, cx₂N⟩
      rw [hnl₁, hnl₂] at hsN
      rw [hnl₁] at h₁
      rw [hnl₂] at h₂
      obtain ⟨hvN, hrN, hlN⟩ := hsN
      replace hvN : oN₂ = oN₁ := hvN
      replace hrN : cx₂N.remaining = crlfOf cx₁N.remaining := hrN
      replace hlN : cx₂N.errors.length = cx₁N.errors.length := hlN
      subst hvN
      cases oN₂ with
      | none =>
          cases h₁
          cases h₂
          have hnf₁ : cx₁N = cx₁ := by
            have := parse_newline_fail cx₁ (by rw [hnl₁])
            rw [hnl₁] at this
            exact this
          have hnf₂ : cx₂N = cx₂ := by
            have := parse_newline_fail cx₂ (by rw [hnl₂])
            rw [hnl₂] at this
            exact this
          left
          refine ⟨hk, ?_⟩
          rw [hnf₁, hnf₂]
          exact hrel
      | some u =>
          have hlt₁ : cx₁N.remaining.length < cx₁.remaining.length := by
            rcases parse_newline_cases cx₁ with ⟨heq, _⟩ | ⟨hv, hs, hl, he⟩
            · rw [heq] at hnl₁
              cases hnl₁
            · rw [hnl₁] at hl
              exact hl
          have hlt₂ : cx₂N.remaining.length < cx₂.remaining.length := by
            rcases parse_newline_cases cx₂ with ⟨heq, _⟩ | ⟨hv, hs, hl, he⟩
            · rw [heq] at hnl₂
              cases hnl₂
            · rw [hnl₂] at hl
              exact hl
          rcases hpc₁ : parse_card (n + 1) cx₁N with _ | ⟨oC₁, cx₁C⟩
          · simp only [hpc₁] at h₁
            cases h₁
          rcases hpc₂ : parse_card (g + 1) cx₂N with _ | ⟨oC₂, cx₂C⟩
          · simp only [hpc₂] at h₂
            cases h₂
          simp only [hpc₁] at h₁
          simp only [hpc₂] at h₂
          obtain ⟨wC, s1, sdisj₁⟩ := parse_card_spec (n + 1) cx₁N (by omega)
          have hidC : some wC = some (oC₁, cx₁C) := s1.symm.trans hpc₁
          cases hidC
          obtain ⟨wD, u1, udisj₂⟩ := parse_card_spec (g + 1) cx₂N (by omega)
          have hidD : some wD = some (oC₂, cx₂C) := u1.symm.trans hpc₂
          cases hidD
          rcases parse_card_sim (n + 1) (g + 1) cx₁N cx₂N (oC₁, cx₁C)
              (oC₂, cx₂C) (by omega) (by omega) hpc₁ hpc₂ ⟨hrN, hlN⟩ with
            ⟨hcn₁, hcn₂, hrelC⟩ | ⟨card, hcs₁, hcs₂, hrelC⟩ |
              ⟨card, hcs₁, hbad⟩
          · replace hcn₁ : oC₁ = none := hcn₁
            replace hcn₂ : oC₂ = none := hcn₂
            subst hcn₁
            subst hcn₂
            replace h₁ : (match parse_blank_line (n + 1) cx₁C with
              | none => none
              | some cx₃ => cardsLoop n cx₃ cards₁) = some r₁ := h₁
            replace h₂ : (match parse_blank_line (g + 1) cx₂C with
              | none => none
              | some cx₃ => cardsLoop g cx₃ cards₂) = some r₂ := h₂
            rcases hbl₁ : parse_blank_line (n + 1) cx₁C with _ | cx₁E
            · rw [hbl₁] at h₁
              cases h₁
            rcases hbl₂ : parse_blank_line (g + 1) cx₂C with _ | cx₂E
            · rw [hbl₂] at h₂
              cases h₂
            rw [hbl₁] at h₁
            rw [hbl₂] at h₂
            have hce₁ : cx₁C = cx₁N := by
              rcases sdisj₁ with ⟨_, hcc, _⟩ | ⟨c, hc, _⟩
              · exact hcc
              · exact absurd (show (none : Option Card) = some c from hc)
                  (by simp)
            have hce₂ : cx₂C = cx₂N := by
              rcases udisj₂ with ⟨_, hcc, _⟩ | ⟨c, hc, _⟩
              · exact hcc
              · exact absurd (show (none : Option Card) = some c from hc)
                  (by simp)
            have hrelE := parse_blank_line_sim (n + 1) (g + 1) cx₁C cx₂C
              cx₁E cx₂E hbl₁ hbl₂ hrelC
            obtain ⟨wE, b1, b2, b3, b4⟩ := parse_blank_line_spec (n + 1) cx₁C
              (by rw [hce₁]; omega)
            have hidE : some wE = some cx₁E := b1.symm.trans hbl₁
            cases hidE
            obtain ⟨wF, c1, c2, c3, c4⟩ := parse_blank_line_spec (g + 1) cx₂C
              (by rw [hce₂]; omega)
            have hidF : some wF = some cx₂E := c1.symm.trans hbl₂
            cases hidF
            have hle₁ : cx₁E.remaining.length ≤ cx₁C.remaining.length := by
              rw [b3]
              have u1 := commentRest_length_le (dropWsP cx₁C.remaining)
              have u2 := dropWsP_length_le cx₁C.remaining
              omega
            have hle₂ : cx₂E.remaining.length ≤ cx₂C.remaining.length := by
              rw [c3]
              have u1 := commentRest_length_le (dropWsP cx₂C.remaining)
              have u2 := dropWsP_length_le cx₂C.remaining
              omega
            refine ih g cx₁E cx₂E cards₁ cards₂ r₁ r₂ ?_ ?_ h₁ h₂ hrelE hk
            · rw [hce₁] at hle₁
              omega
            · rw [hce₂] at hle₂
              omega
          · replace hcs₁ : oC₁ = some card := hcs₁
            replace hcs₂ : oC₂ = some card := hcs₂
            subst hcs₁
            subst hcs₂
            replace h₁ : (match lookupCard cards₁ card with
              | some orig => cardsLoop n (pushErr cx₁C
                  (ParseError.DuplicateCard orig (cx₁N.offset, cx₁C.offset)))
                  cards₁
              | none => cardsLoop n cx₁C
                  (cards₁ ++ [(card, cx₁N.offset, cx₁C.offset)])) =
              some r₁ := h₁
            replace h₂ : (match lookupCard cards₂ card with
              | some orig => cardsLoop g (pushErr cx₂C
                  (ParseError.DuplicateCard orig (cx₂N.offset, cx₂C.offset)))
                  cards₂
              | none => cardsLoop g cx₂C
                  (cards₂ ++ [(card, cx₂N.offset, cx₂C.offset)])) =
              some r₂ := h₂
            replace hrelC : CtxRel cx₁C cx₂C := hrelC
            have hlc := lookupCard_keys cards₁ cards₂ hk card
            have hlen₁ : cx₁C.remaining.length ≤ cx₁N.remaining.length := by
              rcases sdisj₁ with ⟨hn, _⟩ | ⟨c, hc, _, hlen, _⟩
              · exact absurd (show some card = none from hn) (by simp)
              · exact hlen
            have hlen₂ : cx₂C.remaining.length ≤ cx₂N.remaining.length := by
              rcases udisj₂ with ⟨hn, _⟩ | ⟨c, hc, _, hlen, _⟩
              · exact absurd (show some card = none from hn) (by simp)
              · exact hlen
            rcases hlk₁ : lookupCard cards₁ card with _ | sp₁
            · rcases hlk₂ : lookupCard cards₂ card with _ | sp₂
              · rw [hlk₁] at h₁
                rw [hlk₂] at h₂
                exact ih g cx₁C cx₂C _ _ r₁ r₂ (by omega) (by omega) h₁ h₂
                  hrelC (by simp [hk])
              · rw [hlk₁, hlk₂] at hlc
                simp at hlc
            · rcases hlk₂ : lookupCard cards₂ card with _ | sp₂
              · rw [hlk₁, hlk₂] at hlc
                simp at hlc
              · rw [hlk₁] at h₁
                rw [hlk₂] at h₂
                exact ih g _ _ cards₁ cards₂ r₁ r₂
                  (by simp [pushErr]; omega) (by simp [pushErr]; omega)
                  h₁ h₂ (CtxRel_push hrelC _ _) hk
          · replace hcs₁ : oC₁ = some card := hcs₁
            replace hbad : cx₁C.errors ≠ [] := hbad
            subst hcs₁
            replace h₁ : (match lookupCard cards₁ card with
              | some orig => cardsLoop n (pushErr cx₁C
                  (ParseError.DuplicateCard orig (cx₁N.offset, cx₁C.offset)))
                  cards₁
              | none => cardsLoop n cx₁C
                  (cards₁ ++ [(card, cx₁N.offset, cx₁C.offset)])) =
              some r₁ := h₁
            right
            have hlen₁ : cx₁C.remaining.length ≤ cx₁N.remaining.length := by
              rcases sdisj₁ with ⟨hn, _⟩ | ⟨c, hc, _, hlen, _⟩
              · exact absurd (show some card = none from hn) (by simp)
              · exact hlen
            have hale : atLineEnd cx₁C.remaining := by
              rcases sdisj₁ with ⟨hn, _⟩ | ⟨c, hc, _, _, hend⟩
              · exact absurd (show some card = none from hn) (by simp)
              · exact hend.2
            rcases hlk₁ : lookupCard cards₁ card with _ | sp₁
            · rw [hlk₁] at h₁
              obtain ⟨wr, wcx, q1, q2, q3, q4⟩ :=
                cardsLoop_spec n cx₁C (cards₁ ++ [(card, (cx₁N.offset,
                  cx₁C.offset))]) (by omega) hale
              have hid : some (wr, wcx) = some r₁ := q1.symm.trans h₁
              cases hid
              exact errsExtend_ne q3 hbad
            · rw [hlk₁] at h₁
              obtain ⟨wr, wcx, q1, q2, q3, q4⟩ :=
                cardsLoop_spec n (pushErr cx₁C (.DuplicateCard sp₁
                  (cx₁N.offset, cx₁C.offset))) cards₁
                  (by simp [pushErr]; omega) (by exact hale)
              have hid : some (wr, wcx) = some r₁ := q1.symm.trans h₁
              cases hid
              exact errsExtend_ne q3 (pushErr_ne _ _)

theorem parse_set_inner_sim (f₁ f₂ : Nat) (cx₁ cx₂ : Ctx)
    (set₁ set₂ : Set) (cx₁A cx₂A : Ctx)
    (hb₁ : cx₁.remaining.length < f₁) (hb₂ : cx₂.remaining.length < f₂)
    (h₁ : parse_set_inner f₁ cx₁ = some (set₁, cx₁A))
    (h₂ : parse_set_inner f₂ cx₂ = some (set₂, cx₂A))
    (hrel : CtxRel cx₁ cx₂) :
    (set₂ = set₁ ∧ CtxRel cx₁A cx₂A) ∨ cx₁A.errors ≠ [] := by
  rw [parse_set_inner] at h₁ h₂
  rcases hsb₁ : skipBlankLines f₁ cx₁ with _ | cx₁B
  · rw [hsb₁] at h₁
    cases h₁
  rcases hsb₂ : skipBlankLines f₂ cx₂ with _ | cx₂B
  · rw [hsb₂] at h₂
    cases h₂
  rw [hsb₁] at h₁
  rw [hsb₂] at h₂
  simp only [Option.some_bind] at h₁ h₂
  have hrelB := skipBlankLines_sim f₁ f₂ cx₁ cx₂ cx₁B cx₂B hb₁ hb₂ hsb₁ hsb₂
    hrel
  obtain ⟨wB, e1, e2, e3, e4⟩ := skipBlankLines_spec f₁ cx₁ hb₁
  have hidB : some wB = some cx₁B := e1.symm.trans hsb₁
  cases hidB
  obtain ⟨wC, k1, k2, k3, k4⟩ := skipBlankLines_spec f₂ cx₂ hb₂
  have hidC : some wC = some cx₂B := k1.symm.trans hsb₂
  cases hidC
  rcases hti₁ : parse_title f₁ cx₁B with _ | ⟨t₁, cx₁T⟩
  · rw [hti₁] at h₁
    cases h₁
  rcases hti₂ : parse_title f₂ cx₂B with _ | ⟨t₂, cx₂T⟩
  · rw [hti₂] at h₂
    cases h₂
  rw [hti₁] at h₁
  rw [hti₂] at h₂
  simp only [Option.some_bind] at h₁ h₂
  obtain ⟨hteq, hrelT⟩ := parse_title_sim f₁ f₂ cx₁B cx₂B t₁ t₂ cx₁T cx₂T
    hti₁ hti₂ hrelB
  obtain ⟨wT, p1, p2, p3, p4, p5⟩ := parse_title_spec f₁ cx₁B (by omega)
  have hidT : some (strTrim (cx₁B.remaining.takeWhile isTitleChar), wT) =
    some (t₁, cx₁T) := p1.symm.trans hti₁
  cases hidT
  obtain ⟨wU, q1, q2, q3, q4, q5⟩ := parse_title_spec f₂ cx₂B (by omega)
  have hidU : some (strTrim (cx₂B.remaining.takeWhile isTitleChar), wU) =
    some (t₂, cx₂T) := q1.symm.trans hti₂
  cases hidU
  rcases hcl₁ : cardsLoop f₁ cx₁T [] with _ | ⟨cards₁, cx₁L⟩
  · rw [hcl₁] at h₁
    cases h₁
  rcases hcl₂ : cardsLoop f₂ cx₂T [] with _ | ⟨cards₂, cx₂L⟩
  · rw [hcl₂] at h₂
    cases h₂
  rw [hcl₁] at h₁
  rw [hcl₂] at h₂
  simp only [Option.some_bind] at h₁ h₂
  rcases cardsLoop_sim f₁ f₂ cx₁T cx₂T [] [] (cards₁, cx₁L) (cards₂, cx₂L)
      (by omega) (by omega) hcl₁ hcl₂ hrelT rfl with
    ⟨hkL, hrelL⟩ | hbad
  · replace hkL : cards₂.map Prod.fst = cards₁.map Prod.fst := hkL
    replace hrelL : CtxRel cx₁L cx₂L := hrelL
    have hiff : cards₂ = [] ↔ cards₁ = [] := by
      constructor
      · intro h
        subst h
        simpa using hkL.symm
      · intro h
        subst h
        simpa using hkL
    by_cases hc : cards₁ = []
    · rw [if_pos hc] at h₁
      rw [if_pos (hiff.mpr hc)] at h₂
      cases h₁
      cases h₂
      refine Or.inl ⟨?_, CtxRel_push hrelL _ _⟩
      show (⟨_, cards₂.map Prod.fst⟩ : Set) = ⟨_, cards₁.map Prod.fst⟩
      rw [hkL, hteq]
    · rw [if_neg hc] at h₁
      rw [if_neg (fun hh => hc (hiff.mp hh))] at h₂
      cases h₁
      cases h₂
      refine Or.inl ⟨?_, hrelL⟩
      show (⟨_, cards₂.map Prod.fst⟩ : Set) = ⟨_, cards₁.map Prod.fst⟩
      rw [hkL, hteq]
  · replace hbad : cx₁L.errors ≠ [] := hbad
    right
    by_cases hc : cards₁ = []
    · rw [if_pos hc] at h₁
      cases h₁
      exact pushErr_ne _ _
    · rw [if_neg hc] at h₁
      cases h₁
      exact hbad

/-! ## Claim theorems -/

/-- C2: for every snapshot state and every outcome of a sub-parse that only
appended diagnostics and did not change the source, a failed sub-parse is
rolled back by `try_parse` to exactly the snapshot state (cursor position and
diagnostic list restored), while a successful sub-parse's consumed input and
pushed diagnostics are kept unchanged. -/
theorem claim_C2 {α : Type} (cx : Ctx) (r : Option α × Ctx)
    (hsrc : r.2.source = cx.source)
    (happ : ∃ Δ, r.2.errors = cx.errors ++ Δ) :
    (r.1 = none → tryParse cx r = (none, cx)) ∧
    (r.1.isSome → tryParse cx r = r) := by
  obtain ⟨Δ, hΔ⟩ := happ
  obtain ⟨res, cxAfter⟩ := r
  constructor
  · rintro rfl
    simp only [tryParse, tryRollback]
    congr 1
    cases cx
    simp_all [List.take_left]
  · rintro h
    match res, h with
    | some v, _ => rfl

/-- Witness for C2 at a concrete snapshot and a concrete failed sub-parse
outcome that had consumed one character and pushed one diagnostic. -/
theorem claim_C2_witness :
    tryParse (⟨['a'], ['a'], [.EmptySet]⟩ : Ctx)
        ((none, ⟨['a'], [], [.EmptySet, .EmptySet]⟩) : Option Unit × Ctx) =
      (none, ⟨['a'], ['a'], [.EmptySet]⟩) :=
  (claim_C2 ⟨['a'], ['a'], [.EmptySet]⟩
      (none, ⟨['a'], [], [.EmptySet, .EmptySet]⟩) rfl
      ⟨[.EmptySet], rfl⟩).1 rfl

/-- C3: for every document on which `parse_set` succeeds (returns `Ok`),
`parse_set` applied to the same document with every LF line ending replaced
by CRLF (the `crlfOf` transform) also succeeds and returns an equal `Set`
(same title and the same cards). -/
theorem claim_C3 (input : Str) (set : Set)
    (h : parse_set input = some (.ok set)) :
    parse_set (crlfOf input) = some (.ok set) := by
  obtain ⟨set₁, cx₁A, g1, g2, g3, g4⟩ :=
    parse_set_inner_spec (input.length + 2) (initCtx input)
      (by show input.length < input.length + 2; omega)
  rw [parse_set, g1] at h
  replace h : some (if cx₁A.remaining ≠ [] then
        PResult.panicked cx₁A.remaining
      else if cx₁A.errors = [] then PResult.ok set₁
      else PResult.err cx₁A.errors) = some (.ok set) := h
  rw [if_neg (by simp [g4])] at h
  by_cases herr : cx₁A.errors = []
  · rw [if_pos herr] at h
    replace h : PResult.ok set₁ = PResult.ok set := by
      cases h
      rfl
    have hset : set₁ = set := by
      cases h
      rfl
    obtain ⟨set₂, cx₂A, k1, k2, k3, k4⟩ :=
      parse_set_inner_spec ((crlfOf input).length + 2) (initCtx (crlfOf input))
        (by show (crlfOf input).length < (crlfOf input).length + 2; omega)
    rcases parse_set_inner_sim (input.length + 2) ((crlfOf input).length + 2)
        (initCtx input) (initCtx (crlfOf input)) set₁ set₂ cx₁A cx₂A
        (by show input.length < input.length + 2; omega)
        (by show (crlfOf input).length < (crlfOf input).length + 2; omega)
        g1 k1 ⟨rfl, rfl⟩ with
      ⟨hseq, hrel⟩ | hbad
    · have herr₂ : cx₂A.errors = [] := by
        have := hrel.2
        rw [herr] at this
        exact List.eq_nil_of_length_eq_zero this
      rw [parse_set, k1]
      show some (if cx₂A.remaining ≠ [] then
            PResult.panicked cx₂A.remaining
          else if cx₂A.errors = [] then PResult.ok set₂
          else PResult.err cx₂A.errors) = some (.ok set)
      rw [if_neg (by simp [k4]), if_pos herr₂, hseq, hset]
    · exact absurd herr hbad
  · rw [if_neg herr] at h
    cases h

/-- The CRLF-equivalence theorem applied at the concrete document
`"t\na - b"`: both the LF version and its CRLF version parse to the same
set. -/
theorem claim_C3_witness :
    parse_set ['t', '\n', 'a', ' ', '-', ' ', 'b'] =
      some (.ok ⟨['t'], [⟨[['a']], [['b']]⟩]⟩) ∧
    parse_set (crlfOf ['t', '\n', 'a', ' ', '-', ' ', 'b']) =
      some (.ok ⟨['t'], [⟨[['a']], [['b']]⟩]⟩) :=
  ⟨by decide, claim_C3 _ _ (by decide)⟩

/-- C1: for every input string, the whole-document parse runs to completion
consuming the entire input (no panic, no early abort at the first
diagnostic), and `parse_set` returns `Ok` exactly when the parse produced no
diagnostics — otherwise it returns `Err` carrying exactly the complete
ordered diagnostic list that the document parse accumulated. -/
theorem claim_C1 (input : Str) :
    ∃ set errs,
      parse_set_inner (input.length + 2) (initCtx input) =
        some (set, ⟨input, [], errs⟩) ∧
      parse_set input =
        some (if errs = [] then .ok set else .err errs) := by
  obtain ⟨set, cx', h1, h2, h3, h4⟩ :=
    parse_set_inner_spec (input.length + 2) (initCtx input)
      (by simp [initCtx])
  have hcx : cx' = ⟨input, [], cx'.errors⟩ := by
    obtain ⟨s, r, e⟩ := cx'
    simp only at h2 h4
    simp [initCtx] at h2
    simp [h2, h4]
  refine ⟨set, cx'.errors, by rw [h1, ← hcx], ?_⟩
  rw [parse_set, h1, hcx]
  simp

/-- C10: the document parser terminates on every finite input: with fuel
`input.length + 2` no loop ever exhausts its fuel (each iteration of every
internal loop either consumes at least one character of the remaining input
or exits), so `parse_set` always returns a result. -/
theorem claim_C10 (input : Str) : (parse_set input).isSome := by
  obtain ⟨set, cx', h1, _, _, _⟩ :=
    parse_set_inner_spec (input.length + 2) (initCtx input)
      (by simp [initCtx])
  simp [parse_set, h1]

/-- C4: card parsing on the line `foo-bar   -   baz-quux` yields exactly one
card with term set `{foo-bar}` and definition set `{baz-quux}`, with no
diagnostics and all input consumed: the contiguous dash run after an atom is
appended verbatim, while the whitespace-surrounded dash separates terms from
definitions. -/
theorem claim_C4 :
    parse_card 24 (initCtx ("foo-bar   -   baz-quux").data) =
      some (some { terms := [("foo-bar").data],
                   definitions := [("baz-quux").data] },
        { source := ("foo-bar   -   baz-quux").data
          remaining := []
          errors := [] }) := by
  decide

/-- C5: on `"t\n\na,b - c\n\na,b - c"` the document parse yields exactly one
card `{a,b} - {c}` (the first occurrence; the duplicate is discarded) and
exactly one `DuplicateCard` diagnostic linking the two occurrences' spans,
and `parse_set` therefore returns `Err` with exactly that diagnostic. -/
theorem claim_C5 :
    parse_set_inner 21 (initCtx ("t\n\na,b - c\n\na,b - c").data) =
      some ({ title := ['t'],
              cards := [{ terms := [['a'], ['b']], definitions := [['c']] }] },
        { source := ("t\n\na,b - c\n\na,b - c").data
          remaining := []
          errors := [.DuplicateCard (3, 10) (12, 19)] }) ∧
    parse_set ("t\n\na,b - c\n\na,b - c").data =
      some (.err [.DuplicateCard (3, 10) (12, 19)]) := by
  constructor <;> decide

/-- Counterexample to C6: on the quoted input `"\'\/\\"` the guess parser
does NOT drop the two unknown escapes `\'` and `\/`; it copies the escaped
characters verbatim, so the result is `{"'/\"}`, not the claimed `{"\"}`. -/
theorem claim_C6_cex :
    parse_guess ['"', '\\', aposChar, '\\', '/', '\\', '\\', '"'] =
        some (.finished [[aposChar, '/', '\\']]) ∧
    parse_guess ['"', '\\', aposChar, '\\', '/', '\\', '\\', '"'] ≠
        some (.finished [['\\']]) := by
  constructor <;> decide

/-- C6 amended: `parse_guess` on the 8-character input `"\'\/\\"` returns
the singleton set containing the three-character string `'/\`: inside a
quoted guess every backslash is dropped and the character following it  —
known escape or not — is copied verbatim into the option. -/
theorem claim_C6 :
    parse_guess ['"', '\\', aposChar, '\\', '/', '\\', '\\', '"'] =
      some (.finished [[aposChar, '/', '\\']]) := by
  decide

/-- C7: `parse_options` on `",   , "` succeeds with an empty option set,
one unconsumed trailing space, and exactly three `EmptyOption` diagnostics
at spans `0..1`, `0..5` and `4..6`, in that order. -/
theorem claim_C7 :
    parse_options 8 (initCtx (",   , ").data) =
      some (some [],
        { source := (",   , ").data
          remaining := [' ']
          errors := [.EmptyOption (0, 1), .EmptyOption (0, 5),
                     .EmptyOption (4, 6)] }) := by
  rfl

/-- Counterexample to C8: the document `t\n"a,b" - c` parses successfully to
a set whose single card has the one term `a,b`; re-rendering that set as
`term,term - def,def` lines yields `t\na,b - c`, which parses successfully
but to a DIFFERENT set (two terms `a` and `b`), so the round-trip does not
return an equal `Set`. -/
theorem claim_C8_cex :
    parse_set ("t\n" ++ "\"a,b\" - c").data = some (.ok c8SetQuoted) ∧
    renderSet c8SetQuoted = ("t\na,b - c").data ∧
    parse_set ("t\na,b - c").data = some (.ok c8SetPlain) ∧
    setEqb c8SetQuoted c8SetPlain = false := by
  refine ⟨by rfl, by rfl, by rfl, by rfl⟩

/-- C8 (amended): the round trip is not the identity — rendering a
successfully parsed set as `term,term - def,def` lines loses the quoting of
any term or definition that contains a comma, so re-parsing can return a
different set. On the set parsed from `t\n"a,b" - c` (one card with single
term `a,b`), re-parsing the rendered document `t\na,b - c` succeeds with no
diagnostics but splits the term into the two terms `a` and `b`; the result
is stable from then on: the re-parsed set renders to the very same document
and re-parses to itself. -/
theorem claim_C8 :
    parse_set (renderSet c8SetQuoted) = some (.ok c8SetPlain) ∧
    setEqb c8SetQuoted c8SetPlain = false ∧
    renderSet c8SetPlain = renderSet c8SetQuoted ∧
    parse_set (renderSet c8SetPlain) = some (.ok c8SetPlain) := by
  refine ⟨by rfl, by rfl, by rfl, by rfl⟩

/-- C9 (the code bug): on the 3-character input `""x` the guess parser
consumes the empty quoted option, leaves `x` unconsumed, and reaches the
`panic!("Trailing characters")` — contradicting the documented contract
that `parse_guess` never fails (and the fuzz target exercising it). -/
theorem claim_C9 :
    parse_guess ("\"\"x").data = some (.panicked ['x']) := by
  decide

end Revise
